import Mathlib

/-!
# Leaky-bucket rate limiter (`leakybucket.go`)

A shallow embedding of the `Bucket` value type, `BucketSize` and `Counter.Add`,
followed by the properties established about them.

Modelling conventions.

* `int64` values are integers; every `int64` operation of the source is followed
  by `wrap64`, the two's complement reduction Go prescribes for signed overflow.
  Integer division is Go's truncated division (`Int.tdiv`) and a zero divisor
  is a run-time panic, rendered as `none`.
* `float64` values are rationals, in two readings of the same source. The
  definitions `Bucket.countAt`, `Bucket.CountAt`, `Bucket.Plus`,
  `Bucket.WillReach` and `Counter.Add` compute with them exactly and convert a
  `float64` to an integer type by the exact ceiling or truncation; the
  properties stated on them are those the control flow of `Add`, the clamp of
  `WillReach`, `BucketSize` or small integer counts decide. The namespace `F64`
  repeats the five functions with every operation rounded to the nearest
  `float64` and with the conversion to `int64` that the amd64 compiler emits;
  the properties that rounding or the range of that conversion decide are
  stated there.
* `time.Time` is a count of nanoseconds relative to the Unix epoch,
  `time.Duration` a count of nanoseconds held in an `int64`; `Time.Sub`
  saturates at the bounds of `int64` as the standard library documents.
* The wall-clock read `time.Now()` of `Counter.Add` is the explicit argument
  `now` (the tests of the repository call `Add` with such an argument).
* The `map[string]Bucket` is a function from keys to optional buckets.
-/

namespace LeakyBucket

/-- Smallest `int64`. -/
def minInt64 : Int := -9223372036854775808

/-- Largest `int64`. -/
def maxInt64 : Int := 9223372036854775807

/-- Two's complement reduction of an integer to the `int64` range. -/
def wrap64 (x : Int) : Int :=
  (x + 9223372036854775808) % 18446744073709551616 - 9223372036854775808

/-- Conversion of a `float64` to an integer type: truncation toward zero. -/
def truncQ (x : ℚ) : Int := if 0 ≤ x then ⌊x⌋ else ⌈x⌉

/-- The zero `time.Time` (January 1, year 1, 00:00 UTC), which is the
`UpdatedAt` of the zero-value `Bucket`. -/
def zeroTime : Int := -62135596800000000000

/-- The instant `time.Unix(0, 0)`. -/
def unixEpoch : Int := 0

/-- Saturating difference of two instants (`Time.Sub`). -/
def timeSub (t u : Int) : Int := max minInt64 (min maxInt64 (t - u))

/-- Shift of an instant by a duration (`Time.Add`). -/
def timeAdd (t : Int) (d : Int) : Int := t + d

/-- WindowDuration is the duration which all limits are specified in terms of:
one minute, in nanoseconds. -/
def WindowDuration : Int := 60000000000

/-- BurstTolerance determines the size of each bucket: one second, in
nanoseconds. -/
def BurstTolerance : Int := 1000000000

/-- Bucket represents a single rate limit bucket. -/
structure Bucket where
  UpdatedAt : Int
  LimitPerWindow : Int
  Count : ℚ
deriving DecidableEq

/-- Info contains rate limit information produced by a rate limit check. -/
structure Info where
  Bucket : String
  ResetAt : Int
  BucketSize : Int
  Remaining : Int
  Allowed : Bool
deriving DecidableEq

/-- Counter holds the current state of the rate limit buckets. -/
structure Counter where
  buckets : String → Option Bucket

/-- The zero-value `Bucket`, read from the map for a key that is absent. -/
def zeroBucket : Bucket :=
  { UpdatedAt := zeroTime, LimitPerWindow := 0, Count := 0 }

/-- NewCounter creates a new rate limiting counter. -/
def NewCounter : Counter := { buckets := fun _ => none }

/-- The map read `p.buckets[key]`. -/
def Counter.lookup (p : Counter) (key : String) : Bucket :=
  (p.buckets key).getD zeroBucket

/-- The map write `p.buckets[key] = b`. -/
def Counter.store (p : Counter) (key : String) (b : Bucket) : Counter :=
  { buckets := fun k => if k = key then some b else p.buckets k }

/-- The unexported `countAt`: the stored count minus the leakage since
`UpdatedAt`, clamped at zero. -/
def Bucket.countAt (b : Bucket) (now : Int) : ℚ :=
  let leakage :=
    ((b.LimitPerWindow : ℚ) * ((timeSub now b.UpdatedAt : Int) : ℚ)) /
      ((WindowDuration : Int) : ℚ)
  max 0 (b.Count - leakage)

/-- CountAt returns the count of the bucket at the given time. -/
def Bucket.CountAt (b : Bucket) (now : Int) : Int := ⌈b.countAt now⌉

/-- Plus returns a new copy of the Bucket with the given amount of tokens added
to it. -/
def Bucket.Plus (b : Bucket) (now : Int) (limitPerWindow add : Int) : Bucket :=
  { UpdatedAt := now
    LimitPerWindow := limitPerWindow
    Count := b.countAt now + (add : ℚ) }

/-- WillReach returns the time at which the bucket will leak enough to reach the
given count, or now if it is already at or below the count. The result is
`none` when the division by `LimitPerWindow` panics. -/
def Bucket.WillReach (b : Bucket) (count : Int) (now : Int) : Option Int :=
  if count < 0 then some now
  else
    let needToLeak := b.Count - (count : ℚ)
    if needToLeak ≤ 0 then some now
    else if b.LimitPerWindow = 0 then none
    else
      let resetAt := timeAdd b.UpdatedAt
        (wrap64 (Int.tdiv (truncQ (needToLeak * ((WindowDuration : Int) : ℚ)))
          b.LimitPerWindow))
      if resetAt < now then some now else some resetAt

/-- BucketSize determines the size of each bucket automatically based on the
given limit per window. -/
def BucketSize (limitPerWindow : Int) : Int :=
  let a := wrap64 (limitPerWindow * BurstTolerance)
  let b := WindowDuration
  wrap64 (Int.tdiv (wrap64 (wrap64 (a + b) - 1)) b)

/-- Add checks the current value and size of the rate limit bucket specified by
`key`, based on the given limit per window. The result pairs the returned
`Info` with the counter after the call; it is `none` when the call panics. -/
def Counter.Add (p : Counter) (key : String) (limitPerWindow add : Int)
    (now : Int) : Option (Info × Counter) :=
  if limitPerWindow = 0 then
    some ({ Bucket := key, ResetAt := now, BucketSize := 0, Remaining := 0,
            Allowed := true }, p)
  else
    let existingBucket := p.lookup key
    let newBucket := existingBucket.Plus now limitPerWindow add
    let newCount := newBucket.CountAt now
    let bucketSize := BucketSize limitPerWindow
    if newCount > bucketSize then
      match existingBucket.WillReach (wrap64 (bucketSize - add)) now with
      | none => none
      | some resetAt =>
        some ({ Bucket := key, ResetAt := resetAt, BucketSize := bucketSize,
                Remaining := max 0 (wrap64 (bucketSize - existingBucket.CountAt now)),
                Allowed := false }, p)
    else
      match newBucket.WillReach (wrap64 (bucketSize - 1)) now with
      | none => none
      | some resetAt =>
        some ({ Bucket := key, ResetAt := resetAt, BucketSize := bucketSize,
                Remaining := wrap64 (bucketSize - newCount),
                Allowed := true }, p.store key newBucket)

/-- A call of `Counter.Add`: its key, limit, amount and clock reading. -/
structure Call where
  key : String
  limitPerWindow : Int
  add : Int
  now : Int

/-- Runs a sequence of `Add` calls from left to right, collecting the returned
`Info` values; `none` when one of the calls panics. -/
def Counter.addAll (p : Counter) : List Call → Option (List Info × Counter)
  | [] => some ([], p)
  | c :: cs =>
    match p.Add c.key c.limitPerWindow c.add c.now with
    | none => none
    | some (info, p') =>
      match p'.addAll cs with
      | none => none
      | some (infos, p'') => some (info :: infos, p'')

/-- Counters reachable from `NewCounter` by a sequence of returning `Add`
calls. -/
inductive Reachable : Counter → Prop
  | init : Reachable NewCounter
  | step {p p' : Counter} {info : Info} (key : String) (limitPerWindow add now : Int) :
      Reachable p → p.Add key limitPerWindow add now = some (info, p') → Reachable p'

/-- Counters reachable from `NewCounter` by `Add` calls whose limits are all
positive. -/
inductive ReachablePos : Counter → Prop
  | init : ReachablePos NewCounter
  | step {p p' : Counter} {info : Info} (key : String) (limitPerWindow add now : Int) :
      ReachablePos p → 0 < limitPerWindow →
      p.Add key limitPerWindow add now = some (info, p') → ReachablePos p'

/-- The counter that holds, for `key` alone, `m` tokens stored at `t0` under
`limitPerWindow`; the new counter when `m = 0`. It is the state reached by `m`
admitted single-token calls at `t0`. -/
def burstCounter (key : String) (limitPerWindow t0 : Int) : Nat → Counter
  | 0 => NewCounter
  | m + 1 =>
    NewCounter.store key
      { UpdatedAt := t0, LimitPerWindow := limitPerWindow, Count := ((m + 1 : Nat) : ℚ) }

/-- Counters reachable from `NewCounter` by `Add` calls whose amounts are all
non-negative. -/
inductive ReachableNonneg : Counter → Prop
  | init : ReachableNonneg NewCounter
  | step {p p' : Counter} {info : Info} (key : String) (limitPerWindow add now : Int) :
      ReachableNonneg p → 0 ≤ add →
      p.Add key limitPerWindow add now = some (info, p') → ReachableNonneg p'

/-- The sum of the amounts of those calls whose `Info` says `Allowed`. -/
def allowedSum : List Call → List Info → Int
  | c :: cs, i :: is => (if i.Allowed then c.add else 0) + allowedSum cs is
  | _, _ => 0

/-- The clock reading of the last call of a sequence, `t` when it is empty. -/
def lastNow (t : Int) : List Call → Int
  | [] => t
  | c :: cs => lastNow c.now cs

/-- The clock readings of a sequence of calls never decrease, starting from
`t`. -/
def nondecreasingFrom (t : Int) : List Call → Prop
  | [] => True
  | c :: cs => t ≤ c.now ∧ nondecreasingFrom c.now cs

/-- Invariant of a run of calls on `key` under the constant limit `L`, begun at
`t1`: `S` is the sum admitted so far and `t` the latest clock reading. While the
key is absent nothing was admitted; a stored bucket carries the limit `L`, is
not newer than `t`, holds at most the capacity, and accounts for `S` up to the
leakage since `t1`. -/
def rateInv (key : String) (L t1 : Int) (p : Counter) (t S : Int) : Prop :=
  (p.buckets key = none → S = 0) ∧
    ∀ b, p.buckets key = some b →
      b.LimitPerWindow = L ∧ b.UpdatedAt ≤ t ∧
      (S : ℚ) ≤ b.Count +
        (L : ℚ) * ((b.UpdatedAt - t1 : Int) : ℚ) / ((WindowDuration : Int) : ℚ) ∧
      max 0 b.Count ≤ ((BucketSize L : Int) : ℚ)

/-! ## The `float64` embedding

The definitions above read `float64` as exact rationals. The definitions of the
namespace `F64` repeat `countAt`, `CountAt`, `Plus`, `WillReach` and `Add` with
every `float64` operation rounded to the nearest `float64` (ties to even) and
with the conversion of a `float64` to `int64` as the amd64 code of the Go
compiler performs it: truncation toward zero, and the smallest `int64` when the
truncated value does not fit (the Go specification leaves that case to the
implementation). Finite values only: no operation of the program yields an
infinity or a NaN from finite operands, except the product in `WillReach`,
whose overflow is converted like every other out-of-range value. -/

namespace F64

/-- Binary exponent of the last digit kept when `x` is rounded to a `float64`:
53 significant bits, and never below the exponent -1074 of the subnormals. -/
def ulpExp (x : ℚ) : Int := max (Int.log 2 |x| - 52) (-1074)

/-- The integer nearest to `y`, the even one when `y` is half-way between
two. -/
def roundEven (y : ℚ) : Int :=
  if y - (⌊y⌋ : ℚ) < 1 / 2 then ⌊y⌋
  else if 1 / 2 < y - (⌊y⌋ : ℚ) then ⌊y⌋ + 1
  else if ⌊y⌋ % 2 = 0 then ⌊y⌋ else ⌊y⌋ + 1

/-- Rounding of a rational to the nearest `float64`, ties to even (the default
rounding of IEEE-754 binary64 arithmetic). -/
def rnd (x : ℚ) : ℚ := (roundEven (x / (2 : ℚ) ^ ulpExp x) : ℚ) * (2 : ℚ) ^ ulpExp x

/-- The conversion `float64(n)` of an `int64`. -/
def ofInt (n : Int) : ℚ := rnd (n : ℚ)

/-- The `float64` sum. -/
def fadd (x y : ℚ) : ℚ := rnd (x + y)

/-- The `float64` difference. -/
def fsub (x y : ℚ) : ℚ := rnd (x - y)

/-- The `float64` product. -/
def fmul (x y : ℚ) : ℚ := rnd (x * y)

/-- The `float64` quotient. -/
def fdiv (x y : ℚ) : ℚ := rnd (x / y)

/-- The conversion of a `float64` to `int64` (or `time.Duration`): truncation
toward zero, and `minInt64` when the truncated value is out of range. -/
def toInt64 (x : ℚ) : Int :=
  if minInt64 ≤ truncQ x ∧ truncQ x ≤ maxInt64 then truncQ x else minInt64

/-- The unexported `countAt`, in `float64` arithmetic. -/
def countAt (b : Bucket) (now : Int) : ℚ :=
  let leakage :=
    fdiv (fmul (ofInt b.LimitPerWindow) (ofInt (timeSub now b.UpdatedAt))) (ofInt WindowDuration)
  max 0 (fsub b.Count leakage)

/-- `CountAt`: the `int64` conversion of the ceiling of `countAt`. -/
def CountAt (b : Bucket) (now : Int) : Int := toInt64 ((⌈countAt b now⌉ : Int) : ℚ)

/-- `Plus`, with the `float64` sum of the decayed count and the amount. -/
def Plus (b : Bucket) (now : Int) (limitPerWindow add : Int) : Bucket :=
  { UpdatedAt := now
    LimitPerWindow := limitPerWindow
    Count := fadd (countAt b now) (ofInt add) }

/-- `WillReach`, in `float64` arithmetic; `none` when the division by
`LimitPerWindow` panics. -/
def WillReach (b : Bucket) (count : Int) (now : Int) : Option Int :=
  if count < 0 then some now
  else
    let needToLeak := fsub b.Count (ofInt count)
    if needToLeak ≤ 0 then some now
    else if b.LimitPerWindow = 0 then none
    else
      let resetAt := timeAdd b.UpdatedAt
        (wrap64 (Int.tdiv (toInt64 (fmul needToLeak (ofInt WindowDuration)))
          b.LimitPerWindow))
      if resetAt < now then some now else some resetAt

/-- `Counter.Add` over the `float64` operations. -/
def Add (p : Counter) (key : String) (limitPerWindow add : Int)
    (now : Int) : Option (Info × Counter) :=
  if limitPerWindow = 0 then
    some ({ Bucket := key, ResetAt := now, BucketSize := 0, Remaining := 0,
            Allowed := true }, p)
  else
    let existingBucket := p.lookup key
    let newBucket := Plus existingBucket now limitPerWindow add
    let newCount := CountAt newBucket now
    let bucketSize := BucketSize limitPerWindow
    if newCount > bucketSize then
      match WillReach existingBucket (wrap64 (bucketSize - add)) now with
      | none => none
      | some resetAt =>
        some ({ Bucket := key, ResetAt := resetAt, BucketSize := bucketSize,
                Remaining := max 0 (wrap64 (bucketSize - CountAt existingBucket now)),
                Allowed := false }, p)
    else
      match WillReach newBucket (wrap64 (bucketSize - 1)) now with
      | none => none
      | some resetAt =>
        some ({ Bucket := key, ResetAt := resetAt, BucketSize := bucketSize,
                Remaining := wrap64 (bucketSize - newCount),
                Allowed := true }, p.store key newBucket)

/-- Runs a sequence of `F64.Add` calls from left to right, collecting the
returned `Info` values; `none` when one of the calls panics. -/
def addAll (p : Counter) : List Call → Option (List Info × Counter)
  | [] => some ([], p)
  | c :: cs =>
    match Add p c.key c.limitPerWindow c.add c.now with
    | none => none
    | some (info, p') =>
      match addAll p' cs with
      | none => none
      | some (infos, p'') => some (info :: infos, p'')

end F64

/-! ## Basic facts about the time and integer primitives -/

theorem timeSub_self (t : Int) : timeSub t t = 0 := by
  simp [timeSub, minInt64, maxInt64]

theorem timeSub_mono {t1 t2 : Int} (u : Int) (h : t1 ≤ t2) :
    timeSub t1 u ≤ timeSub t2 u := by
  unfold timeSub
  exact max_le_max le_rfl (min_le_min le_rfl (by omega))

theorem timeSub_eq_sub {t u : Int} (h1 : minInt64 ≤ t - u) (h2 : t - u ≤ maxInt64) :
    timeSub t u = t - u := by
  unfold timeSub
  rw [min_eq_right h2, max_eq_right h1]

theorem timeSub_nonneg {t u : Int} (h : u ≤ t) : 0 ≤ timeSub t u := by
  unfold timeSub minInt64 maxInt64
  have : 0 ≤ t - u := by omega
  exact le_max_of_le_right (le_min (by norm_num) this)

theorem wrap64_eq_self {x : Int} (h1 : minInt64 ≤ x) (h2 : x ≤ maxInt64) :
    wrap64 x = x := by
  unfold wrap64
  unfold minInt64 at h1
  unfold maxInt64 at h2
  omega

theorem windowDuration_pos : (0 : ℚ) < ((WindowDuration : Int) : ℚ) := by
  norm_num [WindowDuration]

/-! ## Basic facts about `Bucket` -/

theorem countAt_nonneg (b : Bucket) (now : Int) : 0 ≤ b.countAt now := by
  unfold Bucket.countAt
  exact le_max_left _ _

theorem countAt_self (b : Bucket) : b.countAt b.UpdatedAt = max 0 b.Count := by
  unfold Bucket.countAt
  simp [timeSub_self]

theorem Plus_countAt (b : Bucket) (now : Int) (limitPerWindow add : Int) :
    (b.Plus now limitPerWindow add).countAt now = max 0 (b.countAt now + (add : ℚ)) := by
  simp [Bucket.countAt, Bucket.Plus, timeSub_self]

theorem Plus_CountAt (b : Bucket) (now : Int) (limitPerWindow add : Int) :
    (b.Plus now limitPerWindow add).CountAt now = ⌈max 0 (b.countAt now + (add : ℚ))⌉ := by
  unfold Bucket.CountAt
  rw [Plus_countAt]

theorem zeroBucket_countAt (now : Int) : zeroBucket.countAt now = 0 := by
  simp [Bucket.countAt, zeroBucket]

theorem WillReach_of_limit_ne_zero (b : Bucket) (count : Int) (now : Int)
    (h : b.LimitPerWindow ≠ 0) : ∃ r, b.WillReach count now = some r := by
  simp only [Bucket.WillReach]
  split_ifs <;> simp

theorem WillReach_of_count_le (b : Bucket) (count : Int) (now : Int)
    (h : b.Count ≤ (count : ℚ)) : b.WillReach count now = some now := by
  simp only [Bucket.WillReach]
  rw [if_pos (sub_nonpos.mpr h)]
  split_ifs <;> rfl

theorem WillReach_of_neg (b : Bucket) (count : Int) (now : Int)
    (h : count < 0) : b.WillReach count now = some now := by
  unfold Bucket.WillReach
  rw [if_pos h]

/-! ## The two paths of `Counter.Add` -/

theorem Add_zero_limit (p : Counter) (key : String) (add : Int) (now : Int) :
    p.Add key 0 add now =
      some ({ Bucket := key, ResetAt := now, BucketSize := 0, Remaining := 0,
              Allowed := true }, p) := by
  simp [Counter.Add]

theorem Add_admitted (p : Counter) (key : String) (limitPerWindow add : Int) (now : Int)
    (hL : limitPerWindow ≠ 0)
    (h : ((p.lookup key).Plus now limitPerWindow add).CountAt now ≤ BucketSize limitPerWindow) :
    ∃ r, ((p.lookup key).Plus now limitPerWindow add).WillReach
            (wrap64 (BucketSize limitPerWindow - 1)) now = some r ∧
      p.Add key limitPerWindow add now =
        some ({ Bucket := key, ResetAt := r, BucketSize := BucketSize limitPerWindow,
                Remaining := wrap64 (BucketSize limitPerWindow -
                  ((p.lookup key).Plus now limitPerWindow add).CountAt now),
                Allowed := true },
              p.store key ((p.lookup key).Plus now limitPerWindow add)) := by
  obtain ⟨r, hr⟩ := WillReach_of_limit_ne_zero ((p.lookup key).Plus now limitPerWindow add)
    (wrap64 (BucketSize limitPerWindow - 1)) now hL
  refine ⟨r, hr, ?_⟩
  unfold Counter.Add
  simp only [if_neg hL, gt_iff_lt, if_neg (not_lt.mpr h), hr]

theorem Add_reject (p : Counter) (key : String) (limitPerWindow add : Int) (now : Int)
    (hL : limitPerWindow ≠ 0)
    (h : BucketSize limitPerWindow < ((p.lookup key).Plus now limitPerWindow add).CountAt now) :
    p.Add key limitPerWindow add now =
      ((p.lookup key).WillReach (wrap64 (BucketSize limitPerWindow - add)) now).map
        (fun r => ({ Bucket := key, ResetAt := r, BucketSize := BucketSize limitPerWindow,
                     Remaining := max 0 (wrap64 (BucketSize limitPerWindow -
                       (p.lookup key).CountAt now)),
                     Allowed := false }, p)) := by
  unfold Counter.Add
  simp only [if_neg hL, gt_iff_lt, if_pos h]
  cases (p.lookup key).WillReach (wrap64 (BucketSize limitPerWindow - add)) now <;> rfl

theorem Add_rejected_unchanged (p : Counter) (key : String) (limitPerWindow add : Int)
    (now : Int) (info : Info) (p' : Counter)
    (hadd : p.Add key limitPerWindow add now = some (info, p'))
    (hrej : info.Allowed = false) : p' = p := by
  by_cases hL : limitPerWindow = 0
  · subst hL
    rw [Add_zero_limit] at hadd
    simp only [Option.some.injEq, Prod.mk.injEq] at hadd
    rw [← hadd.1] at hrej
    simp at hrej
  · by_cases h : ((p.lookup key).Plus now limitPerWindow add).CountAt now ≤ BucketSize limitPerWindow
    · obtain ⟨r, _, hadd'⟩ := Add_admitted p key limitPerWindow add now hL h
      rw [hadd'] at hadd
      simp only [Option.some.injEq, Prod.mk.injEq] at hadd
      rw [← hadd.1] at hrej
      simp at hrej
    · rw [Add_reject p key limitPerWindow add now hL (not_le.mp h)] at hadd
      cases hw : (p.lookup key).WillReach (wrap64 (BucketSize limitPerWindow - add)) now with
      | none => rw [hw] at hadd; simp at hadd
      | some r =>
        rw [hw] at hadd
        simp only [Option.map_some', Option.some.injEq, Prod.mk.injEq] at hadd
        exact hadd.2.symm

theorem NewCounter_lookup (key : String) : NewCounter.lookup key = zeroBucket := rfl

theorem lookup_WillReach_total (p : Counter) (key : String) (count now : Int)
    (hp : ∀ b, p.buckets key = some b → b.LimitPerWindow ≠ 0) :
    ∃ r, (p.lookup key).WillReach count now = some r := by
  cases hb : p.buckets key with
  | some b =>
    have : p.lookup key = b := by simp [Counter.lookup, hb]
    rw [this]
    exact WillReach_of_limit_ne_zero b count now (hp b hb)
  | none =>
    have : p.lookup key = zeroBucket := by simp [Counter.lookup, hb]
    rw [this]
    by_cases hc : count < 0
    · exact ⟨now, WillReach_of_neg _ _ _ hc⟩
    · refine ⟨now, WillReach_of_count_le _ _ _ ?_⟩
      have : (0 : ℚ) ≤ (count : ℚ) := by exact_mod_cast not_lt.mp hc
      simpa [zeroBucket] using this

theorem Add_total (p : Counter) (key : String) (limitPerWindow add now : Int)
    (hp : ∀ b, p.buckets key = some b → b.LimitPerWindow ≠ 0) :
    ∃ info p', p.Add key limitPerWindow add now = some (info, p') ∧
      (info.Allowed = false ↔
        BucketSize limitPerWindow < ((p.lookup key).Plus now limitPerWindow add).CountAt now ∧
          limitPerWindow ≠ 0) := by
  by_cases hL : limitPerWindow = 0
  · subst hL
    exact ⟨_, _, Add_zero_limit p key add now, by simp⟩
  · by_cases h : ((p.lookup key).Plus now limitPerWindow add).CountAt now ≤ BucketSize limitPerWindow
    · obtain ⟨r, _, hadd⟩ := Add_admitted p key limitPerWindow add now hL h
      exact ⟨_, _, hadd, by simpa using fun hlt => absurd h (not_le.mpr hlt)⟩
    · obtain ⟨r, hr⟩ := lookup_WillReach_total p key
        (wrap64 (BucketSize limitPerWindow - add)) now hp
      have hadd := Add_reject p key limitPerWindow add now hL (not_le.mp h)
      rw [hr, Option.map_some'] at hadd
      exact ⟨_, _, hadd, by simpa using ⟨not_le.mp h, hL⟩⟩


theorem Add_cases (p : Counter) (key : String) (limitPerWindow add now : Int)
    (info : Info) (p' : Counter)
    (hadd : p.Add key limitPerWindow add now = some (info, p')) :
    (p' = p ∧ (info.Allowed = true → limitPerWindow = 0)) ∨
      (limitPerWindow ≠ 0 ∧ info.Allowed = true ∧
        ((p.lookup key).Plus now limitPerWindow add).CountAt now ≤ BucketSize limitPerWindow ∧
        p' = p.store key ((p.lookup key).Plus now limitPerWindow add)) := by
  by_cases hL : limitPerWindow = 0
  · subst hL
    rw [Add_zero_limit] at hadd
    simp only [Option.some.injEq, Prod.mk.injEq] at hadd
    exact Or.inl ⟨hadd.2.symm, fun _ => rfl⟩
  · by_cases h : ((p.lookup key).Plus now limitPerWindow add).CountAt now ≤ BucketSize limitPerWindow
    · obtain ⟨r, _, hadd'⟩ := Add_admitted p key limitPerWindow add now hL h
      rw [hadd'] at hadd
      simp only [Option.some.injEq, Prod.mk.injEq] at hadd
      refine Or.inr ⟨hL, ?_, h, hadd.2.symm⟩
      rw [← hadd.1]
    · rw [Add_reject p key limitPerWindow add now hL (not_le.mp h)] at hadd
      cases hw : (p.lookup key).WillReach (wrap64 (BucketSize limitPerWindow - add)) now with
      | none => rw [hw] at hadd; simp at hadd
      | some r =>
        rw [hw] at hadd
        simp only [Option.map_some', Option.some.injEq, Prod.mk.injEq] at hadd
        refine Or.inl ⟨hadd.2.symm, ?_⟩
        rw [← hadd.1]
        simp

theorem store_buckets_self (p : Counter) (key : String) (b : Bucket) :
    (p.store key b).buckets key = some b := by
  simp [Counter.store]

theorem store_buckets_other (p : Counter) (key k : String) (b : Bucket) (h : k ≠ key) :
    (p.store key b).buckets k = p.buckets k := by
  simp [Counter.store, h]

theorem store_lookup_self (p : Counter) (key : String) (b : Bucket) :
    (p.store key b).lookup key = b := by
  simp [Counter.lookup, Counter.store]

theorem Add_eval_admitted (p : Counter) (key : String) (limitPerWindow add now r : Int)
    (hL : limitPerWindow ≠ 0)
    (h : ⌈max 0 ((p.lookup key).countAt now + (add : ℚ))⌉ ≤ BucketSize limitPerWindow)
    (hw : ((p.lookup key).Plus now limitPerWindow add).WillReach
      (wrap64 (BucketSize limitPerWindow - 1)) now = some r) :
    p.Add key limitPerWindow add now =
      some ({ Bucket := key, ResetAt := r, BucketSize := BucketSize limitPerWindow,
              Remaining := wrap64 (BucketSize limitPerWindow -
                ⌈max 0 ((p.lookup key).countAt now + (add : ℚ))⌉),
              Allowed := true },
            p.store key ((p.lookup key).Plus now limitPerWindow add)) := by
  rw [← Plus_CountAt (p.lookup key) now limitPerWindow add] at h ⊢
  obtain ⟨r', hr', hadd⟩ := Add_admitted p key limitPerWindow add now hL h
  rw [hw] at hr'
  cases hr'
  exact hadd

theorem Add_eval_reject (p : Counter) (key : String) (limitPerWindow add now r : Int)
    (hL : limitPerWindow ≠ 0)
    (h : BucketSize limitPerWindow < ⌈max 0 ((p.lookup key).countAt now + (add : ℚ))⌉)
    (hw : (p.lookup key).WillReach (wrap64 (BucketSize limitPerWindow - add)) now = some r) :
    p.Add key limitPerWindow add now =
      some ({ Bucket := key, ResetAt := r, BucketSize := BucketSize limitPerWindow,
              Remaining := max 0 (wrap64 (BucketSize limitPerWindow -
                (p.lookup key).CountAt now)),
              Allowed := false }, p) := by
  rw [← Plus_CountAt (p.lookup key) now limitPerWindow add] at h
  rw [Add_reject p key limitPerWindow add now hL h, hw]
  rfl

theorem stored_le_BucketSize {p : Counter} (hp : Reachable p) (key : String) (b : Bucket)
    (hb : p.buckets key = some b) : b.CountAt b.UpdatedAt ≤ BucketSize b.LimitPerWindow := by
  induction hp generalizing key b with
  | init => simp [NewCounter] at hb
  | step k limitPerWindow add now _ hadd ih =>
    rcases Add_cases _ k limitPerWindow add now _ _ hadd with ⟨hsame, _⟩ | ⟨_, _, hle, hst⟩
    · rw [hsame] at hb
      exact ih key b hb
    · rw [hst] at hb
      by_cases hk : key = k
      · subst hk
        rw [store_buckets_self] at hb
        cases hb
        exact hle
      · rw [store_buckets_other _ _ _ _ hk] at hb
        exact ih key b hb

/-- The counter after the first call of the repository tests. -/
theorem Add_test1_first :
    NewCounter.Add "test1" 120 1 unixEpoch =
      some ({ Bucket := "test1", ResetAt := unixEpoch, BucketSize := 2, Remaining := 1,
              Allowed := true },
            NewCounter.store "test1" { UpdatedAt := unixEpoch, LimitPerWindow := 120, Count := 1 }) := by
  have hB : BucketSize 120 = 2 := by decide
  have hc : ⌈max (0 : ℚ) ((NewCounter.lookup "test1").countAt unixEpoch + ((1 : Int) : ℚ))⌉ = 1 := by
    rw [NewCounter_lookup, zeroBucket_countAt]; norm_num
  have hP : (NewCounter.lookup "test1").Plus unixEpoch 120 1 =
      { UpdatedAt := unixEpoch, LimitPerWindow := 120, Count := 1 } := by
    simp [Bucket.Plus, NewCounter_lookup, zeroBucket_countAt]
  rw [Add_eval_admitted NewCounter "test1" 120 1 unixEpoch unixEpoch (by decide)
    (by rw [hc, hB]; decide)
    (by rw [hP, hB]; exact WillReach_of_count_le _ _ _ (by norm_num [wrap64])), hc, hB, hP]
  rfl

theorem wrap64_range (x : Int) : minInt64 ≤ wrap64 x ∧ wrap64 x ≤ maxInt64 := by
  unfold wrap64 minInt64 maxInt64
  omega

theorem wrap64_of_bounds {x : Int} (h1 : -9223372036854775808 ≤ x)
    (h2 : x ≤ 9223372036854775807) : wrap64 x = x := by
  unfold wrap64
  omega

theorem BucketSize_eq_div (limitPerWindow : Int) (h0 : 0 ≤ limitPerWindow)
    (h1 : limitPerWindow ≤ 9223371976) :
    BucketSize limitPerWindow = (limitPerWindow + 59) / 60 := by
  have ha : wrap64 (limitPerWindow * BurstTolerance) = limitPerWindow * 1000000000 := by
    unfold BurstTolerance
    apply wrap64_of_bounds <;> omega
  have hb : wrap64 (limitPerWindow * 1000000000 + WindowDuration) =
      limitPerWindow * 1000000000 + 60000000000 := by
    unfold WindowDuration
    apply wrap64_of_bounds <;> omega
  have hc : wrap64 (limitPerWindow * 1000000000 + 60000000000 - 1) =
      limitPerWindow * 1000000000 + 60000000000 - 1 := by
    apply wrap64_of_bounds <;> omega
  have hd : Int.tdiv (limitPerWindow * 1000000000 + 60000000000 - 1) WindowDuration =
      (limitPerWindow * 1000000000 + 60000000000 - 1) / 60000000000 := by
    unfold WindowDuration
    exact Int.tdiv_eq_ediv (by omega) (by norm_num)
  simp only [BucketSize]
  rw [ha, hb, hc, hd]
  rw [wrap64_of_bounds (by omega) (by omega)]
  omega

theorem BucketSize_eq_ceil (limitPerWindow : Int) (h0 : 0 < limitPerWindow)
    (h1 : limitPerWindow ≤ 9223371976) :
    BucketSize limitPerWindow =
        ⌈(limitPerWindow : ℚ) * ((BurstTolerance : Int) : ℚ) / ((WindowDuration : Int) : ℚ)⌉ ∧
      BucketSize limitPerWindow = ⌈(limitPerWindow : ℚ) / 60⌉ ∧
      1 ≤ BucketSize limitPerWindow := by
  have hdiv := BucketSize_eq_div limitPerWindow (le_of_lt h0) h1
  have hlo : limitPerWindow ≤ 60 * ((limitPerWindow + 59) / 60) := by omega
  have hhi : 60 * ((limitPerWindow + 59) / 60) < limitPerWindow + 60 := by omega
  have hlo' : (limitPerWindow : ℚ) ≤ 60 * (((limitPerWindow + 59) / 60 : Int) : ℚ) := by
    exact_mod_cast hlo
  have hhi' : 60 * (((limitPerWindow + 59) / 60 : Int) : ℚ) < (limitPerWindow : ℚ) + 60 := by
    exact_mod_cast hhi
  have h60 : BucketSize limitPerWindow = ⌈(limitPerWindow : ℚ) / 60⌉ := by
    rw [hdiv, eq_comm, Int.ceil_eq_iff]
    constructor
    · rw [lt_div_iff₀ (by norm_num)]
      linarith
    · rw [div_le_iff₀ (by norm_num)]
      linarith
  refine ⟨?_, h60, ?_⟩
  · rw [h60]
    congr 1
    norm_num [BurstTolerance, WindowDuration]
    ring
  · rw [hdiv]
    omega

theorem countAt_antitone_aux (b : Bucket) (t1 t2 : Int) (hL : 0 ≤ b.LimitPerWindow)
    (ht : t1 ≤ t2) : b.countAt t2 ≤ b.countAt t1 := by
  unfold Bucket.countAt
  have hs : ((timeSub t1 b.UpdatedAt : Int) : ℚ) ≤ ((timeSub t2 b.UpdatedAt : Int) : ℚ) := by
    exact_mod_cast timeSub_mono b.UpdatedAt ht
  have hL' : (0 : ℚ) ≤ (b.LimitPerWindow : ℚ) := by exact_mod_cast hL
  have hm : (b.LimitPerWindow : ℚ) * ((timeSub t1 b.UpdatedAt : Int) : ℚ) ≤
      (b.LimitPerWindow : ℚ) * ((timeSub t2 b.UpdatedAt : Int) : ℚ) :=
    mul_le_mul_of_nonneg_left hs hL'
  have hd := div_le_div_of_nonneg_right hm (le_of_lt windowDuration_pos)
  exact max_le_max le_rfl (by linarith)

theorem zeroBucket_CountAt (now : Int) : zeroBucket.CountAt now = 0 := by
  simp [Bucket.CountAt, zeroBucket_countAt]

/-- An amount above the capacity is rejected on a new counter. -/
theorem Add_fresh_over :
    NewCounter.Add "k" 120 3 unixEpoch =
      some ({ Bucket := "k", ResetAt := unixEpoch, BucketSize := 2, Remaining := 2,
              Allowed := false }, NewCounter) := by
  have hB : BucketSize 120 = 2 := by decide
  rw [Add_eval_reject NewCounter "k" 120 3 unixEpoch unixEpoch (by decide)
    (by rw [NewCounter_lookup, zeroBucket_countAt, hB, Int.lt_ceil]; norm_num)
    (by rw [hB]; exact WillReach_of_neg _ _ _ (by decide)),
    NewCounter_lookup, zeroBucket_CountAt, hB]
  rfl

theorem store_store (p : Counter) (key : String) (b1 b2 : Bucket) :
    (p.store key b1).store key b2 = p.store key b2 := by
  unfold Counter.store
  congr 1
  funext k
  by_cases hk : k = key <;> simp [hk]

theorem burstCounter_lookup (key : String) (limitPerWindow t0 : Int) (m : Nat) :
    ((burstCounter key limitPerWindow t0 m).lookup key).countAt t0 = (m : ℚ) := by
  cases m with
  | zero => simp [burstCounter, NewCounter_lookup, zeroBucket_countAt]
  | succ m =>
    simp only [burstCounter, store_lookup_self, Bucket.countAt, timeSub_self]
    have h : (0 : ℚ) ≤ ((m + 1 : Nat) : ℚ) := Nat.cast_nonneg _
    simpa using h

theorem burstCounter_store (key : String) (limitPerWindow t0 : Int) (m : Nat) :
    (burstCounter key limitPerWindow t0 m).store key
        ((((burstCounter key limitPerWindow t0 m).lookup key)).Plus t0 limitPerWindow 1) =
      burstCounter key limitPerWindow t0 (m + 1) := by
  have hP : ((burstCounter key limitPerWindow t0 m).lookup key).Plus t0 limitPerWindow 1 =
      { UpdatedAt := t0, LimitPerWindow := limitPerWindow, Count := ((m + 1 : Nat) : ℚ) } := by
    simp [Bucket.Plus, burstCounter_lookup]
  rw [hP]
  cases m with
  | zero => rfl
  | succ m => simp only [burstCounter, store_store]

theorem burstCounter_limit (key : String) (limitPerWindow t0 : Int) (m : Nat)
    (hL : limitPerWindow ≠ 0) (b : Bucket)
    (hb : (burstCounter key limitPerWindow t0 m).buckets key = some b) :
    b.LimitPerWindow ≠ 0 := by
  cases m with
  | zero => simp [burstCounter, NewCounter] at hb
  | succ m =>
    simp only [burstCounter, store_buckets_self, Option.some.injEq] at hb
    rw [← hb]
    exact hL

theorem burstCounter_ceil (key : String) (limitPerWindow t0 : Int) (m : Nat) :
    ⌈max 0 (((burstCounter key limitPerWindow t0 m).lookup key).countAt t0 + ((1 : Int) : ℚ))⌉ =
      ((m + 1 : Nat) : Int) := by
  rw [burstCounter_lookup]
  have h : (0 : ℚ) ≤ (m : ℚ) + ((1 : Int) : ℚ) := by
    have := Nat.cast_nonneg (α := ℚ) m
    norm_num
    linarith
  rw [max_eq_right h]
  have : (m : ℚ) + ((1 : Int) : ℚ) = (((m + 1 : Nat) : Int) : ℚ) := by push_cast; ring
  rw [this, Int.ceil_intCast]

theorem burstCounter_step (key : String) (limitPerWindow t0 : Int) (m : Nat)
    (hL : limitPerWindow ≠ 0) :
    ∃ info p', (burstCounter key limitPerWindow t0 m).Add key limitPerWindow 1 t0 =
        some (info, p') ∧
      info.Bucket = key ∧ info.BucketSize = BucketSize limitPerWindow ∧
      (((m + 1 : Nat) : Int) ≤ BucketSize limitPerWindow →
        info.Allowed = true ∧
        info.Remaining = BucketSize limitPerWindow - ((m + 1 : Nat) : Int) ∧
        p' = burstCounter key limitPerWindow t0 (m + 1)) ∧
      (BucketSize limitPerWindow < ((m + 1 : Nat) : Int) →
        info.Allowed = false ∧ p' = burstCounter key limitPerWindow t0 m) := by
  by_cases h : ((m + 1 : Nat) : Int) ≤ BucketSize limitPerWindow
  · have hc := burstCounter_ceil key limitPerWindow t0 m
    obtain ⟨r, hr⟩ := WillReach_of_limit_ne_zero
      (((burstCounter key limitPerWindow t0 m).lookup key).Plus t0 limitPerWindow 1)
      (wrap64 (BucketSize limitPerWindow - 1)) t0 hL
    have hadd := Add_eval_admitted (burstCounter key limitPerWindow t0 m) key limitPerWindow 1 t0 r
      hL (by rw [hc]; exact h) hr
    rw [hc, burstCounter_store] at hadd
    refine ⟨_, _, hadd, rfl, rfl, ?_, ?_⟩
    · intro _
      refine ⟨rfl, ?_, rfl⟩
      have hB := wrap64_range (Int.tdiv (wrap64 (wrap64 (wrap64 (limitPerWindow * BurstTolerance) +
        WindowDuration) - 1)) WindowDuration)
      have hB' : BucketSize limitPerWindow ≤ maxInt64 := hB.2
      unfold maxInt64 at hB'
      exact wrap64_of_bounds (by omega) (by omega)
    · intro hlt
      omega
  · have hlt := not_le.mp h
    obtain ⟨r, hr⟩ := lookup_WillReach_total (burstCounter key limitPerWindow t0 m) key
      (wrap64 (BucketSize limitPerWindow - 1)) t0
      (burstCounter_limit key limitPerWindow t0 m hL)
    have hadd := Add_eval_reject (burstCounter key limitPerWindow t0 m) key limitPerWindow 1 t0 r
      hL (by rw [burstCounter_ceil]; exact hlt) hr
    exact ⟨_, _, hadd, rfl, rfl, fun hle => absurd hle h, fun _ => ⟨rfl, rfl⟩⟩

theorem burstCounter_run (key : String) (limitPerWindow t0 : Int) (hL : limitPerWindow ≠ 0)
    (n : Nat) : ∀ m : Nat,
    ∃ infos p', (burstCounter key limitPerWindow t0 m).addAll
        (List.replicate n ⟨key, limitPerWindow, 1, t0⟩) = some (infos, p') ∧
      infos.length = n ∧
      ∀ i : Nat, i < n → ∃ info, infos[i]? = some info ∧
        info.Bucket = key ∧ info.BucketSize = BucketSize limitPerWindow ∧
        (((m + i + 1 : Nat) : Int) ≤ BucketSize limitPerWindow →
          info.Allowed = true ∧
          info.Remaining = BucketSize limitPerWindow - ((m + i + 1 : Nat) : Int)) ∧
        (BucketSize limitPerWindow < ((m + i + 1 : Nat) : Int) → info.Allowed = false) := by
  induction n with
  | zero =>
    intro m
    exact ⟨[], _, rfl, rfl, fun i hi => absurd hi (Nat.not_lt_zero i)⟩
  | succ n ih =>
    intro m
    obtain ⟨info, p', hadd, hk, hsz, hle, hgt⟩ := burstCounter_step key limitPerWindow t0 m hL
    by_cases h : ((m + 1 : Nat) : Int) ≤ BucketSize limitPerWindow
    · obtain ⟨hal, hrem, hp'⟩ := hle h
      obtain ⟨infos, p'', hrun, hlen, hall⟩ := ih (m + 1)
      refine ⟨info :: infos, p'', ?_, by simp [hlen], ?_⟩
      · simp only [List.replicate_succ, Counter.addAll, hadd, hp', hrun]
      · intro i hi
        cases i with
        | zero => exact ⟨info, by simp, hk, hsz, fun _ => ⟨hal, hrem⟩, fun hlt => absurd h (not_le.mpr hlt)⟩
        | succ i =>
          obtain ⟨info', hget, hk', hsz', hle', hgt'⟩ := hall i (by omega)
          refine ⟨info', by simpa using hget, hk', hsz', ?_, ?_⟩
          · intro hh
            have := hle' (by push_cast at hh ⊢; omega)
            refine ⟨this.1, ?_⟩
            rw [this.2]
            push_cast
            ring
          · intro hh
            exact hgt' (by push_cast at hh ⊢; omega)
    · have hlt := not_le.mp h
      obtain ⟨hal, hp'⟩ := hgt hlt
      obtain ⟨infos, p'', hrun, hlen, hall⟩ := ih m
      refine ⟨info :: infos, p'', ?_, by simp [hlen], ?_⟩
      · simp only [List.replicate_succ, Counter.addAll, hadd, hp', hrun]
      · intro i hi
        cases i with
        | zero => exact ⟨info, by simp, hk, hsz, fun hle0 => absurd hle0 h, fun _ => hal⟩
        | succ i =>
          obtain ⟨info', hget, hk', hsz', _, hgt'⟩ := hall i (by omega)
          refine ⟨info', by simpa using hget, hk', hsz', ?_, ?_⟩
          · intro hh
            exfalso
            push_cast at hh hlt
            omega
          · intro _
            exact hgt' (by push_cast at hlt ⊢; omega)

theorem truncQ_intCast (z : Int) : truncQ (z : ℚ) = z := by
  unfold truncQ
  split_ifs
  · exact Int.floor_intCast z
  · exact Int.ceil_intCast z

theorem WillReach_eval (b : Bucket) (count now n d : Int) (hc : 0 ≤ count)
    (hn : (b.Count - (count : ℚ)) * ((WindowDuration : Int) : ℚ) = (n : ℚ)) (hpos : 0 < n)
    (hL : b.LimitPerWindow ≠ 0)
    (hd : wrap64 (Int.tdiv n b.LimitPerWindow) = d) (hnow : now ≤ b.UpdatedAt + d) :
    b.WillReach count now = some (b.UpdatedAt + d) := by
  have hneed : ¬ (b.Count - (count : ℚ) ≤ 0) := by
    intro hle
    have h1 : (b.Count - (count : ℚ)) * ((WindowDuration : Int) : ℚ) ≤ 0 :=
      mul_nonpos_of_nonpos_of_nonneg hle (le_of_lt windowDuration_pos)
    rw [hn] at h1
    have : n ≤ 0 := by exact_mod_cast h1
    omega
  simp only [Bucket.WillReach, if_neg (not_lt.mpr hc), if_neg hneed, if_neg hL, hn,
    truncQ_intCast, hd, timeAdd, if_neg (not_lt.mpr hnow)]

/-- A single token of limit 7 fills a new bucket: the capacity is 1. -/
theorem Add_limit7_first :
    NewCounter.Add "k" 7 1 unixEpoch =
      some ({ Bucket := "k", ResetAt := 8571428571, BucketSize := 1, Remaining := 0,
              Allowed := true },
            NewCounter.store "k" { UpdatedAt := unixEpoch, LimitPerWindow := 7, Count := 1 }) := by
  have hB : BucketSize 7 = 1 := by decide
  have hc : ⌈max (0 : ℚ) ((NewCounter.lookup "k").countAt unixEpoch + ((1 : Int) : ℚ))⌉ = 1 := by
    rw [NewCounter_lookup, zeroBucket_countAt]; norm_num
  have hP : (NewCounter.lookup "k").Plus unixEpoch 7 1 =
      { UpdatedAt := unixEpoch, LimitPerWindow := 7, Count := 1 } := by
    simp [Bucket.Plus, NewCounter_lookup, zeroBucket_countAt]
  have hw : ({ UpdatedAt := unixEpoch, LimitPerWindow := 7, Count := 1 } : Bucket).WillReach
      (wrap64 (1 - 1)) unixEpoch = some 8571428571 := by
    have := WillReach_eval { UpdatedAt := unixEpoch, LimitPerWindow := 7, Count := 1 }
      (wrap64 (1 - 1)) unixEpoch 60000000000 8571428571 (by decide)
      (by norm_num [wrap64, WindowDuration]) (by decide) (by decide) (by decide) (by decide)
    simpa [unixEpoch] using this
  rw [Add_eval_admitted NewCounter "k" 7 1 unixEpoch 8571428571 (by decide)
    (by rw [hc, hB]) (by rw [hP, hB]; exact hw), hc, hB, hP]
  rfl

/-- The full bucket of limit 7 rejects a further token at any instant up to
8571428571 ns after its update, and reports that instant as `ResetAt`. -/
theorem Add_limit7_reject (now : Int) (h0 : 0 ≤ now) (h1 : now ≤ 8571428571) :
    (NewCounter.store "k" { UpdatedAt := unixEpoch, LimitPerWindow := 7, Count := 1 }).Add
        "k" 7 1 now =
      some ({ Bucket := "k", ResetAt := 8571428571, BucketSize := 1, Remaining := 0,
              Allowed := false },
            NewCounter.store "k" { UpdatedAt := unixEpoch, LimitPerWindow := 7, Count := 1 }) := by
  have hB : BucketSize 7 = 1 := by decide
  have hs : timeSub now unixEpoch = now := by
    rw [timeSub_eq_sub (by unfold minInt64 unixEpoch; omega) (by unfold maxInt64 unixEpoch; omega)]
    simp [unixEpoch]
  have hnow : ((now : Int) : ℚ) ≤ 8571428571 := by exact_mod_cast h1
  have hnow0 : (0 : ℚ) ≤ ((now : Int) : ℚ) := by exact_mod_cast h0
  have hc : ((NewCounter.store "k"
      { UpdatedAt := unixEpoch, LimitPerWindow := 7, Count := 1 }).lookup "k").countAt now =
      1 - 7 * ((now : Int) : ℚ) / 60000000000 := by
    rw [store_lookup_self]
    simp only [Bucket.countAt, hs]
    rw [max_eq_right]
    · norm_num [WindowDuration]
    · norm_num [WindowDuration]
      rw [div_le_iff₀ (by norm_num)]
      linarith
  have hpos : (0 : ℚ) < 1 - 7 * ((now : Int) : ℚ) / 60000000000 := by
    rw [sub_pos, div_lt_iff₀ (by norm_num)]
    linarith
  have hle1 : 1 - 7 * ((now : Int) : ℚ) / 60000000000 ≤ 1 := by
    rw [sub_le_self_iff]
    positivity
  have hC : ((NewCounter.store "k"
      { UpdatedAt := unixEpoch, LimitPerWindow := 7, Count := 1 }).lookup "k").CountAt now = 1 := by
    unfold Bucket.CountAt
    rw [hc, Int.ceil_eq_iff]
    norm_num
    exact ⟨by linarith, by linarith⟩
  have hceil : ⌈max (0 : ℚ) (1 - 7 * ((now : Int) : ℚ) / 60000000000 + ((1 : Int) : ℚ))⌉ = 2 := by
    rw [max_eq_right (by norm_num; linarith), Int.ceil_eq_iff]
    norm_num
    constructor <;> linarith
  have hw : ({ UpdatedAt := unixEpoch, LimitPerWindow := 7, Count := 1 } : Bucket).WillReach
      (wrap64 (1 - 1)) now = some 8571428571 := by
    have := WillReach_eval { UpdatedAt := unixEpoch, LimitPerWindow := 7, Count := 1 }
      (wrap64 (1 - 1)) now 60000000000 8571428571 (by decide)
      (by norm_num [wrap64, WindowDuration]) (by decide) (by decide) (by decide)
      (by simpa [unixEpoch] using h1)
    simpa [unixEpoch] using this
  rw [Add_eval_reject _ "k" 7 1 now 8571428571 (by decide)
    (by rw [hc, hceil, hB]; decide) (by rw [hB, store_lookup_self]; exact hw), hC, hB]
  rfl

/-! ## Further facts used by the later claims -/

theorem WillReach_ge (b : Bucket) (count now r : Int)
    (h : b.WillReach count now = some r) : now ≤ r := by
  simp only [Bucket.WillReach] at h
  split_ifs at h with h1 h2 h3 h4
  · cases h; exact le_rfl
  · cases h; exact le_rfl
  · cases h; exact le_rfl
  · cases h; exact not_lt.mp h4

theorem Add_some_cases (p : Counter) (key : String) (limitPerWindow add now : Int)
    (info : Info) (p' : Counter)
    (hadd : p.Add key limitPerWindow add now = some (info, p')) :
    (limitPerWindow = 0 ∧
        info = { Bucket := key, ResetAt := now, BucketSize := 0, Remaining := 0,
                 Allowed := true } ∧ p' = p) ∨
      (limitPerWindow ≠ 0 ∧
        ((p.lookup key).Plus now limitPerWindow add).CountAt now ≤ BucketSize limitPerWindow ∧
        ∃ r, ((p.lookup key).Plus now limitPerWindow add).WillReach
              (wrap64 (BucketSize limitPerWindow - 1)) now = some r ∧
          info = { Bucket := key, ResetAt := r, BucketSize := BucketSize limitPerWindow,
                   Remaining := wrap64 (BucketSize limitPerWindow -
                     ((p.lookup key).Plus now limitPerWindow add).CountAt now),
                   Allowed := true } ∧
          p' = p.store key ((p.lookup key).Plus now limitPerWindow add)) ∨
      (limitPerWindow ≠ 0 ∧
        BucketSize limitPerWindow < ((p.lookup key).Plus now limitPerWindow add).CountAt now ∧
        ∃ r, (p.lookup key).WillReach (wrap64 (BucketSize limitPerWindow - add)) now = some r ∧
          info = { Bucket := key, ResetAt := r, BucketSize := BucketSize limitPerWindow,
                   Remaining := max 0 (wrap64 (BucketSize limitPerWindow -
                     (p.lookup key).CountAt now)),
                   Allowed := false } ∧
          p' = p) := by
  by_cases hL : limitPerWindow = 0
  · subst hL
    rw [Add_zero_limit] at hadd
    simp only [Option.some.injEq, Prod.mk.injEq] at hadd
    exact Or.inl ⟨rfl, hadd.1.symm, hadd.2.symm⟩
  · by_cases h : ((p.lookup key).Plus now limitPerWindow add).CountAt now ≤ BucketSize limitPerWindow
    · obtain ⟨r, hr, hadd'⟩ := Add_admitted p key limitPerWindow add now hL h
      rw [hadd'] at hadd
      simp only [Option.some.injEq, Prod.mk.injEq] at hadd
      exact Or.inr (Or.inl ⟨hL, h, r, hr, hadd.1.symm, hadd.2.symm⟩)
    · rw [Add_reject p key limitPerWindow add now hL (not_le.mp h)] at hadd
      cases hw : (p.lookup key).WillReach (wrap64 (BucketSize limitPerWindow - add)) now with
      | none => rw [hw] at hadd; simp at hadd
      | some r =>
        rw [hw] at hadd
        simp only [Option.map_some', Option.some.injEq, Prod.mk.injEq] at hadd
        exact Or.inr (Or.inr ⟨hL, not_le.mp h, r, rfl, hadd.1.symm, hadd.2.symm⟩)

theorem Add_resetAt_ge (p : Counter) (key : String) (limitPerWindow add now : Int)
    (info : Info) (p' : Counter)
    (hadd : p.Add key limitPerWindow add now = some (info, p')) : now ≤ info.ResetAt := by
  rcases Add_some_cases p key limitPerWindow add now info p' hadd with
    ⟨_, hi, _⟩ | ⟨_, _, r, hr, hi, _⟩ | ⟨_, _, r, hr, hi, _⟩
  · rw [hi]
  · rw [hi]; exact WillReach_ge _ _ _ _ hr
  · rw [hi]; exact WillReach_ge _ _ _ _ hr

theorem stored_limit_ne_zero {p : Counter} (hp : Reachable p) (key : String) (b : Bucket)
    (hb : p.buckets key = some b) : b.LimitPerWindow ≠ 0 := by
  induction hp generalizing key b with
  | init => simp [NewCounter] at hb
  | step k limitPerWindow add now _ hadd ih =>
    rcases Add_cases _ k limitPerWindow add now _ _ hadd with ⟨hsame, _⟩ | ⟨hL, _, _, hst⟩
    · rw [hsame] at hb
      exact ih key b hb
    · rw [hst] at hb
      by_cases hk : key = k
      · subst hk
        rw [store_buckets_self] at hb
        cases hb
        exact hL
      · rw [store_buckets_other _ _ _ _ hk] at hb
        exact ih key b hb

theorem stored_count_nonneg {p : Counter} (hp : ReachableNonneg p) (key : String) (b : Bucket)
    (hb : p.buckets key = some b) : 0 ≤ b.Count := by
  induction hp generalizing key b with
  | init => simp [NewCounter] at hb
  | step k limitPerWindow add now _ hnn hadd ih =>
    rcases Add_cases _ k limitPerWindow add now _ _ hadd with ⟨hsame, _⟩ | ⟨_, _, _, hst⟩
    · rw [hsame] at hb
      exact ih key b hb
    · rw [hst] at hb
      by_cases hk : key = k
      · subst hk
        rw [store_buckets_self] at hb
        cases hb
        have h1 : (0 : ℚ) ≤ (add : ℚ) := by exact_mod_cast hnn
        exact add_nonneg (countAt_nonneg _ now) h1
      · rw [store_buckets_other _ _ _ _ hk] at hb
        exact ih key b hb

/-- A negative amount on a new counter is admitted and stored as it is. -/
theorem Add_negative_amount :
    NewCounter.Add "k" 120 (-5) unixEpoch =
      some ({ Bucket := "k", ResetAt := unixEpoch, BucketSize := 2, Remaining := 2,
              Allowed := true },
            NewCounter.store "k" { UpdatedAt := unixEpoch, LimitPerWindow := 120, Count := -5 }) := by
  have hB : BucketSize 120 = 2 := by decide
  have hc : ⌈max (0 : ℚ) ((NewCounter.lookup "k").countAt unixEpoch + ((-5 : Int) : ℚ))⌉ = 0 := by
    rw [NewCounter_lookup, zeroBucket_countAt]; norm_num
  have hP : (NewCounter.lookup "k").Plus unixEpoch 120 (-5) =
      { UpdatedAt := unixEpoch, LimitPerWindow := 120, Count := -5 } := by
    simp [Bucket.Plus, NewCounter_lookup, zeroBucket_countAt]
  rw [Add_eval_admitted NewCounter "k" 120 (-5) unixEpoch unixEpoch (by decide)
    (by rw [hc, hB]; decide)
    (by rw [hP, hB]; exact WillReach_of_count_le _ _ _ (by norm_num [wrap64])), hc, hB, hP]
  rfl

theorem WillReach_limit7 (now : Int) (h1 : now ≤ 8571428571) :
    ({ UpdatedAt := unixEpoch, LimitPerWindow := 7, Count := 1 } : Bucket).WillReach 0 now =
      some 8571428571 := by
  have := WillReach_eval { UpdatedAt := unixEpoch, LimitPerWindow := 7, Count := 1 }
    0 now 60000000000 8571428571 (by decide)
    (by norm_num [WindowDuration]) (by decide) (by decide) (by decide)
    (by simpa [unixEpoch] using h1)
  simpa [unixEpoch] using this

theorem CountAt_limit7 :
    ({ UpdatedAt := unixEpoch, LimitPerWindow := 7, Count := 1 } : Bucket).CountAt 8571428571 = 1 := by
  have hs : timeSub 8571428571 unixEpoch = 8571428571 := by decide
  unfold Bucket.CountAt
  simp only [Bucket.countAt, hs]
  rw [Int.ceil_eq_iff]
  norm_num [WindowDuration]

theorem timeSub_le_sub {t u : Int} (h : u ≤ t) : timeSub t u ≤ t - u := by
  unfold timeSub minInt64
  have h0 : (0 : Int) ≤ t - u := by omega
  exact max_le (by omega) (min_le_right _ _)

theorem countAt_ge_linear (b : Bucket) (now : Int) (hL : 0 ≤ b.LimitPerWindow)
    (hu : b.UpdatedAt ≤ now) :
    b.Count - (b.LimitPerWindow : ℚ) * ((now - b.UpdatedAt : Int) : ℚ) /
      ((WindowDuration : Int) : ℚ) ≤ b.countAt now := by
  unfold Bucket.countAt
  have hs : ((timeSub now b.UpdatedAt : Int) : ℚ) ≤ ((now - b.UpdatedAt : Int) : ℚ) := by
    exact_mod_cast timeSub_le_sub hu
  have hL' : (0 : ℚ) ≤ (b.LimitPerWindow : ℚ) := by exact_mod_cast hL
  have hm := mul_le_mul_of_nonneg_left hs hL'
  have hd := div_le_div_of_nonneg_right hm (le_of_lt windowDuration_pos)
  exact le_trans (by linarith) (le_max_right _ _)

theorem rateInv_facts (key : String) (L t1 : Int) (p : Counter) (t S : Int)
    (hL : 0 < L) (hB : 0 ≤ BucketSize L) (h : rateInv key L t1 p t S)
    (now : Int) (ht1 : t1 ≤ t) (hnow : t ≤ now) :
    (S : ℚ) ≤ (p.lookup key).countAt now +
        (L : ℚ) * ((now - t1 : Int) : ℚ) / ((WindowDuration : Int) : ℚ) ∧
      (p.lookup key).countAt now ≤ ((BucketSize L : Int) : ℚ) ∧
      ∀ b, p.buckets key = some b → b.LimitPerWindow ≠ 0 := by
  have hLq : (0 : ℚ) < (L : ℚ) := by exact_mod_cast hL
  have hW := windowDuration_pos
  cases hb : p.buckets key with
  | none =>
    have hlook : p.lookup key = zeroBucket := by simp [Counter.lookup, hb]
    have hS : S = 0 := h.1 hb
    rw [hlook, zeroBucket_countAt, hS]
    refine ⟨?_, by exact_mod_cast hB, fun b hb' => by simp at hb'⟩
    have hel : (0 : ℚ) ≤ ((now - t1 : Int) : ℚ) := by
      have : (0 : Int) ≤ now - t1 := by omega
      exact_mod_cast this
    have : (0 : ℚ) ≤ (L : ℚ) * ((now - t1 : Int) : ℚ) / ((WindowDuration : Int) : ℚ) :=
      div_nonneg (mul_nonneg (le_of_lt hLq) hel) (le_of_lt hW)
    simpa using this
  | some b =>
    have hlook : p.lookup key = b := by simp [Counter.lookup, hb]
    obtain ⟨hbL, hbu, hS, hcap⟩ := h.2 b hb
    rw [hlook]
    have hu : b.UpdatedAt ≤ now := le_trans hbu hnow
    have hlin := countAt_ge_linear b now (by rw [hbL]; exact le_of_lt hL) hu
    rw [hbL] at hlin
    refine ⟨?_, ?_, ?_⟩
    · have hsplit : (L : ℚ) * ((now - t1 : Int) : ℚ) / ((WindowDuration : Int) : ℚ) =
          (L : ℚ) * ((now - b.UpdatedAt : Int) : ℚ) / ((WindowDuration : Int) : ℚ) +
          (L : ℚ) * ((b.UpdatedAt - t1 : Int) : ℚ) / ((WindowDuration : Int) : ℚ) := by
        push_cast
        ring
      rw [hsplit]
      linarith
    · have hanti := countAt_antitone_aux b b.UpdatedAt now (by rw [hbL]; exact le_of_lt hL) hu
      rw [countAt_self] at hanti
      exact le_trans hanti hcap
    · intro b' hb'
      cases hb'
      rw [hbL]
      exact ne_of_gt hL

theorem rateInv_step (key : String) (L t1 : Int) (p : Counter) (t S : Int)
    (hL : 0 < L) (hB : 0 ≤ BucketSize L) (h : rateInv key L t1 p t S)
    (ht1 : t1 ≤ t) (a now : Int) (_ha : 0 ≤ a) (hnow : t ≤ now) :
    ∃ info p', p.Add key L a now = some (info, p') ∧
      rateInv key L t1 p' now (S + if info.Allowed then a else 0) := by
  obtain ⟨hS, _, hne⟩ := rateInv_facts key L t1 p t S hL hB h now ht1 hnow
  have hLne : L ≠ 0 := ne_of_gt hL
  obtain ⟨info, p', hadd, _⟩ := Add_total p key L a now hne
  refine ⟨info, p', hadd, ?_⟩
  rcases Add_cases p key L a now info p' hadd with ⟨hsame, hzero⟩ | ⟨_, hal, hle, hst⟩
  · have hfalse : info.Allowed = false := by
      cases hA : info.Allowed with
      | false => rfl
      | true => exact absurd (hzero hA) hLne
    rw [hsame, hfalse]
    simp only [Bool.false_eq_true, if_false, add_zero]
    refine ⟨h.1, ?_⟩
    intro b hb
    obtain ⟨h1, h2, h3, h4⟩ := h.2 b hb
    exact ⟨h1, le_trans h2 hnow, h3, h4⟩
  · rw [hst, hal]
    simp only [if_true]
    refine ⟨fun hnone => by rw [store_buckets_self] at hnone; simp at hnone, ?_⟩
    intro b hb
    rw [store_buckets_self] at hb
    cases hb
    refine ⟨rfl, le_rfl, ?_, ?_⟩
    · show ((S + a : Int) : ℚ) ≤ (p.lookup key).countAt now + (a : ℚ) +
        (L : ℚ) * ((now - t1 : Int) : ℚ) / ((WindowDuration : Int) : ℚ)
      push_cast
      push_cast at hS
      linarith
    · rw [Plus_CountAt, Int.ceil_le] at hle
      exact hle

theorem rate_limit_aux (key : String) (L t1 : Int) (hL : 0 < L) (hB : 0 ≤ BucketSize L) :
    ∀ (cs : List Call) (p : Counter) (t S : Int),
      (∀ c ∈ cs, c.key = key ∧ c.limitPerWindow = L ∧ 0 ≤ c.add) →
      nondecreasingFrom t cs → t1 ≤ t → rateInv key L t1 p t S →
      ∃ infos p', p.addAll cs = some (infos, p') ∧ infos.length = cs.length ∧
        ((S + allowedSum cs infos : Int) : ℚ) ≤
          ((BucketSize L : Int) : ℚ) +
            (L : ℚ) * ((lastNow t cs - t1 : Int) : ℚ) / ((WindowDuration : Int) : ℚ) := by
  intro cs
  induction cs with
  | nil =>
    intro p t S _ _ ht1 hinv
    refine ⟨[], p, rfl, rfl, ?_⟩
    simp only [allowedSum, add_zero, lastNow]
    obtain ⟨hS, hcap, _⟩ := rateInv_facts key L t1 p t S hL hB hinv t ht1 le_rfl
    linarith
  | cons c cs ih =>
    intro p t S hall hmono ht1 hinv
    obtain ⟨hck, hcL, hca⟩ := hall c (List.mem_cons_self c cs)
    obtain ⟨info, p1, hadd, hinv1⟩ :=
      rateInv_step key L t1 p t S hL hB hinv ht1 c.add c.now hca hmono.1
    obtain ⟨infos, p2, hrun, hlen, hbound⟩ := ih p1 c.now (S + if info.Allowed then c.add else 0)
      (fun c' hc' => hall c' (List.mem_cons_of_mem c hc')) hmono.2 (le_trans ht1 hmono.1) hinv1
    refine ⟨info :: infos, p2, ?_, by simp [hlen], ?_⟩
    · simp only [Counter.addAll, hck, hcL, hadd, hrun]
    · simp only [allowedSum, lastNow]
      rw [← add_assoc]
      exact hbound

/-- The rate-limit guarantee for every positive limit whose capacity is
non-negative (as it is for all limits up to 9223371976): a non-empty run of
calls on one key with constant limit, non-negative amounts and non-decreasing
clock readings returns, and the amounts admitted sum to at most the capacity
plus the steady rate over the elapsed time. -/
theorem rate_limit_guarantee (key : String) (L : Int) (hL : 0 < L) (hB : 0 ≤ BucketSize L)
    (c : Call) (cs : List Call)
    (hall : ∀ c' ∈ c :: cs, c'.key = key ∧ c'.limitPerWindow = L ∧ 0 ≤ c'.add)
    (hmono : nondecreasingFrom c.now cs) :
    ∃ infos p', NewCounter.addAll (c :: cs) = some (infos, p') ∧
      infos.length = (c :: cs).length ∧
      ((allowedSum (c :: cs) infos : Int) : ℚ) ≤
        ((BucketSize L : Int) : ℚ) +
          (L : ℚ) * ((lastNow c.now cs - c.now : Int) : ℚ) / ((WindowDuration : Int) : ℚ) := by
  obtain ⟨infos, p', hrun, hlen, hbound⟩ :=
    rate_limit_aux key L c.now hL hB (c :: cs) NewCounter c.now 0 hall ⟨le_rfl, hmono⟩ le_rfl
      ⟨fun _ => rfl, fun b hb => by simp [NewCounter] at hb⟩
  refine ⟨infos, p', hrun, hlen, ?_⟩
  simpa [lastNow] using hbound

/-- With the limit 9223371977 the capacity computed by `BucketSize` is negative
and a single token on a new counter is rejected. -/
theorem Add_overflow_limit :
    NewCounter.Add "k" 9223371977 1 unixEpoch =
      some ({ Bucket := "k", ResetAt := unixEpoch, BucketSize := -153722867, Remaining := 0,
              Allowed := false }, NewCounter) := by
  have hB : BucketSize 9223371977 = -153722867 := by decide
  rw [Add_eval_reject NewCounter "k" 9223371977 1 unixEpoch unixEpoch (by decide)
    (by rw [NewCounter_lookup, zeroBucket_countAt, hB, Int.lt_ceil]; norm_num)
    (by rw [hB]; exact WillReach_of_neg _ _ _ (by decide)),
    NewCounter_lookup, zeroBucket_CountAt, hB]
  rfl

/-! ## Rounding to `float64` -/

section Rounding

open F64

theorem roundEven_cases (y : ℚ) : roundEven y = ⌊y⌋ ∨ roundEven y = ⌊y⌋ + 1 := by
  unfold roundEven
  split_ifs <;> simp

theorem roundEven_intCast (n : Int) : roundEven (n : ℚ) = n := by
  unfold roundEven
  simp

theorem roundEven_mono {y1 y2 : ℚ} (h : y1 ≤ y2) : roundEven y1 ≤ roundEven y2 := by
  have hf : ⌊y1⌋ ≤ ⌊y2⌋ := Int.floor_mono h
  rcases lt_or_eq_of_le hf with hlt | heq
  · rcases roundEven_cases y1 with h1 | h1 <;> rcases roundEven_cases y2 with h2 | h2 <;>
      rw [h1, h2] <;> omega
  · unfold roundEven
    rw [heq]
    have hd : y1 - (⌊y2⌋ : ℚ) ≤ y2 - (⌊y2⌋ : ℚ) := by linarith
    split_ifs <;> first | omega | (exfalso; linarith)

theorem roundEven_neg (y : ℚ) : roundEven (-y) = -roundEven y := by
  by_cases hint : (⌊y⌋ : ℚ) = y
  · rw [← hint, ← Int.cast_neg, roundEven_intCast, roundEven_intCast]
  · have hlt : (⌊y⌋ : ℚ) < y := lt_of_le_of_ne (Int.floor_le y) hint
    have hlt2 : y < (⌊y⌋ : ℚ) + 1 := Int.lt_floor_add_one y
    have hfl : ⌊-y⌋ = -⌊y⌋ - 1 := by
      rw [Int.floor_eq_iff]
      push_cast
      constructor <;> linarith
    unfold roundEven
    rw [hfl]
    push_cast
    split_ifs <;> first | omega | (exfalso; linarith)

theorem roundEven_eq_of_lt (y : ℚ) (n : Int) (h1 : (n : ℚ) - 1 / 2 < y)
    (h2 : y < (n : ℚ) + 1 / 2) : roundEven y = n := by
  have hmono1 := roundEven_cases y
  have hfl1 : n - 1 ≤ ⌊y⌋ := by
    rw [Int.le_floor]; push_cast; linarith
  have hfl2 : ⌊y⌋ ≤ n := by
    have : ⌊y⌋ < n + 1 := by
      rw [Int.floor_lt]; push_cast; linarith
    omega
  have hfl : (⌊y⌋ : ℚ) ≤ y := Int.floor_le y
  have hfl' : y < (⌊y⌋ : ℚ) + 1 := Int.lt_floor_add_one y
  rcases eq_or_lt_of_le hfl2 with heq | hlt
  · unfold roundEven
    rw [heq]
    rw [if_pos (by linarith)]
  · have heq : ⌊y⌋ = n - 1 := by omega
    unfold roundEven
    rw [heq]
    push_cast
    rw [if_neg (by linarith), if_pos (by linarith)]
    ring

theorem roundEven_tie (n : Int) :
    roundEven ((n : ℚ) + 1 / 2) = if n % 2 = 0 then n else n + 1 := by
  have hfl : ⌊(n : ℚ) + 1 / 2⌋ = n := by
    rw [Int.floor_eq_iff]
    constructor <;> linarith
  unfold roundEven
  rw [hfl]
  rw [if_neg (by linarith), if_neg (by linarith)]

theorem two_zpow_pos (k : Int) : (0 : ℚ) < (2 : ℚ) ^ k := zpow_pos (by norm_num) k

theorem ulpExp_neg (x : ℚ) : ulpExp (-x) = ulpExp x := by
  unfold ulpExp
  rw [abs_neg]

theorem rnd_neg (x : ℚ) : rnd (-x) = -rnd x := by
  unfold rnd
  rw [ulpExp_neg, neg_div, roundEven_neg]
  push_cast
  ring

theorem rnd_zero : rnd 0 = 0 := by
  unfold rnd
  rw [zero_div]
  have : roundEven 0 = 0 := by exact_mod_cast roundEven_intCast 0
  rw [this]
  simp

theorem rnd_nonneg {x : ℚ} (h : 0 ≤ x) : 0 ≤ rnd x := by
  unfold rnd
  have hq := two_zpow_pos (ulpExp x)
  have h0 : roundEven 0 ≤ roundEven (x / (2 : ℚ) ^ ulpExp x) :=
    roundEven_mono (div_nonneg h (le_of_lt hq))
  have h00 : roundEven 0 = 0 := by exact_mod_cast roundEven_intCast 0
  rw [h00] at h0
  have : (0 : ℚ) ≤ (roundEven (x / (2 : ℚ) ^ ulpExp x) : ℚ) := by exact_mod_cast h0
  exact mul_nonneg this (le_of_lt hq)

theorem rnd_nonpos {x : ℚ} (h : x ≤ 0) : rnd x ≤ 0 := by
  have := rnd_nonneg (neg_nonneg.mpr h)
  rw [rnd_neg] at this
  linarith

theorem log_two_lt_iff {r : ℚ} (hr : 0 < r) (k : Int) :
    Int.log 2 r < k ↔ r < (2 : ℚ) ^ k := by
  have := Int.lt_zpow_iff_log_lt (R := ℚ) (b := 2) (by norm_num) (x := k) hr
  simpa using this.symm

theorem le_log_two_iff {r : ℚ} (hr : 0 < r) (k : Int) :
    k ≤ Int.log 2 r ↔ (2 : ℚ) ^ k ≤ r := by
  have := Int.zpow_le_iff_le_log (R := ℚ) (b := 2) (by norm_num) (x := k) hr
  simpa using this.symm

theorem log_two_eq {r : ℚ} (k : Int) (h1 : (2 : ℚ) ^ k ≤ r) (h2 : r < (2 : ℚ) ^ (k + 1)) :
    Int.log 2 r = k := by
  have hr : 0 < r := lt_of_lt_of_le (two_zpow_pos k) h1
  have ha := (le_log_two_iff hr k).mpr h1
  have hb := (log_two_lt_iff hr (k + 1)).mpr h2
  omega

/-- Evaluation of `ulpExp` from the binade of `x`. -/
theorem ulpExp_eq {x : ℚ} (k : Int) (h1 : (2 : ℚ) ^ k ≤ |x|) (h2 : |x| < (2 : ℚ) ^ (k + 1))
    (hk : -1022 ≤ k) : ulpExp x = k - 52 := by
  unfold ulpExp
  rw [log_two_eq k h1 h2]
  omega

/-- Evaluation of `rnd` from the exponent and the rounded significand. -/
theorem rnd_eval {x : ℚ} (u n : Int) (hu : ulpExp x = u)
    (hn : roundEven (x / (2 : ℚ) ^ u) = n) : rnd x = (n : ℚ) * (2 : ℚ) ^ u := by
  unfold rnd
  rw [hu, hn]

theorem rnd_of_scaled {x : ℚ} (m e : Int) (hx : x = (m : ℚ) * (2 : ℚ) ^ e)
    (hu : ulpExp x ≤ e) : rnd x = x := by
  obtain ⟨k, hk⟩ : ∃ k : ℕ, e = ulpExp x + k := ⟨(e - ulpExp x).toNat, by omega⟩
  have hq := two_zpow_pos (ulpExp x)
  have hdiv : x / (2 : ℚ) ^ ulpExp x = ((m * 2 ^ k : Int) : ℚ) := by
    rw [div_eq_iff (ne_of_gt hq)]
    conv_lhs => rw [hx, hk, zpow_add₀ (by norm_num : (2 : ℚ) ≠ 0), zpow_natCast]
    push_cast
    ring
  unfold rnd
  rw [hdiv, roundEven_intCast, ← hdiv]
  exact div_mul_cancel₀ x (ne_of_gt hq)

/-- A rational `m * 2 ^ e` with a significand below 2^53 and an exponent not
below that of the subnormals is a `float64`: rounding leaves it unchanged. -/
theorem rnd_of_repr {x : ℚ} (m e : Int) (hx : x = (m : ℚ) * (2 : ℚ) ^ e)
    (hm : |m| < 2 ^ 53) (he : -1074 ≤ e) : rnd x = x := by
  by_cases hm0 : m = 0
  · rw [hx, hm0]
    simp [rnd_zero]
  · apply rnd_of_scaled m e hx
    have hxpos : 0 < |x| := by
      rw [hx, abs_mul, abs_of_pos (two_zpow_pos e)]
      exact mul_pos (by exact_mod_cast abs_pos.mpr hm0) (two_zpow_pos e)
    have hlt : |x| < (2 : ℚ) ^ (e + 53) := by
      rw [hx, abs_mul, abs_of_pos (two_zpow_pos e), zpow_add₀ (by norm_num : (2 : ℚ) ≠ 0),
        mul_comm]
      apply mul_lt_mul_of_pos_left _ (two_zpow_pos e)
      have : ((|m| : Int) : ℚ) < ((2 ^ 53 : Int) : ℚ) := by exact_mod_cast hm
      push_cast at this
      have h53 : (2 : ℚ) ^ (53 : Int) = 9007199254740992 := by norm_num
      rw [h53]
      exact this
    have hlog := (log_two_lt_iff hxpos (e + 53)).mpr hlt
    unfold ulpExp
    omega

theorem rnd_intCast (n : Int) (hn : |n| ≤ 2 ^ 53) : rnd (n : ℚ) = (n : ℚ) := by
  rcases lt_or_eq_of_le hn with hlt | heq
  · exact rnd_of_repr n 0 (by simp) hlt (by norm_num)
  · rcases abs_eq (by norm_num : (0 : Int) ≤ 2 ^ 53) |>.mp heq with h | h
    · rw [h]
      exact rnd_of_repr (2 ^ 52) 1 (by norm_num) (by norm_num) (by norm_num)
    · rw [h]
      exact rnd_of_repr (-2 ^ 52) 1 (by norm_num) (by norm_num) (by norm_num)

theorem ulpExp_mono_pos {x y : ℚ} (hx : 0 < x) (h : x ≤ y) : ulpExp x ≤ ulpExp y := by
  unfold ulpExp
  rw [abs_of_pos hx, abs_of_pos (lt_of_lt_of_le hx h)]
  have := Int.log_mono_right (b := 2) hx h
  omega

theorem rnd_mono_pos {x y : ℚ} (hx : 0 < x) (h : x ≤ y) : rnd x ≤ rnd y := by
  have hy : 0 < y := lt_of_lt_of_le hx h
  have hu := ulpExp_mono_pos hx h
  rcases eq_or_lt_of_le hu with heq | hlt
  · unfold rnd
    rw [heq]
    have hq := two_zpow_pos (ulpExp y)
    have hr : roundEven (x / (2 : ℚ) ^ ulpExp y) ≤ roundEven (y / (2 : ℚ) ^ ulpExp y) :=
      roundEven_mono (div_le_div_of_nonneg_right h (le_of_lt hq))
    have : (roundEven (x / (2 : ℚ) ^ ulpExp y) : ℚ) ≤ (roundEven (y / (2 : ℚ) ^ ulpExp y) : ℚ) := by
      exact_mod_cast hr
    exact mul_le_mul_of_nonneg_right this (le_of_lt hq)
  · -- different binades: the power of two between them separates the results
    have huy : ulpExp y = Int.log 2 y - 52 := by
      have h1 : ulpExp x = max (Int.log 2 x - 52) (-1074) := by
        unfold ulpExp; rw [abs_of_pos hx]
      have h2 : ulpExp y = max (Int.log 2 y - 52) (-1074) := by
        unfold ulpExp; rw [abs_of_pos hy]
      omega
    have hux : Int.log 2 x - 52 ≤ ulpExp x := by
      unfold ulpExp; rw [abs_of_pos hx]; exact le_max_left _ _
    have hk : Int.log 2 x + 1 ≤ Int.log 2 y := by omega
    have hxlt : x < (2 : ℚ) ^ (Int.log 2 y) := by
      have h1 : x < (2 : ℚ) ^ (Int.log 2 x + 1) := (log_two_lt_iff hx _).mp (by omega)
      exact lt_of_lt_of_le h1 (zpow_le_zpow_right₀ (by norm_num) hk)
    have hyge : (2 : ℚ) ^ (Int.log 2 y) ≤ y := (le_log_two_iff hy _).mp le_rfl
    have hmid1 : rnd x ≤ (2 : ℚ) ^ (Int.log 2 y) := by
      obtain ⟨k, hk'⟩ : ∃ k : ℕ, Int.log 2 y = ulpExp x + k :=
        ⟨(Int.log 2 y - ulpExp x).toNat, by omega⟩
      have hq := two_zpow_pos (ulpExp x)
      have hpow : (2 : ℚ) ^ (Int.log 2 y) = ((2 ^ k : Int) : ℚ) * (2 : ℚ) ^ ulpExp x := by
        rw [hk', zpow_add₀ (by norm_num : (2 : ℚ) ≠ 0), zpow_natCast]
        push_cast
        ring
      have hle : x / (2 : ℚ) ^ ulpExp x ≤ ((2 ^ k : Int) : ℚ) := by
        rw [div_le_iff₀ hq, ← hpow]
        exact le_of_lt hxlt
      have hr := roundEven_mono hle
      rw [roundEven_intCast] at hr
      have hr' : (roundEven (x / (2 : ℚ) ^ ulpExp x) : ℚ) ≤ ((2 ^ k : Int) : ℚ) := by
        exact_mod_cast hr
      unfold rnd
      rw [hpow]
      exact mul_le_mul_of_nonneg_right hr' (le_of_lt hq)
    have hmid2 : (2 : ℚ) ^ (Int.log 2 y) ≤ rnd y := by
      have hq := two_zpow_pos (ulpExp y)
      have hpow : (2 : ℚ) ^ (Int.log 2 y) = ((2 ^ 52 : Int) : ℚ) * (2 : ℚ) ^ ulpExp y := by
        rw [huy]
        have : Int.log 2 y = (Int.log 2 y - 52) + (52 : ℕ) := by omega
        conv_lhs => rw [this, zpow_add₀ (by norm_num : (2 : ℚ) ≠ 0), zpow_natCast]
        push_cast
        ring
      have hle : ((2 ^ 52 : Int) : ℚ) ≤ y / (2 : ℚ) ^ ulpExp y := by
        rw [le_div_iff₀ hq, ← hpow]
        exact hyge
      have hr := roundEven_mono hle
      rw [roundEven_intCast] at hr
      have hr' : ((2 ^ 52 : Int) : ℚ) ≤ (roundEven (y / (2 : ℚ) ^ ulpExp y) : ℚ) := by
        exact_mod_cast hr
      unfold rnd
      rw [hpow]
      exact mul_le_mul_of_nonneg_right hr' (le_of_lt hq)
    exact le_trans hmid1 hmid2

/-- Rounding to the nearest `float64` is monotone. -/
theorem rnd_mono {x y : ℚ} (h : x ≤ y) : rnd x ≤ rnd y := by
  rcases lt_trichotomy 0 x with hx | hx | hx
  · exact rnd_mono_pos hx h
  · rw [← hx, rnd_zero]
    exact rnd_nonneg (by rw [hx]; exact h)
  · rcases le_or_lt 0 y with hy | hy
    · exact le_trans (rnd_nonpos (le_of_lt hx)) (rnd_nonneg hy)
    · have := rnd_mono_pos (neg_pos.mpr hy) (neg_le_neg h)
      rw [rnd_neg, rnd_neg] at this
      linarith

theorem roundEven_abs_le (y : ℚ) (N : Int) (h : |y| ≤ (N : ℚ)) : |roundEven y| ≤ N := by
  have h1 : y ≤ (N : ℚ) := le_trans (le_abs_self y) h
  have h2 : ((-N : Int) : ℚ) ≤ y := by
    push_cast
    linarith [neg_abs_le y]
  have a := roundEven_mono h1
  have b := roundEven_mono h2
  rw [roundEven_intCast] at a b
  exact abs_le.mpr ⟨b, a⟩

/-- The result of a rounding is a `float64`: rounding it again changes
nothing. -/
theorem rnd_idem (x : ℚ) : rnd (rnd x) = rnd x := by
  by_cases hx0 : x = 0
  · rw [hx0, rnd_zero, rnd_zero]
  · have hxpos : 0 < |x| := abs_pos.mpr hx0
    have hq := two_zpow_pos (ulpExp x)
    have hu : -1074 ≤ ulpExp x := le_max_right _ _
    have hlog : Int.log 2 |x| - 52 ≤ ulpExp x := le_max_left _ _
    have hlt : |x| < (2 : ℚ) ^ (ulpExp x + 53) := by
      have h1 : |x| < (2 : ℚ) ^ (Int.log 2 |x| + 1) := (log_two_lt_iff hxpos _).mp (by omega)
      exact lt_of_lt_of_le h1 (zpow_le_zpow_right₀ (by norm_num) (by omega))
    have hy : |x / (2 : ℚ) ^ ulpExp x| ≤ ((2 ^ 53 : Int) : ℚ) := by
      rw [abs_div, abs_of_pos hq, div_le_iff₀ hq]
      have : (2 : ℚ) ^ (ulpExp x + 53) = ((2 ^ 53 : Int) : ℚ) * (2 : ℚ) ^ ulpExp x := by
        rw [zpow_add₀ (by norm_num : (2 : ℚ) ≠ 0)]
        norm_num
        ring
      rw [← this]
      exact le_of_lt hlt
    have hn := roundEven_abs_le _ _ hy
    have hr : rnd x = (roundEven (x / (2 : ℚ) ^ ulpExp x) : ℚ) * (2 : ℚ) ^ ulpExp x := rfl
    rcases lt_or_eq_of_le hn with hlt' | heq
    · exact rnd_of_repr _ (ulpExp x) hr hlt' hu
    · rcases abs_eq (by norm_num : (0 : Int) ≤ 2 ^ 53) |>.mp heq with h | h
      · apply rnd_of_repr (2 ^ 52) (ulpExp x + 1) _ (by norm_num) (by omega)
        rw [hr, h, zpow_add₀ (by norm_num : (2 : ℚ) ≠ 0)]
        norm_num
        ring
      · apply rnd_of_repr (-2 ^ 52) (ulpExp x + 1) _ (by norm_num) (by omega)
        rw [hr, h, zpow_add₀ (by norm_num : (2 : ℚ) ≠ 0)]
        norm_num
        ring

end Rounding

/-! ## The `float64` embedding: basic facts -/

theorem f64_ofInt_zero : F64.ofInt 0 = 0 := by
  unfold F64.ofInt
  simpa using rnd_zero

theorem f64_ofInt_exact (n : Int) (h : |n| ≤ 2 ^ 53) : F64.ofInt n = (n : ℚ) :=
  rnd_intCast n h

theorem f64_ofInt_nonneg {n : Int} (h : 0 ≤ n) : 0 ≤ F64.ofInt n :=
  rnd_nonneg (by exact_mod_cast h)

theorem f64_ofInt_mono {m n : Int} (h : m ≤ n) : F64.ofInt m ≤ F64.ofInt n :=
  rnd_mono (by exact_mod_cast h)

theorem f64_window : F64.ofInt WindowDuration = 60000000000 := by
  rw [f64_ofInt_exact _ (by decide)]
  norm_num [WindowDuration]

theorem f64_leak_zero (x : ℚ) :
    F64.fdiv (F64.fmul x (F64.ofInt 0)) (F64.ofInt WindowDuration) = 0 := by
  unfold F64.fdiv F64.fmul
  rw [f64_ofInt_zero, mul_zero, rnd_zero, zero_div, rnd_zero]

theorem f64_countAt_nonneg (b : Bucket) (now : Int) : 0 ≤ F64.countAt b now := by
  unfold F64.countAt
  exact le_max_left _ _

theorem f64_countAt_self (b : Bucket) :
    F64.countAt b b.UpdatedAt = max 0 (F64.rnd b.Count) := by
  simp only [F64.countAt, timeSub_self, f64_leak_zero, F64.fsub, sub_zero]

theorem f64_Plus_countAt (b : Bucket) (now limitPerWindow add : Int) :
    F64.countAt (F64.Plus b now limitPerWindow add) now =
      max 0 (F64.fadd (F64.countAt b now) (F64.ofInt add)) := by
  have h := f64_countAt_self (F64.Plus b now limitPerWindow add)
  have hu : (F64.Plus b now limitPerWindow add).UpdatedAt = now := rfl
  rw [hu] at h
  rw [h]
  show max 0 (F64.rnd (F64.fadd (F64.countAt b now) (F64.ofInt add))) = _
  unfold F64.fadd
  rw [rnd_idem]

theorem f64_zeroBucket_countAt (now : Int) : F64.countAt zeroBucket now = 0 := by
  simp only [F64.countAt, zeroBucket, F64.fdiv, F64.fmul, F64.fsub, f64_ofInt_zero, zero_mul,
    rnd_zero, zero_div, sub_zero, max_self]

theorem toInt64_intCast (z : Int) (h1 : minInt64 ≤ z) (h2 : z ≤ maxInt64) :
    F64.toInt64 (z : ℚ) = z := by
  unfold F64.toInt64
  rw [truncQ_intCast, if_pos ⟨h1, h2⟩]

theorem toInt64_out_of_range (z : Int) (h : maxInt64 < z) :
    F64.toInt64 (z : ℚ) = minInt64 := by
  unfold F64.toInt64
  rw [truncQ_intCast, if_neg (by intro hc; exact absurd hc.2 (not_le.mpr h))]

theorem f64_Plus_CountAt (b : Bucket) (now limitPerWindow add : Int) :
    F64.CountAt (F64.Plus b now limitPerWindow add) now =
      F64.toInt64 ((⌈max 0 (F64.fadd (F64.countAt b now) (F64.ofInt add))⌉ : Int) : ℚ) := by
  unfold F64.CountAt
  rw [f64_Plus_countAt]

theorem f64_WillReach_of_limit_ne_zero (b : Bucket) (count now : Int)
    (h : b.LimitPerWindow ≠ 0) : ∃ r, F64.WillReach b count now = some r := by
  simp only [F64.WillReach]
  split_ifs <;> simp

theorem f64_WillReach_of_neg (b : Bucket) (count now : Int) (h : count < 0) :
    F64.WillReach b count now = some now := by
  unfold F64.WillReach
  rw [if_pos h]

theorem f64_WillReach_of_need_le (b : Bucket) (count now : Int)
    (h : F64.fsub b.Count (F64.ofInt count) ≤ 0) : F64.WillReach b count now = some now := by
  simp only [F64.WillReach]
  rw [if_pos h]
  split_ifs <;> rfl

theorem f64_lookup_WillReach_total (p : Counter) (key : String) (count now : Int)
    (hp : ∀ b, p.buckets key = some b → b.LimitPerWindow ≠ 0) :
    ∃ r, F64.WillReach (p.lookup key) count now = some r := by
  cases hb : p.buckets key with
  | some b =>
    have : p.lookup key = b := by simp [Counter.lookup, hb]
    rw [this]
    exact f64_WillReach_of_limit_ne_zero b count now (hp b hb)
  | none =>
    have : p.lookup key = zeroBucket := by simp [Counter.lookup, hb]
    rw [this]
    by_cases hc : count < 0
    · exact ⟨now, f64_WillReach_of_neg _ _ _ hc⟩
    · refine ⟨now, f64_WillReach_of_need_le _ _ _ ?_⟩
      have h0 : 0 ≤ F64.ofInt count := f64_ofInt_nonneg (not_lt.mp hc)
      unfold F64.fsub
      apply rnd_nonpos
      simp only [zeroBucket]
      linarith

/-! ## The two paths of `F64.Add` -/

theorem f64_Add_zero_limit (p : Counter) (key : String) (add now : Int) :
    F64.Add p key 0 add now =
      some ({ Bucket := key, ResetAt := now, BucketSize := 0, Remaining := 0,
              Allowed := true }, p) := by
  simp [F64.Add]

theorem f64_Add_admitted (p : Counter) (key : String) (limitPerWindow add now : Int)
    (hL : limitPerWindow ≠ 0)
    (h : F64.CountAt (F64.Plus (p.lookup key) now limitPerWindow add) now ≤
      BucketSize limitPerWindow) :
    ∃ r, F64.WillReach (F64.Plus (p.lookup key) now limitPerWindow add)
            (wrap64 (BucketSize limitPerWindow - 1)) now = some r ∧
      F64.Add p key limitPerWindow add now =
        some ({ Bucket := key, ResetAt := r, BucketSize := BucketSize limitPerWindow,
                Remaining := wrap64 (BucketSize limitPerWindow -
                  F64.CountAt (F64.Plus (p.lookup key) now limitPerWindow add) now),
                Allowed := true },
              p.store key (F64.Plus (p.lookup key) now limitPerWindow add)) := by
  obtain ⟨r, hr⟩ := f64_WillReach_of_limit_ne_zero
    (F64.Plus (p.lookup key) now limitPerWindow add)
    (wrap64 (BucketSize limitPerWindow - 1)) now hL
  refine ⟨r, hr, ?_⟩
  unfold F64.Add
  simp only [if_neg hL, gt_iff_lt, if_neg (not_lt.mpr h), hr]

theorem f64_Add_reject (p : Counter) (key : String) (limitPerWindow add now : Int)
    (hL : limitPerWindow ≠ 0)
    (h : BucketSize limitPerWindow <
      F64.CountAt (F64.Plus (p.lookup key) now limitPerWindow add) now) :
    F64.Add p key limitPerWindow add now =
      (F64.WillReach (p.lookup key) (wrap64 (BucketSize limitPerWindow - add)) now).map
        (fun r => ({ Bucket := key, ResetAt := r, BucketSize := BucketSize limitPerWindow,
                     Remaining := max 0 (wrap64 (BucketSize limitPerWindow -
                       F64.CountAt (p.lookup key) now)),
                     Allowed := false }, p)) := by
  unfold F64.Add
  simp only [if_neg hL, gt_iff_lt, if_pos h]
  cases F64.WillReach (p.lookup key) (wrap64 (BucketSize limitPerWindow - add)) now <;> rfl

theorem f64_Add_some_cases (p : Counter) (key : String) (limitPerWindow add now : Int)
    (info : Info) (p' : Counter)
    (hadd : F64.Add p key limitPerWindow add now = some (info, p')) :
    (limitPerWindow = 0 ∧
        info = { Bucket := key, ResetAt := now, BucketSize := 0, Remaining := 0,
                 Allowed := true } ∧ p' = p) ∨
      (limitPerWindow ≠ 0 ∧
        F64.CountAt (F64.Plus (p.lookup key) now limitPerWindow add) now ≤
          BucketSize limitPerWindow ∧
        ∃ r, F64.WillReach (F64.Plus (p.lookup key) now limitPerWindow add)
              (wrap64 (BucketSize limitPerWindow - 1)) now = some r ∧
          info = { Bucket := key, ResetAt := r, BucketSize := BucketSize limitPerWindow,
                   Remaining := wrap64 (BucketSize limitPerWindow -
                     F64.CountAt (F64.Plus (p.lookup key) now limitPerWindow add) now),
                   Allowed := true } ∧
          p' = p.store key (F64.Plus (p.lookup key) now limitPerWindow add)) ∨
      (limitPerWindow ≠ 0 ∧
        BucketSize limitPerWindow <
          F64.CountAt (F64.Plus (p.lookup key) now limitPerWindow add) now ∧
        ∃ r, F64.WillReach (p.lookup key) (wrap64 (BucketSize limitPerWindow - add)) now =
            some r ∧
          info = { Bucket := key, ResetAt := r, BucketSize := BucketSize limitPerWindow,
                   Remaining := max 0 (wrap64 (BucketSize limitPerWindow -
                     F64.CountAt (p.lookup key) now)),
                   Allowed := false } ∧
          p' = p) := by
  by_cases hL : limitPerWindow = 0
  · subst hL
    rw [f64_Add_zero_limit] at hadd
    simp only [Option.some.injEq, Prod.mk.injEq] at hadd
    exact Or.inl ⟨rfl, hadd.1.symm, hadd.2.symm⟩
  · by_cases h : F64.CountAt (F64.Plus (p.lookup key) now limitPerWindow add) now ≤
        BucketSize limitPerWindow
    · obtain ⟨r, hr, hadd'⟩ := f64_Add_admitted p key limitPerWindow add now hL h
      rw [hadd'] at hadd
      simp only [Option.some.injEq, Prod.mk.injEq] at hadd
      exact Or.inr (Or.inl ⟨hL, h, r, hr, hadd.1.symm, hadd.2.symm⟩)
    · rw [f64_Add_reject p key limitPerWindow add now hL (not_le.mp h)] at hadd
      cases hw : F64.WillReach (p.lookup key) (wrap64 (BucketSize limitPerWindow - add)) now with
      | none => rw [hw] at hadd; simp at hadd
      | some r =>
        rw [hw] at hadd
        simp only [Option.map_some', Option.some.injEq, Prod.mk.injEq] at hadd
        exact Or.inr (Or.inr ⟨hL, not_le.mp h, r, rfl, hadd.1.symm, hadd.2.symm⟩)

theorem f64_Add_allowed_iff_aux (p : Counter) (key : String) (limitPerWindow add now : Int)
    (hL : limitPerWindow ≠ 0) :
    (∃ info p', F64.Add p key limitPerWindow add now = some (info, p') ∧
        info.Allowed = true) ↔
      F64.CountAt (F64.Plus (p.lookup key) now limitPerWindow add) now ≤
        BucketSize limitPerWindow := by
  constructor
  · rintro ⟨info, p', hadd, hal⟩
    rcases f64_Add_some_cases p key limitPerWindow add now info p' hadd with
      ⟨h0, _, _⟩ | ⟨_, hle, _⟩ | ⟨_, _, r, _, hi, _⟩
    · exact absurd h0 hL
    · exact hle
    · rw [hi] at hal
      simp at hal
  · intro h
    obtain ⟨r, _, hadd⟩ := f64_Add_admitted p key limitPerWindow add now hL h
    exact ⟨_, _, hadd, rfl⟩

theorem f64_Add_total (p : Counter) (key : String) (limitPerWindow add now : Int)
    (hp : ∀ b, p.buckets key = some b → b.LimitPerWindow ≠ 0) :
    ∃ info p', F64.Add p key limitPerWindow add now = some (info, p') ∧
      (info.Allowed = false ↔
        BucketSize limitPerWindow <
          F64.CountAt (F64.Plus (p.lookup key) now limitPerWindow add) now ∧
          limitPerWindow ≠ 0) := by
  by_cases hL : limitPerWindow = 0
  · subst hL
    exact ⟨_, _, f64_Add_zero_limit p key add now, by simp⟩
  · by_cases h : F64.CountAt (F64.Plus (p.lookup key) now limitPerWindow add) now ≤
        BucketSize limitPerWindow
    · obtain ⟨r, _, hadd⟩ := f64_Add_admitted p key limitPerWindow add now hL h
      exact ⟨_, _, hadd, by simpa using fun hlt => absurd h (not_le.mpr hlt)⟩
    · obtain ⟨r, hr⟩ := f64_lookup_WillReach_total p key
        (wrap64 (BucketSize limitPerWindow - add)) now hp
      have hadd := f64_Add_reject p key limitPerWindow add now hL (not_le.mp h)
      rw [hr, Option.map_some'] at hadd
      exact ⟨_, _, hadd, by simpa using ⟨not_le.mp h, hL⟩⟩

/-! ## Evaluation of the `float64` operations at given values -/

/-- Evaluation of a rounding that is not a tie: `x` lies in the binade of
`2 ^ k` and within half a unit of `n * 2 ^ (k - 52)`. -/
theorem rnd_eq_of_near (x : ℚ) (k n : Int) (hk : -1022 ≤ k) (h0 : 0 < x)
    (h1 : (2 : ℚ) ^ k ≤ x) (h2 : x < (2 : ℚ) ^ (k + 1))
    (h3 : ((n : ℚ) - 1 / 2) * (2 : ℚ) ^ (k - 52) < x)
    (h4 : x < ((n : ℚ) + 1 / 2) * (2 : ℚ) ^ (k - 52)) :
    F64.rnd x = (n : ℚ) * (2 : ℚ) ^ (k - 52) := by
  have hu : F64.ulpExp x = k - 52 :=
    ulpExp_eq k (by rw [abs_of_pos h0]; exact h1) (by rw [abs_of_pos h0]; exact h2) hk
  have hq := two_zpow_pos (k - 52)
  exact rnd_eval (k - 52) n hu
    (roundEven_eq_of_lt _ n (by rw [lt_div_iff₀ hq]; exact h3) (by rw [div_lt_iff₀ hq]; exact h4))

/-- Evaluation of a rounding that is a tie between `n` and `n + 1` units with
`n` odd: the result is `n + 1` units. -/
theorem rnd_eq_of_tie_odd (x : ℚ) (k n : Int) (hk : -1022 ≤ k) (h0 : 0 < x)
    (h1 : (2 : ℚ) ^ k ≤ x) (h2 : x < (2 : ℚ) ^ (k + 1))
    (hx : x = ((n : ℚ) + 1 / 2) * (2 : ℚ) ^ (k - 52)) (hn : n % 2 = 1) :
    F64.rnd x = ((n + 1 : Int) : ℚ) * (2 : ℚ) ^ (k - 52) := by
  have hu : F64.ulpExp x = k - 52 :=
    ulpExp_eq k (by rw [abs_of_pos h0]; exact h1) (by rw [abs_of_pos h0]; exact h2) hk
  have hq := two_zpow_pos (k - 52)
  refine rnd_eval (k - 52) (n + 1) hu ?_
  have hdiv : x / (2 : ℚ) ^ (k - 52) = (n : ℚ) + 1 / 2 := by
    rw [div_eq_iff (ne_of_gt hq), hx]
  rw [hdiv, roundEven_tie, if_neg (by omega)]

/-- Evaluation of a rounding that is a tie between `n` and `n + 1` units with
`n` even: the result is `n` units. -/
theorem rnd_eq_of_tie_even (x : ℚ) (k n : Int) (hk : -1022 ≤ k) (h0 : 0 < x)
    (h1 : (2 : ℚ) ^ k ≤ x) (h2 : x < (2 : ℚ) ^ (k + 1))
    (hx : x = ((n : ℚ) + 1 / 2) * (2 : ℚ) ^ (k - 52)) (hn : n % 2 = 0) :
    F64.rnd x = (n : ℚ) * (2 : ℚ) ^ (k - 52) := by
  have hu : F64.ulpExp x = k - 52 :=
    ulpExp_eq k (by rw [abs_of_pos h0]; exact h1) (by rw [abs_of_pos h0]; exact h2) hk
  have hq := two_zpow_pos (k - 52)
  refine rnd_eval (k - 52) n hu ?_
  have hdiv : x / (2 : ℚ) ^ (k - 52) = (n : ℚ) + 1 / 2 := by
    rw [div_eq_iff (ne_of_gt hq), hx]
  rw [hdiv, roundEven_tie, if_pos hn]

theorem rnd_074 : F64.rnd (4440000000 / 60000000000) = 5332261958806667 / 72057594037927936 := by
  have h := rnd_eq_of_near (4440000000 / 60000000000) (-4) 5332261958806667 (by norm_num)
    (by norm_num) (by norm_num) (by norm_num) (by norm_num) (by norm_num)
  rw [h]
  norm_num

theorem rnd_926 : F64.rnd (1 - 5332261958806667 / 72057594037927936) =
    8340666509890159 / 9007199254740992 := by
  have h := rnd_eq_of_near (1 - 5332261958806667 / 72057594037927936) (-1) 8340666509890159
    (by norm_num) (by norm_num) (by norm_num) (by norm_num) (by norm_num) (by norm_num)
  rw [h]
  norm_num

theorem rnd_1926_sum : F64.rnd (8340666509890159 / 9007199254740992 + 1) =
    1084241610289447 / 562949953421312 := by
  have h := rnd_eq_of_tie_odd (8340666509890159 / 9007199254740992 + 1) 0 8673932882315575
    (by norm_num) (by norm_num) (by norm_num) (by norm_num) (by norm_num) (by norm_num)
  rw [h]
  norm_num

theorem rnd_1926 : F64.rnd (115560000000 / 60000000000) =
    8673932882315575 / 4503599627370496 := by
  have h := rnd_eq_of_near (115560000000 / 60000000000) 0 8673932882315575 (by norm_num)
    (by norm_num) (by norm_num) (by norm_num) (by norm_num) (by norm_num)
  rw [h]
  norm_num

theorem rnd_two_plus_ulp : F64.rnd (4503599627370497 / 4503599627370496 + 1) = 2 := by
  have h := rnd_eq_of_tie_even (4503599627370497 / 4503599627370496 + 1) 1 4503599627370496
    (by norm_num) (by norm_num) (by norm_num) (by norm_num) (by norm_num) (by norm_num)
  rw [h]
  norm_num

theorem rnd_maxInt64 : F64.rnd 9223372036854775807 = 9223372036854775808 := by
  have h := rnd_eq_of_near 9223372036854775807 62 9007199254740992 (by norm_num)
    (by norm_num) (by norm_num) (by norm_num) (by norm_num) (by norm_num)
  rw [h]
  norm_num

theorem toInt64_of_bounds (x : ℚ) (z : Int) (h0 : 0 ≤ z) (h1 : (z : ℚ) ≤ x)
    (h2 : x < (z : ℚ) + 1) (hz : z ≤ maxInt64) : F64.toInt64 x = z := by
  have hx : (0 : ℚ) ≤ x := le_trans (by exact_mod_cast h0) h1
  have ht : truncQ x = z := by
    unfold truncQ
    rw [if_pos hx, Int.floor_eq_iff]
    exact ⟨h1, h2⟩
  unfold F64.toInt64
  rw [ht, if_pos ⟨by unfold minInt64; omega, hz⟩]

theorem f64_ofInt_one : F64.ofInt 1 = 1 := by
  have := f64_ofInt_exact 1 (by decide)
  simpa using this

theorem f64_Add_eval_admitted (p : Counter) (key : String) (limitPerWindow add now r : Int)
    (c : ℚ) (n : Int) (hL : limitPerWindow ≠ 0)
    (hc : F64.fadd (F64.countAt (p.lookup key) now) (F64.ofInt add) = c)
    (hn : F64.toInt64 ((⌈max 0 c⌉ : Int) : ℚ) = n) (hle : n ≤ BucketSize limitPerWindow)
    (hw : F64.WillReach { UpdatedAt := now, LimitPerWindow := limitPerWindow, Count := c }
      (wrap64 (BucketSize limitPerWindow - 1)) now = some r) :
    F64.Add p key limitPerWindow add now =
      some ({ Bucket := key, ResetAt := r, BucketSize := BucketSize limitPerWindow,
              Remaining := wrap64 (BucketSize limitPerWindow - n), Allowed := true },
            p.store key { UpdatedAt := now, LimitPerWindow := limitPerWindow, Count := c }) := by
  have hP : F64.Plus (p.lookup key) now limitPerWindow add =
      { UpdatedAt := now, LimitPerWindow := limitPerWindow, Count := c } := by
    unfold F64.Plus
    rw [hc]
  have hC : F64.CountAt (F64.Plus (p.lookup key) now limitPerWindow add) now = n := by
    rw [f64_Plus_CountAt, hc, hn]
  obtain ⟨r', hr', hadd⟩ := f64_Add_admitted p key limitPerWindow add now hL (by rw [hC]; exact hle)
  rw [hP, hw] at hr'
  cases hr'
  rw [hadd, hC, hP]

theorem f64_Add_eval_reject (p : Counter) (key : String) (limitPerWindow add now r : Int)
    (c : ℚ) (n : Int) (hL : limitPerWindow ≠ 0)
    (hc : F64.fadd (F64.countAt (p.lookup key) now) (F64.ofInt add) = c)
    (hn : F64.toInt64 ((⌈max 0 c⌉ : Int) : ℚ) = n) (hlt : BucketSize limitPerWindow < n)
    (hw : F64.WillReach (p.lookup key) (wrap64 (BucketSize limitPerWindow - add)) now = some r) :
    F64.Add p key limitPerWindow add now =
      some ({ Bucket := key, ResetAt := r, BucketSize := BucketSize limitPerWindow,
              Remaining := max 0 (wrap64 (BucketSize limitPerWindow -
                F64.CountAt (p.lookup key) now)),
              Allowed := false }, p) := by
  have hC : F64.CountAt (F64.Plus (p.lookup key) now limitPerWindow add) now = n := by
    rw [f64_Plus_CountAt, hc, hn]
  rw [f64_Add_reject p key limitPerWindow add now hL (by rw [hC]; exact hlt), hw]
  rfl

theorem f64_WillReach_eval (b : Bucket) (count now t d : Int) (need : ℚ) (hc : 0 ≤ count)
    (hneed : F64.fsub b.Count (F64.ofInt count) = need) (hpos : 0 < need)
    (hL : b.LimitPerWindow ≠ 0)
    (ht : F64.toInt64 (F64.fmul need (F64.ofInt WindowDuration)) = t)
    (hd : wrap64 (Int.tdiv t b.LimitPerWindow) = d) :
    F64.WillReach b count now =
      some (if b.UpdatedAt + d < now then now else b.UpdatedAt + d) := by
  simp only [F64.WillReach, if_neg (not_lt.mpr hc), hneed, if_neg (not_le.mpr hpos), if_neg hL,
    ht, hd, timeAdd]
  split_ifs <;> rfl

/-- The calls of the run: limit 120, one token, at 0 s, 1.41 s, 1.447 s and
twice at 2.41 s after `time.Unix(0, 0)`. -/
theorem f64_run_first :
    F64.Add NewCounter "k" 120 1 0 =
      some ({ Bucket := "k", ResetAt := 0, BucketSize := 2, Remaining := 1, Allowed := true },
            NewCounter.store "k" { UpdatedAt := 0, LimitPerWindow := 120, Count := 1 }) := by
  have hB : BucketSize 120 = 2 := by decide
  have hc : F64.fadd (F64.countAt (NewCounter.lookup "k") 0) (F64.ofInt 1) = 1 := by
    rw [NewCounter_lookup, f64_zeroBucket_countAt, f64_ofInt_one]
    unfold F64.fadd
    rw [zero_add]
    simpa using rnd_intCast 1 (by decide)
  have hn : F64.toInt64 ((⌈max 0 (1 : ℚ)⌉ : Int) : ℚ) = 1 := by
    have : ⌈max 0 (1 : ℚ)⌉ = 1 := by norm_num
    rw [this]
    exact toInt64_intCast 1 (by decide) (by decide)
  have hw : F64.WillReach { UpdatedAt := 0, LimitPerWindow := 120, Count := 1 }
      (wrap64 (BucketSize 120 - 1)) 0 = some 0 := by
    apply f64_WillReach_of_need_le
    have h1 : wrap64 (BucketSize 120 - 1) = 1 := by decide
    rw [h1, f64_ofInt_one]
    unfold F64.fsub
    simp [rnd_zero]
  have h := f64_Add_eval_admitted NewCounter "k" 120 1 0 0 1 1 (by decide) hc hn
    (by rw [hB]; decide) hw
  rw [h, hB]
  rfl

theorem f64_fmul_int (m n : Int) (hm : |m| ≤ 2 ^ 53) (hn : |n| ≤ 2 ^ 53)
    (hmn : |m * n| ≤ 2 ^ 53) : F64.fmul (F64.ofInt m) (F64.ofInt n) = ((m * n : Int) : ℚ) := by
  unfold F64.fmul
  rw [f64_ofInt_exact m hm, f64_ofInt_exact n hn, ← Int.cast_mul]
  exact rnd_intCast (m * n) hmn

theorem f64_countAt_eval (b : Bucket) (now e : Int) (prod quot : ℚ)
    (he : timeSub now b.UpdatedAt = e)
    (hprod : F64.fmul (F64.ofInt b.LimitPerWindow) (F64.ofInt e) = prod)
    (hq : F64.fdiv prod (F64.ofInt WindowDuration) = quot) :
    F64.countAt b now = max 0 (F64.fsub b.Count quot) := by
  simp only [F64.countAt, he, hprod, hq]

theorem f64_WillReach_full (now : Int) :
    F64.WillReach { UpdatedAt := now, LimitPerWindow := 120, Count := 1 }
      (wrap64 (BucketSize 120 - 1)) now = some now := by
  apply f64_WillReach_of_need_le
  have h1 : wrap64 (BucketSize 120 - 1) = 1 := by decide
  rw [h1, f64_ofInt_one]
  unfold F64.fsub
  simp [rnd_zero]

theorem f64_run_second :
    F64.Add (NewCounter.store "k" { UpdatedAt := 0, LimitPerWindow := 120, Count := 1 })
        "k" 120 1 1410000000 =
      some ({ Bucket := "k", ResetAt := 1410000000, BucketSize := 2, Remaining := 1,
              Allowed := true },
            NewCounter.store "k"
              { UpdatedAt := 1410000000, LimitPerWindow := 120, Count := 1 }) := by
  have hB : BucketSize 120 = 2 := by decide
  have hprod : F64.fmul (F64.ofInt 120) (F64.ofInt 1410000000) = 169200000000 := by
    rw [f64_fmul_int 120 1410000000 (by decide) (by decide) (by decide)]
    norm_num
  have hquot : F64.fdiv 169200000000 (F64.ofInt WindowDuration) =
      F64.rnd (169200000000 / 60000000000) := by
    unfold F64.fdiv
    rw [f64_window]
  have h2 : (2 : ℚ) ≤ F64.rnd (169200000000 / 60000000000) := by
    have := rnd_mono (show ((2 : Int) : ℚ) ≤ 169200000000 / 60000000000 by norm_num)
    rw [rnd_intCast 2 (by decide)] at this
    exact_mod_cast this
  have hcount : F64.countAt { UpdatedAt := 0, LimitPerWindow := 120, Count := 1 } 1410000000 = 0 := by
    rw [f64_countAt_eval { UpdatedAt := 0, LimitPerWindow := 120, Count := 1 } 1410000000
      1410000000 169200000000 (F64.rnd (169200000000 / 60000000000)) (by decide) hprod hquot]
    apply max_eq_left
    unfold F64.fsub
    apply rnd_nonpos
    show (1 : ℚ) - _ ≤ 0
    linarith
  have hc : F64.fadd (F64.countAt ((NewCounter.store "k"
      { UpdatedAt := 0, LimitPerWindow := 120, Count := 1 }).lookup "k") 1410000000)
      (F64.ofInt 1) = 1 := by
    rw [store_lookup_self, hcount, f64_ofInt_one]
    unfold F64.fadd
    rw [zero_add]
    simpa using rnd_intCast 1 (by decide)
  have hn : F64.toInt64 ((⌈max 0 (1 : ℚ)⌉ : Int) : ℚ) = 1 := by
    have : ⌈max 0 (1 : ℚ)⌉ = 1 := by norm_num
    rw [this]
    exact toInt64_intCast 1 (by decide) (by decide)
  have h := f64_Add_eval_admitted _ "k" 120 1 1410000000 1410000000 1 1 (by decide) hc hn
    (by rw [hB]; decide) (f64_WillReach_full 1410000000)
  rw [h, hB, store_store]
  rfl

theorem f64_run_third :
    F64.Add (NewCounter.store "k"
        { UpdatedAt := 1410000000, LimitPerWindow := 120, Count := 1 }) "k" 120 1 1447000000 =
      some ({ Bucket := "k", ResetAt := 1910000000, BucketSize := 2, Remaining := 0,
              Allowed := true },
            NewCounter.store "k"
              { UpdatedAt := 1447000000, LimitPerWindow := 120,
                Count := 1084241610289447 / 562949953421312 }) := by
  have hB : BucketSize 120 = 2 := by decide
  have hprod : F64.fmul (F64.ofInt 120) (F64.ofInt 37000000) = 4440000000 := by
    rw [f64_fmul_int 120 37000000 (by decide) (by decide) (by decide)]
    norm_num
  have hquot : F64.fdiv 4440000000 (F64.ofInt WindowDuration) =
      5332261958806667 / 72057594037927936 := by
    unfold F64.fdiv
    rw [f64_window]
    exact rnd_074
  have hcount : F64.countAt { UpdatedAt := 1410000000, LimitPerWindow := 120, Count := 1 } 1447000000 = 8340666509890159 / 9007199254740992 := by
    rw [f64_countAt_eval { UpdatedAt := 1410000000, LimitPerWindow := 120, Count := 1 }
      1447000000 37000000 4440000000 (5332261958806667 / 72057594037927936) (by decide)
      hprod hquot]
    unfold F64.fsub
    show max 0 (F64.rnd (1 - 5332261958806667 / 72057594037927936)) = _
    rw [rnd_926]
    norm_num
  have hc : F64.fadd (F64.countAt ((NewCounter.store "k"
      { UpdatedAt := 1410000000, LimitPerWindow := 120, Count := 1 }).lookup "k") 1447000000)
      (F64.ofInt 1) = 1084241610289447 / 562949953421312 := by
    rw [store_lookup_self, hcount, f64_ofInt_one]
    exact rnd_1926_sum
  have hn : F64.toInt64 ((⌈max 0 (1084241610289447 / 562949953421312 : ℚ)⌉ : Int) : ℚ) = 2 := by
    have : ⌈max 0 (1084241610289447 / 562949953421312 : ℚ)⌉ = 2 := by
      rw [Int.ceil_eq_iff]; norm_num
    rw [this]
    exact toInt64_intCast 2 (by decide) (by decide)
  have hneed : F64.fsub (1084241610289447 / 562949953421312) (F64.ofInt 1) =
      521291656868135 / 562949953421312 := by
    rw [f64_ofInt_one]
    unfold F64.fsub
    have hx : (1084241610289447 / 562949953421312 : ℚ) - 1 =
        ((521291656868135 : Int) : ℚ) * (2 : ℚ) ^ (-49 : Int) := by norm_num
    rw [rnd_of_repr 521291656868135 (-49) hx (by decide) (by decide)]
    norm_num
  have ht : F64.toInt64 (F64.fmul (521291656868135 / 562949953421312)
      (F64.ofInt WindowDuration)) = 55560000000 := by
    rw [f64_window]
    unfold F64.fmul
    apply toInt64_of_bounds _ 55560000000 (by decide) _ _ (by decide)
    · have := rnd_mono (show ((55560000000 : Int) : ℚ) ≤
        521291656868135 / 562949953421312 * 60000000000 by norm_num)
      rw [rnd_intCast _ (by decide)] at this
      exact this
    · have hhalf : F64.rnd (111120000001 / 2) = 111120000001 / 2 :=
        rnd_of_repr 111120000001 (-1) (by norm_num) (by decide) (by decide)
      have := rnd_mono (show (521291656868135 / 562949953421312 * 60000000000 : ℚ) ≤
        111120000001 / 2 by norm_num)
      rw [hhalf] at this
      have h3 : (111120000001 / 2 : ℚ) < ((55560000000 : Int) : ℚ) + 1 := by norm_num
      exact lt_of_le_of_lt this h3
  have hw : F64.WillReach { UpdatedAt := 1447000000, LimitPerWindow := 120, Count := 1084241610289447 / 562949953421312 } (wrap64 (BucketSize 120 - 1)) 1447000000 = some 1910000000 := by
    have h1 : wrap64 (BucketSize 120 - 1) = 1 := by decide
    rw [h1, f64_WillReach_eval { UpdatedAt := 1447000000, LimitPerWindow := 120, Count := 1084241610289447 / 562949953421312 } 1 1447000000 55560000000 463000000
      (521291656868135 / 562949953421312) (by decide) hneed (by norm_num) (by decide) ht
      (by decide)]
    rfl
  have h := f64_Add_eval_admitted _ "k" 120 1 1447000000 1910000000 _ 2 (by decide) hc hn
    (by rw [hB]) hw
  rw [h, hB, store_store]
  rfl

theorem rnd_ulp_one : F64.rnd (1 / 4503599627370496) = 1 / 4503599627370496 :=
  rnd_of_repr 1 (-52) (by norm_num) (by decide) (by decide)

theorem rnd_one_plus_ulp :
    F64.rnd (4503599627370497 / 4503599627370496) = 4503599627370497 / 4503599627370496 :=
  rnd_of_repr 4503599627370497 (-52) (by norm_num) (by decide) (by decide)

theorem f64_run_fourth :
    F64.Add (NewCounter.store "k"
        { UpdatedAt := 1447000000, LimitPerWindow := 120,
          Count := 1084241610289447 / 562949953421312 }) "k" 120 1 2410000000 =
      some ({ Bucket := "k", ResetAt := 2410000000, BucketSize := 2, Remaining := 0,
              Allowed := true },
            NewCounter.store "k"
              { UpdatedAt := 2410000000, LimitPerWindow := 120,
                Count := 4503599627370497 / 4503599627370496 }) := by
  have hB : BucketSize 120 = 2 := by decide
  have hprod : F64.fmul (F64.ofInt 120) (F64.ofInt 963000000) = 115560000000 := by
    rw [f64_fmul_int 120 963000000 (by decide) (by decide) (by decide)]
    norm_num
  have hquot : F64.fdiv 115560000000 (F64.ofInt WindowDuration) =
      8673932882315575 / 4503599627370496 := by
    unfold F64.fdiv
    rw [f64_window]
    exact rnd_1926
  have hcount : F64.countAt { UpdatedAt := 1447000000, LimitPerWindow := 120, Count := 1084241610289447 / 562949953421312 } 2410000000 = 1 / 4503599627370496 := by
    rw [f64_countAt_eval { UpdatedAt := 1447000000, LimitPerWindow := 120, Count := 1084241610289447 / 562949953421312 }
      2410000000 963000000 115560000000 (8673932882315575 / 4503599627370496) (by decide)
      hprod hquot]
    unfold F64.fsub
    show max 0 (F64.rnd (1084241610289447 / 562949953421312 -
      8673932882315575 / 4503599627370496)) = _
    have hx : (1084241610289447 / 562949953421312 : ℚ) - 8673932882315575 / 4503599627370496 =
        1 / 4503599627370496 := by norm_num
    rw [hx, rnd_ulp_one]
    norm_num
  have hc : F64.fadd (F64.countAt ((NewCounter.store "k"
      { UpdatedAt := 1447000000, LimitPerWindow := 120,
        Count := 1084241610289447 / 562949953421312 }).lookup "k") 2410000000)
      (F64.ofInt 1) = 4503599627370497 / 4503599627370496 := by
    rw [store_lookup_self, hcount, f64_ofInt_one]
    unfold F64.fadd
    have hx : (1 / 4503599627370496 : ℚ) + 1 = 4503599627370497 / 4503599627370496 := by
      norm_num
    rw [hx, rnd_one_plus_ulp]
  have hn : F64.toInt64 ((⌈max 0 (4503599627370497 / 4503599627370496 : ℚ)⌉ : Int) : ℚ) = 2 := by
    have : ⌈max 0 (4503599627370497 / 4503599627370496 : ℚ)⌉ = 2 := by
      rw [Int.ceil_eq_iff]; norm_num
    rw [this]
    exact toInt64_intCast 2 (by decide) (by decide)
  have hneed : F64.fsub (4503599627370497 / 4503599627370496) (F64.ofInt 1) =
      1 / 4503599627370496 := by
    rw [f64_ofInt_one]
    unfold F64.fsub
    have hx : (4503599627370497 / 4503599627370496 : ℚ) - 1 = 1 / 4503599627370496 := by
      norm_num
    rw [hx, rnd_ulp_one]
  have ht : F64.toInt64 (F64.fmul (1 / 4503599627370496) (F64.ofInt WindowDuration)) = 0 := by
    rw [f64_window]
    unfold F64.fmul
    apply toInt64_of_bounds _ 0 (by decide) _ _ (by decide)
    · have := rnd_nonneg (show (0 : ℚ) ≤ 1 / 4503599627370496 * 60000000000 by norm_num)
      simpa using this
    · have hhalf : F64.rnd (1 / 2) = 1 / 2 :=
        rnd_of_repr 1 (-1) (by norm_num) (by decide) (by decide)
      have := rnd_mono (show (1 / 4503599627370496 * 60000000000 : ℚ) ≤ 1 / 2 by norm_num)
      rw [hhalf] at this
      have h3 : (1 / 2 : ℚ) < ((0 : Int) : ℚ) + 1 := by norm_num
      exact lt_of_le_of_lt this h3
  have hw : F64.WillReach { UpdatedAt := 2410000000, LimitPerWindow := 120, Count := 4503599627370497 / 4503599627370496 } (wrap64 (BucketSize 120 - 1)) 2410000000 = some 2410000000 := by
    have h1 : wrap64 (BucketSize 120 - 1) = 1 := by decide
    rw [h1, f64_WillReach_eval { UpdatedAt := 2410000000, LimitPerWindow := 120, Count := 4503599627370497 / 4503599627370496 } 1 2410000000 0 0
      (1 / 4503599627370496) (by decide) hneed (by norm_num) (by decide) ht
      (by decide)]
    rfl
  have h := f64_Add_eval_admitted _ "k" 120 1 2410000000 2410000000 _ 2 (by decide) hc hn
    (by rw [hB]) hw
  rw [h, hB, store_store]
  rfl

theorem f64_run_fifth :
    F64.Add (NewCounter.store "k"
        { UpdatedAt := 2410000000, LimitPerWindow := 120,
          Count := 4503599627370497 / 4503599627370496 }) "k" 120 1 2410000000 =
      some ({ Bucket := "k", ResetAt := 2910000000, BucketSize := 2, Remaining := 0,
              Allowed := true },
            NewCounter.store "k"
              { UpdatedAt := 2410000000, LimitPerWindow := 120, Count := 2 }) := by
  have hB : BucketSize 120 = 2 := by decide
  have hcount : F64.countAt { UpdatedAt := 2410000000, LimitPerWindow := 120, Count := 4503599627370497 / 4503599627370496 } 2410000000 = 4503599627370497 / 4503599627370496 := by
    have h := f64_countAt_self { UpdatedAt := 2410000000, LimitPerWindow := 120, Count := 4503599627370497 / 4503599627370496 }
    rw [show F64.countAt { UpdatedAt := 2410000000, LimitPerWindow := 120, Count := 4503599627370497 / 4503599627370496 } 2410000000 = max 0 (F64.rnd (4503599627370497 / 4503599627370496)) from h,
      rnd_one_plus_ulp]
    norm_num
  have hc : F64.fadd (F64.countAt ((NewCounter.store "k"
      { UpdatedAt := 2410000000, LimitPerWindow := 120,
        Count := 4503599627370497 / 4503599627370496 }).lookup "k") 2410000000)
      (F64.ofInt 1) = 2 := by
    rw [store_lookup_self, hcount, f64_ofInt_one]
    exact rnd_two_plus_ulp
  have hn : F64.toInt64 ((⌈max 0 (2 : ℚ)⌉ : Int) : ℚ) = 2 := by
    have : ⌈max 0 (2 : ℚ)⌉ = 2 := by norm_num
    rw [this]
    exact toInt64_intCast 2 (by decide) (by decide)
  have hneed : F64.fsub 2 (F64.ofInt 1) = 1 := by
    rw [f64_ofInt_one]
    unfold F64.fsub
    have hx : (2 : ℚ) - 1 = ((1 : Int) : ℚ) := by norm_num
    rw [hx, rnd_intCast 1 (by decide)]
    norm_num
  have ht : F64.toInt64 (F64.fmul 1 (F64.ofInt WindowDuration)) = 60000000000 := by
    rw [f64_window]
    unfold F64.fmul
    have hx : (1 : ℚ) * 60000000000 = ((60000000000 : Int) : ℚ) := by norm_num
    rw [hx, rnd_intCast _ (by decide)]
    exact toInt64_intCast _ (by decide) (by decide)
  have hw : F64.WillReach { UpdatedAt := 2410000000, LimitPerWindow := 120, Count := 2 } (wrap64 (BucketSize 120 - 1)) 2410000000 = some 2910000000 := by
    have h1 : wrap64 (BucketSize 120 - 1) = 1 := by decide
    rw [h1, f64_WillReach_eval { UpdatedAt := 2410000000, LimitPerWindow := 120, Count := 2 } 1 2410000000 60000000000 500000000
      1 (by decide) hneed (by norm_num) (by decide) ht (by decide)]
    rfl
  have h := f64_Add_eval_admitted _ "k" 120 1 2410000000 2910000000 _ 2 (by decide) hc hn
    (by rw [hB]) hw
  rw [h, hB, store_store]
  rfl

theorem f64_addAll_cons (p : Counter) (c : Call) (cs : List Call) (info : Info)
    (p' : Counter) (infos : List Info) (p'' : Counter)
    (h1 : F64.Add p c.key c.limitPerWindow c.add c.now = some (info, p'))
    (h2 : F64.addAll p' cs = some (infos, p'')) :
    F64.addAll p (c :: cs) = some (info :: infos, p'') := by
  simp only [F64.addAll, h1, h2]

theorem f64_ofInt_maxInt64 : F64.ofInt 9223372036854775807 = 9223372036854775808 := by
  unfold F64.ofInt
  have hx : ((9223372036854775807 : Int) : ℚ) = 9223372036854775807 := by norm_num
  rw [hx, rnd_maxInt64]

theorem rnd_two_pow_63 : F64.rnd 9223372036854775808 = 9223372036854775808 :=
  rnd_of_repr (2 ^ 52) 11 (by norm_num) (by norm_num) (by decide)

/-- The bucket that `Add` stores for the amount `math.MaxInt64`: `float64` of
the amount is 2^63. -/
theorem f64_countAt_two_pow_63 :
    F64.countAt { UpdatedAt := 0, LimitPerWindow := 120, Count := 9223372036854775808 } 0 =
      9223372036854775808 := by
  have h := f64_countAt_self { UpdatedAt := 0, LimitPerWindow := 120, Count := 9223372036854775808 }
  rw [show F64.countAt { UpdatedAt := 0, LimitPerWindow := 120, Count := 9223372036854775808 } 0 = max 0 (F64.rnd 9223372036854775808) from h,
    rnd_two_pow_63]
  norm_num

theorem f64_CountAt_two_pow_63 :
    F64.CountAt { UpdatedAt := 0, LimitPerWindow := 120, Count := 9223372036854775808 } 0 =
      -9223372036854775808 := by
  unfold F64.CountAt
  rw [f64_countAt_two_pow_63]
  have : ⌈(9223372036854775808 : ℚ)⌉ = 9223372036854775808 := by
    rw [Int.ceil_eq_iff]; norm_num
  rw [this]
  exact toInt64_out_of_range _ (by decide)

theorem rnd_two_pow_63_less : F64.rnd (9223372036854775808 - 1200) = 9223372036854774784 := by
  have h := rnd_eq_of_near (9223372036854775808 - 1200) 62 9007199254740991 (by norm_num)
    (by norm_num) (by norm_num) (by norm_num) (by norm_num) (by norm_num)
  rw [h]
  norm_num

theorem f64_CountAt_two_pow_63_later :
    F64.CountAt { UpdatedAt := 0, LimitPerWindow := 120, Count := 9223372036854775808 }
      600000000000 = 9223372036854774784 := by
  have hprod : F64.fmul (F64.ofInt 120) (F64.ofInt 600000000000) = 72000000000000 := by
    rw [f64_fmul_int 120 600000000000 (by decide) (by decide) (by decide)]
    norm_num
  have hquot : F64.fdiv 72000000000000 (F64.ofInt WindowDuration) = 1200 := by
    unfold F64.fdiv
    rw [f64_window]
    have hx : (72000000000000 : ℚ) / 60000000000 = ((1200 : Int) : ℚ) := by norm_num
    rw [hx, rnd_intCast _ (by decide)]
    norm_num
  have hcount : F64.countAt { UpdatedAt := 0, LimitPerWindow := 120, Count := 9223372036854775808 } 600000000000 = 9223372036854774784 := by
    rw [f64_countAt_eval { UpdatedAt := 0, LimitPerWindow := 120, Count := 9223372036854775808 }
      600000000000 600000000000 72000000000000 1200 (by decide) hprod hquot]
    unfold F64.fsub
    show max 0 (F64.rnd (9223372036854775808 - 1200)) = _
    rw [rnd_two_pow_63_less]
    norm_num
  unfold F64.CountAt
  rw [hcount]
  have : ⌈(9223372036854774784 : ℚ)⌉ = 9223372036854774784 := by
    rw [Int.ceil_eq_iff]; norm_num
  rw [this]
  exact toInt64_intCast _ (by decide) (by decide)

/-- `Add` with the amount `math.MaxInt64` on a new counter: the projected count
2^63 is converted to the smallest `int64`, the call is admitted and reports a
negative `Remaining`. -/
theorem f64_Add_maxInt64 :
    F64.Add NewCounter "k" 120 9223372036854775807 0 =
      some ({ Bucket := "k", ResetAt := 0, BucketSize := 2,
              Remaining := -9223372036854775806, Allowed := true },
            NewCounter.store "k"
              { UpdatedAt := 0, LimitPerWindow := 120, Count := 9223372036854775808 }) := by
  have hB : BucketSize 120 = 2 := by decide
  have hc : F64.fadd (F64.countAt (NewCounter.lookup "k") 0) (F64.ofInt 9223372036854775807) =
      9223372036854775808 := by
    rw [NewCounter_lookup, f64_zeroBucket_countAt, f64_ofInt_maxInt64]
    unfold F64.fadd
    rw [zero_add, rnd_two_pow_63]
  have hn : F64.toInt64 ((⌈max 0 (9223372036854775808 : ℚ)⌉ : Int) : ℚ) =
      -9223372036854775808 := by
    have : ⌈max 0 (9223372036854775808 : ℚ)⌉ = 9223372036854775808 := by
      rw [Int.ceil_eq_iff]; norm_num
    rw [this]
    exact toInt64_out_of_range _ (by decide)
  have hneed : F64.fsub 9223372036854775808 (F64.ofInt 1) = 9223372036854775808 := by
    rw [f64_ofInt_one]
    unfold F64.fsub
    have hx : (9223372036854775808 : ℚ) - 1 = 9223372036854775807 := by norm_num
    rw [hx, rnd_maxInt64]
  have ht : F64.toInt64 (F64.fmul 9223372036854775808 (F64.ofInt WindowDuration)) =
      -9223372036854775808 := by
    rw [f64_window]
    unfold F64.fmul
    have hx : (9223372036854775808 : ℚ) * 60000000000 =
        ((29296875 : Int) : ℚ) * (2 : ℚ) ^ (74 : Int) := by norm_num
    rw [rnd_of_repr 29296875 74 hx (by decide) (by decide)]
    have hy : (9223372036854775808 : ℚ) * 60000000000 =
        ((553402322211286548480000000000 : Int) : ℚ) := by norm_num
    rw [hy]
    exact toInt64_out_of_range _ (by decide)
  have hw : F64.WillReach { UpdatedAt := 0, LimitPerWindow := 120, Count := 9223372036854775808 } (wrap64 (BucketSize 120 - 1)) 0 = some 0 := by
    have h1 : wrap64 (BucketSize 120 - 1) = 1 := by decide
    rw [h1, f64_WillReach_eval { UpdatedAt := 0, LimitPerWindow := 120, Count := 9223372036854775808 } 1 0 (-9223372036854775808) (-76861433640456465)
      9223372036854775808 (by decide) hneed (by norm_num) (by decide) ht (by decide)]
    rfl
  have h := f64_Add_eval_admitted NewCounter "k" 120 9223372036854775807 0 0 _
    (-9223372036854775808) (by decide) hc hn (by rw [hB]; decide) hw
  rw [h, hB]
  rfl

theorem rnd_half : F64.rnd (1 / 2) = 1 / 2 :=
  rnd_of_repr 1 (-1) (by norm_num) (by decide) (by decide)

/-- A bucket of limit 1 holding 153722868 tokens, updated at the zero
`time.Time` and read at `time.Unix(0, 0)`: `Sub` saturates and at least half a
token is left. -/
theorem f64_countAt_saturated :
    (1 / 2 : ℚ) ≤ F64.countAt { UpdatedAt := zeroTime, LimitPerWindow := 1, Count := 153722868 }
      unixEpoch := by
  have hprod : F64.fmul (F64.ofInt 1) (F64.ofInt 9223372036854775807) =
      9223372036854775808 := by
    rw [f64_ofInt_one, f64_ofInt_maxInt64]
    unfold F64.fmul
    rw [one_mul, rnd_two_pow_63]
  have hquot : F64.fdiv 9223372036854775808 (F64.ofInt WindowDuration) =
      F64.rnd (9223372036854775808 / 60000000000) := by
    unfold F64.fdiv
    rw [f64_window]
  have hq : F64.rnd (9223372036854775808 / 60000000000) ≤ 307445735 / 2 := by
    have hr : F64.rnd (307445735 / 2) = 307445735 / 2 :=
      rnd_of_repr 307445735 (-1) (by norm_num) (by decide) (by decide)
    have := rnd_mono (show (9223372036854775808 / 60000000000 : ℚ) ≤ 307445735 / 2 by norm_num)
    rw [hr] at this
    exact this
  rw [f64_countAt_eval { UpdatedAt := zeroTime, LimitPerWindow := 1, Count := 153722868 }
    unixEpoch 9223372036854775807 9223372036854775808
    (F64.rnd (9223372036854775808 / 60000000000)) (by decide) hprod hquot]
  apply le_max_of_le_right
  unfold F64.fsub
  have := rnd_mono (show (1 / 2 : ℚ) ≤
    153722868 - F64.rnd (9223372036854775808 / 60000000000) by linarith)
  rw [rnd_half] at this
  exact this

theorem f64_CountAt_ten_pow_19 :
    F64.CountAt { UpdatedAt := 0, LimitPerWindow := 1, Count := 10000000000000000000 } 0 =
      -9223372036854775808 := by
  have hr : F64.rnd 10000000000000000000 = 10000000000000000000 :=
    rnd_of_repr 19073486328125 19 (by norm_num) (by decide) (by decide)
  have h := f64_countAt_self { UpdatedAt := 0, LimitPerWindow := 1, Count := 10000000000000000000 }
  unfold F64.CountAt
  rw [show F64.countAt { UpdatedAt := 0, LimitPerWindow := 1, Count := 10000000000000000000 } 0 = max 0 (F64.rnd 10000000000000000000) from h, hr]
  have : ⌈max 0 (10000000000000000000 : ℚ)⌉ = 10000000000000000000 := by
    rw [Int.ceil_eq_iff]; norm_num
  rw [this]
  exact toInt64_out_of_range _ (by decide)

/-! ## General facts about the `float64` embedding -/

theorem BucketSize_abs_le (limitPerWindow : Int) :
    -153722867 ≤ BucketSize limitPerWindow ∧ BucketSize limitPerWindow ≤ 153722867 := by
  have hn := wrap64_range (wrap64 (wrap64 (limitPerWindow * BurstTolerance) +
    WindowDuration) - 1)
  unfold minInt64 maxInt64 at hn
  have key : ∀ n : Int, -9223372036854775808 ≤ n → n ≤ 9223372036854775807 →
      -153722867 ≤ Int.tdiv n 60000000000 ∧ Int.tdiv n 60000000000 ≤ 153722867 := by
    intro n h1 h2
    rcases le_or_lt 0 n with h0 | h0
    · rw [Int.tdiv_eq_ediv h0 (by norm_num)]
      omega
    · have hneg : Int.tdiv n 60000000000 = -(Int.tdiv (-n) 60000000000) := by
        rw [Int.neg_tdiv, neg_neg]
      rw [hneg, Int.tdiv_eq_ediv (by omega) (by norm_num)]
      omega
  have hk := key _ hn.1 hn.2
  simp only [BucketSize, WindowDuration]
  simp only [WindowDuration] at hk
  rw [wrap64_of_bounds (by omega) (by omega)]
  exact hk

theorem f64_countAt_antitone (b : Bucket) (t1 t2 : Int) (hL : 0 ≤ b.LimitPerWindow)
    (ht : t1 ≤ t2) : F64.countAt b t2 ≤ F64.countAt b t1 := by
  unfold F64.countAt
  have hs : F64.ofInt (timeSub t1 b.UpdatedAt) ≤ F64.ofInt (timeSub t2 b.UpdatedAt) :=
    f64_ofInt_mono (timeSub_mono b.UpdatedAt ht)
  have hL' : 0 ≤ F64.ofInt b.LimitPerWindow := f64_ofInt_nonneg hL
  have hm : F64.fmul (F64.ofInt b.LimitPerWindow) (F64.ofInt (timeSub t1 b.UpdatedAt)) ≤
      F64.fmul (F64.ofInt b.LimitPerWindow) (F64.ofInt (timeSub t2 b.UpdatedAt)) :=
    rnd_mono (mul_le_mul_of_nonneg_left hs hL')
  have hW : (0 : ℚ) ≤ F64.ofInt WindowDuration := by rw [f64_window]; norm_num
  have hd : F64.fdiv (F64.fmul (F64.ofInt b.LimitPerWindow)
        (F64.ofInt (timeSub t1 b.UpdatedAt))) (F64.ofInt WindowDuration) ≤
      F64.fdiv (F64.fmul (F64.ofInt b.LimitPerWindow)
        (F64.ofInt (timeSub t2 b.UpdatedAt))) (F64.ofInt WindowDuration) :=
    rnd_mono (div_le_div_of_nonneg_right hm hW)
  exact max_le_max le_rfl (rnd_mono (by linarith))

theorem f64_CountAt_of_range (b : Bucket) (now : Int)
    (h : ⌈F64.countAt b now⌉ ≤ maxInt64) :
    F64.CountAt b now = ⌈F64.countAt b now⌉ ∧ 0 ≤ F64.CountAt b now := by
  have h0 : 0 ≤ ⌈F64.countAt b now⌉ := Int.ceil_nonneg (f64_countAt_nonneg b now)
  have heq : F64.CountAt b now = ⌈F64.countAt b now⌉ := by
    unfold F64.CountAt
    exact toInt64_intCast _ (by unfold minInt64; omega) h
  exact ⟨heq, by rw [heq]; exact h0⟩

theorem f64_Plus_CountAt_of_range (b : Bucket) (now limitPerWindow add : Int)
    (h : ⌈max 0 (F64.fadd (F64.countAt b now) (F64.ofInt add))⌉ ≤ maxInt64) :
    F64.CountAt (F64.Plus b now limitPerWindow add) now =
      ⌈max 0 (F64.fadd (F64.countAt b now) (F64.ofInt add))⌉ := by
  have h' : ⌈F64.countAt (F64.Plus b now limitPerWindow add) now⌉ ≤ maxInt64 := by
    rw [f64_Plus_countAt]; exact h
  rw [(f64_CountAt_of_range _ now h').1, f64_Plus_countAt]

/-- An exact sum within the capacity stays within it after rounding. -/
theorem f64_sum_le_of_exact (x : ℚ) (a N : Int) (hx : 0 ≤ x) (ha : 0 ≤ a)
    (hN : N ≤ 153722867) (hsum : x + (a : ℚ) ≤ (N : ℚ)) :
    max 0 (F64.fadd x (F64.ofInt a)) ≤ (N : ℚ) := by
  have haN : a ≤ N := by
    have : (a : ℚ) ≤ (N : ℚ) := by linarith
    exact_mod_cast this
  have hN0 : 0 ≤ N := le_trans ha haN
  rw [f64_ofInt_exact a (by rw [abs_of_nonneg ha]; omega)]
  unfold F64.fadd
  have := rnd_mono hsum
  rw [rnd_intCast N (by rw [abs_of_nonneg hN0]; omega)] at this
  exact max_le (by exact_mod_cast hN0) this

theorem f64_Add_allowed_of_range (p : Counter) (key : String) (limitPerWindow add now : Int)
    (hL : limitPerWindow ≠ 0)
    (hr : ⌈max 0 (F64.fadd (F64.countAt (p.lookup key) now) (F64.ofInt add))⌉ ≤ maxInt64) :
    (∃ info p', F64.Add p key limitPerWindow add now = some (info, p') ∧
        info.Allowed = true) ↔
      ⌈max 0 (F64.fadd (F64.countAt (p.lookup key) now) (F64.ofInt add))⌉ ≤
        BucketSize limitPerWindow := by
  rw [f64_Add_allowed_iff_aux p key limitPerWindow add now hL,
    f64_Plus_CountAt_of_range _ now limitPerWindow add hr]

theorem f64_Add_allowed_of_exact (p : Counter) (key : String) (limitPerWindow add now : Int)
    (hL : limitPerWindow ≠ 0) (ha : 0 ≤ add)
    (hle : ⌈F64.countAt (p.lookup key) now + (add : ℚ)⌉ ≤ BucketSize limitPerWindow) :
    ∃ info p', F64.Add p key limitPerWindow add now = some (info, p') ∧
      info.Allowed = true := by
  have hB := (BucketSize_abs_le limitPerWindow).2
  have hx := f64_sum_le_of_exact (F64.countAt (p.lookup key) now) add
    ⌈F64.countAt (p.lookup key) now + (add : ℚ)⌉ (f64_countAt_nonneg _ _) ha
    (le_trans hle hB) (Int.le_ceil _)
  have hc : ⌈max 0 (F64.fadd (F64.countAt (p.lookup key) now) (F64.ofInt add))⌉ ≤
      ⌈F64.countAt (p.lookup key) now + (add : ℚ)⌉ := Int.ceil_le.mpr hx
  have hr : ⌈max 0 (F64.fadd (F64.countAt (p.lookup key) now) (F64.ofInt add))⌉ ≤ maxInt64 := by
    unfold maxInt64
    omega
  exact (f64_Add_allowed_of_range p key limitPerWindow add now hL hr).mpr (le_trans hc hle)

theorem f64_Add_rejected_of_range (p : Counter) (key : String) (limitPerWindow add now : Int)
    (hp : ∀ b, p.buckets key = some b → b.LimitPerWindow ≠ 0)
    (hL : limitPerWindow ≠ 0)
    (hr : ⌈max 0 (F64.fadd (F64.countAt (p.lookup key) now) (F64.ofInt add))⌉ ≤ maxInt64) :
    ∃ info p', F64.Add p key limitPerWindow add now = some (info, p') ∧
      (info.Allowed = false ↔
        BucketSize limitPerWindow <
          ⌈max 0 (F64.fadd (F64.countAt (p.lookup key) now) (F64.ofInt add))⌉) := by
  obtain ⟨info, p', hadd, hiff⟩ := f64_Add_total p key limitPerWindow add now hp
  refine ⟨info, p', hadd, ?_⟩
  rw [hiff, f64_Plus_CountAt_of_range _ now limitPerWindow add hr]
  simp [hL]

theorem f64_first_sum (key : String) (now : Int) :
    F64.fadd (F64.countAt (NewCounter.lookup key) now) (F64.ofInt 1) = 1 := by
  rw [NewCounter_lookup, f64_zeroBucket_countAt, f64_ofInt_one]
  unfold F64.fadd
  rw [zero_add]
  simpa using rnd_intCast 1 (by decide)

theorem f64_first_range (key : String) (now : Int) :
    ⌈max 0 (F64.fadd (F64.countAt (NewCounter.lookup key) now) (F64.ofInt 1))⌉ ≤ maxInt64 := by
  rw [f64_first_sum]
  have : ⌈max 0 (1 : ℚ)⌉ = 1 := by norm_num
  rw [this]
  decide

theorem f64_headroom_aux (p : Counter) (key : String) (limitPerWindow add now : Int)
    (info : Info) (p' : Counter) (hL : limitPerWindow ≠ 0)
    (hadd : F64.Add p key limitPerWindow add now = some (info, p'))
    (hal : info.Allowed = true)
    (hr : ⌈max 0 (F64.fadd (F64.countAt (p.lookup key) now) (F64.ofInt add))⌉ ≤ maxInt64) :
    p' = p.store key (F64.Plus (p.lookup key) now limitPerWindow add) ∧
      info.Remaining = BucketSize limitPerWindow -
        ⌈max 0 (F64.fadd (F64.countAt (p.lookup key) now) (F64.ofInt add))⌉ ∧
      ⌈max 0 (F64.fadd (F64.countAt (p.lookup key) now) (F64.ofInt add))⌉ ≤
        BucketSize limitPerWindow ∧
      F64.countAt (p'.lookup key) now =
        max 0 (F64.fadd (F64.countAt (p.lookup key) now) (F64.ofInt add)) := by
  have hB := (BucketSize_abs_le limitPerWindow).2
  have h0 : 0 ≤ ⌈max 0 (F64.fadd (F64.countAt (p.lookup key) now) (F64.ofInt add))⌉ :=
    Int.ceil_nonneg (le_max_left _ _)
  have hC := f64_Plus_CountAt_of_range (p.lookup key) now limitPerWindow add hr
  rcases f64_Add_some_cases p key limitPerWindow add now info p' hadd with
    ⟨h0', _, _⟩ | ⟨_, hle, r, _, hi, hp'⟩ | ⟨_, _, r, _, hi, _⟩
  · exact absurd h0' hL
  · rw [hC] at hle hi
    refine ⟨hp', ?_, hle, ?_⟩
    · rw [hi]
      exact wrap64_of_bounds (by omega) (by omega)
    · rw [hp', store_lookup_self, f64_Plus_countAt]
  · rw [hi] at hal
    simp at hal

theorem rnd_two_pow_62 : F64.rnd 4611686018427387904 = 4611686018427387904 :=
  rnd_of_repr (2 ^ 52) 10 (by norm_num) (by norm_num) (by decide)

theorem rnd_two_pow_62_more : F64.rnd 4611686018695823360 = 4611686018695823360 :=
  rnd_of_repr (2 ^ 34 + 1) 28 (by norm_num) (by norm_num) (by decide)

theorem f64_second_allowed (x : ℚ) (a B : Int) (hB : B ≤ 153722867) (ha : 0 ≤ a)
    (hle : ⌈x⌉ + a ≤ B) (hx : 0 ≤ x) :
    ⌈max 0 (F64.fadd x (F64.ofInt a))⌉ ≤ B := by
  have h := f64_sum_le_of_exact x a (⌈x⌉ + a) hx ha (le_trans hle hB)
    (by push_cast; linarith [Int.le_ceil x])
  exact le_trans (Int.ceil_le.mpr h) hle

theorem f64_second_rejected (x : ℚ) (a B : Int) (hB : B ≤ 153722867) (hB0 : 0 ≤ B)
    (hx : 0 ≤ x) (hxB : ⌈x⌉ ≤ B) (hlt : B - ⌈x⌉ + 1 < a) (ha : a ≤ 4611686018427387904) :
    B < ⌈max 0 (F64.fadd x (F64.ofInt a))⌉ ∧
      ⌈max 0 (F64.fadd x (F64.ofInt a))⌉ ≤ maxInt64 := by
  have hc0 : 0 ≤ ⌈x⌉ := Int.ceil_nonneg hx
  have hr2 : F64.ofInt (B - ⌈x⌉ + 2) = ((B - ⌈x⌉ + 2 : Int) : ℚ) :=
    f64_ofInt_exact _ (by rw [abs_of_nonneg (by omega)]; omega)
  have hlow : ((B - ⌈x⌉ + 2 : Int) : ℚ) ≤ F64.ofInt a := by
    rw [← hr2]
    exact f64_ofInt_mono (by omega)
  have hup : F64.ofInt a ≤ 4611686018427387904 := by
    have := f64_ofInt_mono ha
    unfold F64.ofInt at this ⊢
    have hcast : ((4611686018427387904 : Int) : ℚ) = 4611686018427387904 := by norm_num
    rw [hcast, rnd_two_pow_62] at this
    exact this
  have hxc : (⌈x⌉ : ℚ) - 1 < x := by
    have := Int.ceil_lt_add_one x
    linarith
  have hxle : x ≤ (⌈x⌉ : ℚ) := Int.le_ceil x
  have hxB' : (⌈x⌉ : ℚ) ≤ (B : ℚ) := by exact_mod_cast hxB
  have hB' : (B : ℚ) ≤ 153722867 := by exact_mod_cast hB
  have hsum_low : ((B + 1 : Int) : ℚ) ≤ x + F64.ofInt a := by
    push_cast at hlow ⊢
    linarith
  have hs_low : ((B + 1 : Int) : ℚ) ≤ F64.fadd x (F64.ofInt a) := by
    unfold F64.fadd
    have := rnd_mono hsum_low
    rw [rnd_intCast (B + 1) (by rw [abs_of_nonneg (by omega)]; omega)] at this
    exact this
  have hs_up : F64.fadd x (F64.ofInt a) ≤ 4611686018695823360 := by
    unfold F64.fadd
    have := rnd_mono (show x + F64.ofInt a ≤ 4611686018695823360 by linarith)
    rw [rnd_two_pow_62_more] at this
    exact this
  constructor
  · rw [Int.lt_ceil]
    have : ((B + 1 : Int) : ℚ) ≤ max 0 (F64.fadd x (F64.ofInt a)) :=
      le_trans hs_low (le_max_right _ _)
    push_cast at this
    linarith
  · rw [Int.ceil_le]
    unfold maxInt64
    exact max_le (by norm_num) (le_trans hs_up (by norm_num))

/-! ## Further runs of the `float64` embedding -/

theorem f64_run_four :
    F64.addAll NewCounter [⟨"k", 120, 1, 0⟩, ⟨"k", 120, 1, 1410000000⟩,
        ⟨"k", 120, 1, 1447000000⟩, ⟨"k", 120, 1, 2410000000⟩] =
      some ([{ Bucket := "k", ResetAt := 0, BucketSize := 2, Remaining := 1, Allowed := true },
             { Bucket := "k", ResetAt := 1410000000, BucketSize := 2, Remaining := 1,
               Allowed := true },
             { Bucket := "k", ResetAt := 1910000000, BucketSize := 2, Remaining := 0,
               Allowed := true },
             { Bucket := "k", ResetAt := 2410000000, BucketSize := 2, Remaining := 0,
               Allowed := true }],
            NewCounter.store "k"
              { UpdatedAt := 2410000000, LimitPerWindow := 120,
                Count := 4503599627370497 / 4503599627370496 }) :=
  f64_addAll_cons _ ⟨"k", 120, 1, 0⟩ _ _ _ _ _ f64_run_first
    (f64_addAll_cons _ ⟨"k", 120, 1, 1410000000⟩ _ _ _ _ _ f64_run_second
      (f64_addAll_cons _ ⟨"k", 120, 1, 1447000000⟩ _ _ _ _ _ f64_run_third
        (f64_addAll_cons _ ⟨"k", 120, 1, 2410000000⟩ _ _ _ _ _ f64_run_fourth rfl)))

theorem f64_countAt_fourth :
    F64.countAt ((NewCounter.store "k"
      { UpdatedAt := 2410000000, LimitPerWindow := 120,
        Count := 4503599627370497 / 4503599627370496 }).lookup "k") 2410000000 =
      4503599627370497 / 4503599627370496 := by
  rw [store_lookup_self]
  have h := f64_countAt_self { UpdatedAt := 2410000000, LimitPerWindow := 120, Count := 4503599627370497 / 4503599627370496 }
  rw [show F64.countAt { UpdatedAt := 2410000000, LimitPerWindow := 120, Count := 4503599627370497 / 4503599627370496 } 2410000000 = max 0 (F64.rnd (4503599627370497 / 4503599627370496)) from h,
    rnd_one_plus_ulp]
  norm_num

theorem f64_Add_negative :
    F64.Add NewCounter "k" (-120) (-5) 0 =
      some ({ Bucket := "k", ResetAt := 0, BucketSize := -1, Remaining := 0,
              Allowed := false }, NewCounter) := by
  have hB : BucketSize (-120) = -1 := by decide
  have h5 : F64.ofInt (-5) = -5 := by
    have := f64_ofInt_exact (-5) (by decide)
    simpa using this
  have hc : F64.fadd (F64.countAt (NewCounter.lookup "k") 0) (F64.ofInt (-5)) = -5 := by
    rw [NewCounter_lookup, f64_zeroBucket_countAt, h5]
    unfold F64.fadd
    rw [zero_add]
    simpa using rnd_intCast (-5) (by decide)
  have hn : F64.toInt64 ((⌈max 0 (-5 : ℚ)⌉ : Int) : ℚ) = 0 := by
    have : ⌈max 0 (-5 : ℚ)⌉ = 0 := by norm_num
    rw [this]
    exact toInt64_intCast 0 (by decide) (by decide)
  have hw : F64.WillReach (NewCounter.lookup "k") (wrap64 (BucketSize (-120) - -5)) 0 =
      some 0 := by
    apply f64_WillReach_of_need_le
    rw [NewCounter_lookup]
    have h1 : wrap64 (BucketSize (-120) - -5) = 4 := by decide
    rw [h1]
    have h4 : F64.ofInt 4 = 4 := by
      have := f64_ofInt_exact 4 (by decide)
      simpa using this
    rw [h4]
    unfold F64.fsub zeroBucket
    have hx : (0 : ℚ) - 4 = ((-4 : Int) : ℚ) := by norm_num
    rw [hx, rnd_intCast (-4) (by decide)]
    norm_num
  have hC : F64.CountAt (NewCounter.lookup "k") 0 = 0 := by
    rw [NewCounter_lookup]
    unfold F64.CountAt
    rw [f64_zeroBucket_countAt]
    have : ⌈(0 : ℚ)⌉ = 0 := by norm_num
    rw [this]
    exact toInt64_intCast 0 (by decide) (by decide)
  have h := f64_Add_eval_reject NewCounter "k" (-120) (-5) 0 0 (-5) 0 (by decide) hc hn
    (by rw [hB]; decide) hw
  rw [h, hB, hC]
  rfl

theorem f64_ofInt_two_exact : F64.rnd 2 = 2 := by
  simpa using rnd_intCast 2 (by decide)

theorem f64_scenarioA_second :
    F64.Add (NewCounter.store "test1" { UpdatedAt := 0, LimitPerWindow := 120, Count := 1 })
        "test1" 120 1 0 =
      some ({ Bucket := "test1", ResetAt := 500000000, BucketSize := 2, Remaining := 0,
              Allowed := true },
            NewCounter.store "test1" { UpdatedAt := 0, LimitPerWindow := 120, Count := 2 }) := by
  have hB : BucketSize 120 = 2 := by decide
  have hcount : F64.countAt { UpdatedAt := 0, LimitPerWindow := 120, Count := 1 } 0 = 1 := by
    have h := f64_countAt_self { UpdatedAt := 0, LimitPerWindow := 120, Count := 1 }
    rw [show F64.countAt { UpdatedAt := 0, LimitPerWindow := 120, Count := 1 } 0 = max 0 (F64.rnd 1) from h]
    have h1 : F64.rnd 1 = 1 := by simpa using rnd_intCast 1 (by decide)
    rw [h1]
    norm_num
  have hc : F64.fadd (F64.countAt ((NewCounter.store "test1"
      { UpdatedAt := 0, LimitPerWindow := 120, Count := 1 }).lookup "test1") 0)
      (F64.ofInt 1) = 2 := by
    rw [store_lookup_self, hcount, f64_ofInt_one]
    unfold F64.fadd
    have hx : (1 : ℚ) + 1 = 2 := by norm_num
    rw [hx, f64_ofInt_two_exact]
  have hn : F64.toInt64 ((⌈max 0 (2 : ℚ)⌉ : Int) : ℚ) = 2 := by
    have : ⌈max 0 (2 : ℚ)⌉ = 2 := by norm_num
    rw [this]
    exact toInt64_intCast 2 (by decide) (by decide)
  have hneed : F64.fsub 2 (F64.ofInt 1) = 1 := by
    rw [f64_ofInt_one]
    unfold F64.fsub
    have hx : (2 : ℚ) - 1 = ((1 : Int) : ℚ) := by norm_num
    rw [hx, rnd_intCast 1 (by decide)]
    norm_num
  have ht : F64.toInt64 (F64.fmul 1 (F64.ofInt WindowDuration)) = 60000000000 := by
    rw [f64_window]
    unfold F64.fmul
    have hx : (1 : ℚ) * 60000000000 = ((60000000000 : Int) : ℚ) := by norm_num
    rw [hx, rnd_intCast _ (by decide)]
    exact toInt64_intCast _ (by decide) (by decide)
  have hw : F64.WillReach { UpdatedAt := 0, LimitPerWindow := 120, Count := 2 } (wrap64 (BucketSize 120 - 1)) 0 = some 500000000 := by
    have h1 : wrap64 (BucketSize 120 - 1) = 1 := by decide
    rw [h1, f64_WillReach_eval { UpdatedAt := 0, LimitPerWindow := 120, Count := 2 } 1 0 60000000000 500000000
      1 (by decide) hneed (by norm_num) (by decide) ht (by decide)]
    rfl
  have h := f64_Add_eval_admitted _ "test1" 120 1 0 500000000 _ 2 (by decide) hc hn
    (by rw [hB]) hw
  rw [h, hB, store_store]
  rfl

theorem f64_countAt_two :
    F64.countAt { UpdatedAt := 0, LimitPerWindow := 120, Count := 2 } 0 = 2 := by
  have h := f64_countAt_self { UpdatedAt := 0, LimitPerWindow := 120, Count := 2 }
  rw [show F64.countAt { UpdatedAt := 0, LimitPerWindow := 120, Count := 2 } 0 = max 0 (F64.rnd 2) from h,
    f64_ofInt_two_exact]
  norm_num

theorem f64_scenarioA_third :
    F64.Add (NewCounter.store "test1" { UpdatedAt := 0, LimitPerWindow := 120, Count := 2 })
        "test1" 120 1 0 =
      some ({ Bucket := "test1", ResetAt := 500000000, BucketSize := 2, Remaining := 0,
              Allowed := false },
            NewCounter.store "test1" { UpdatedAt := 0, LimitPerWindow := 120, Count := 2 }) := by
  have hB : BucketSize 120 = 2 := by decide
  have hc : F64.fadd (F64.countAt ((NewCounter.store "test1"
      { UpdatedAt := 0, LimitPerWindow := 120, Count := 2 }).lookup "test1") 0)
      (F64.ofInt 1) = 3 := by
    rw [store_lookup_self, f64_countAt_two, f64_ofInt_one]
    unfold F64.fadd
    have hx : (2 : ℚ) + 1 = ((3 : Int) : ℚ) := by norm_num
    rw [hx, rnd_intCast 3 (by decide)]
    norm_num
  have hn : F64.toInt64 ((⌈max 0 (3 : ℚ)⌉ : Int) : ℚ) = 3 := by
    have : ⌈max 0 (3 : ℚ)⌉ = 3 := by norm_num
    rw [this]
    exact toInt64_intCast 3 (by decide) (by decide)
  have hneed : F64.fsub 2 (F64.ofInt 1) = 1 := by
    rw [f64_ofInt_one]
    unfold F64.fsub
    have hx : (2 : ℚ) - 1 = ((1 : Int) : ℚ) := by norm_num
    rw [hx, rnd_intCast 1 (by decide)]
    norm_num
  have ht : F64.toInt64 (F64.fmul 1 (F64.ofInt WindowDuration)) = 60000000000 := by
    rw [f64_window]
    unfold F64.fmul
    have hx : (1 : ℚ) * 60000000000 = ((60000000000 : Int) : ℚ) := by norm_num
    rw [hx, rnd_intCast _ (by decide)]
    exact toInt64_intCast _ (by decide) (by decide)
  have hw : F64.WillReach ((NewCounter.store "test1" { UpdatedAt := 0, LimitPerWindow := 120, Count := 2 }).lookup "test1") (wrap64 (BucketSize 120 - 1)) 0 = some 500000000 := by
    have h1 : wrap64 (BucketSize 120 - 1) = 1 := by decide
    rw [store_lookup_self, h1, f64_WillReach_eval { UpdatedAt := 0, LimitPerWindow := 120, Count := 2 } 1 0 60000000000 500000000
      1 (by decide) hneed (by norm_num) (by decide) ht (by decide)]
    rfl
  have hC : F64.CountAt ((NewCounter.store "test1" { UpdatedAt := 0, LimitPerWindow := 120, Count := 2 }).lookup "test1") 0 = 2 := by
    rw [store_lookup_self]
    unfold F64.CountAt
    rw [f64_countAt_two]
    have : ⌈(2 : ℚ)⌉ = 2 := by norm_num
    rw [this]
    exact toInt64_intCast 2 (by decide) (by decide)
  have h := f64_Add_eval_reject _ "test1" 120 1 0 500000000 3 3 (by decide) hc hn
    (by rw [hB]; decide) hw
  rw [h, hB, hC]
  rfl

theorem f64_scenarioA_first :
    F64.Add NewCounter "test1" 120 1 0 =
      some ({ Bucket := "test1", ResetAt := 0, BucketSize := 2, Remaining := 1,
              Allowed := true },
            NewCounter.store "test1" { UpdatedAt := 0, LimitPerWindow := 120, Count := 1 }) := by
  have hB : BucketSize 120 = 2 := by decide
  have hn : F64.toInt64 ((⌈max 0 (1 : ℚ)⌉ : Int) : ℚ) = 1 := by
    have : ⌈max 0 (1 : ℚ)⌉ = 1 := by norm_num
    rw [this]
    exact toInt64_intCast 1 (by decide) (by decide)
  have h := f64_Add_eval_admitted NewCounter "test1" 120 1 0 0 1 1 (by decide)
    (f64_first_sum "test1" 0) hn (by rw [hB]; decide) (f64_WillReach_full 0)
  rw [h, hB]
  rfl

theorem f64_scenarioA_run :
    F64.addAll NewCounter [⟨"test1", 120, 1, 0⟩, ⟨"test1", 120, 1, 0⟩, ⟨"test1", 120, 1, 0⟩] =
      some ([{ Bucket := "test1", ResetAt := 0, BucketSize := 2, Remaining := 1,
               Allowed := true },
             { Bucket := "test1", ResetAt := 500000000, BucketSize := 2, Remaining := 0,
               Allowed := true },
             { Bucket := "test1", ResetAt := 500000000, BucketSize := 2, Remaining := 0,
               Allowed := false }],
            NewCounter.store "test1" { UpdatedAt := 0, LimitPerWindow := 120, Count := 2 }) :=
  f64_addAll_cons _ ⟨"test1", 120, 1, 0⟩ _ _ _ _ _ f64_scenarioA_first
    (f64_addAll_cons _ ⟨"test1", 120, 1, 0⟩ _ _ _ _ _ f64_scenarioA_second
      (f64_addAll_cons _ ⟨"test1", 120, 1, 0⟩ _ _ _ _ _ f64_scenarioA_third rfl))

theorem f64_countAt_drained :
    F64.countAt { UpdatedAt := 0, LimitPerWindow := 120, Count := 2 } 30000000000 = 0 := by
  have hprod : F64.fmul (F64.ofInt 120) (F64.ofInt 30000000000) = 3600000000000 := by
    rw [f64_fmul_int 120 30000000000 (by decide) (by decide) (by decide)]
    norm_num
  have hquot : F64.fdiv 3600000000000 (F64.ofInt WindowDuration) = 60 := by
    unfold F64.fdiv
    rw [f64_window]
    have hx : (3600000000000 : ℚ) / 60000000000 = ((60 : Int) : ℚ) := by norm_num
    rw [hx, rnd_intCast 60 (by decide)]
    norm_num
  rw [f64_countAt_eval { UpdatedAt := 0, LimitPerWindow := 120, Count := 2 } 30000000000 30000000000 3600000000000 60 (by decide) hprod hquot]
  unfold F64.fsub
  have hx : (2 : ℚ) - 60 = ((-58 : Int) : ℚ) := by norm_num
  show max 0 (F64.rnd ((2 : ℚ) - 60)) = 0
  rw [hx, rnd_intCast (-58) (by decide)]
  norm_num

theorem f64_Add_drained_overflow :
    F64.Add (NewCounter.store "test1" { UpdatedAt := 0, LimitPerWindow := 120, Count := 2 })
        "test1" 9223371977 1 30000000000 =
      some ({ Bucket := "test1", ResetAt := 30000000000, BucketSize := -153722867,
              Remaining := 0, Allowed := false },
            NewCounter.store "test1" { UpdatedAt := 0, LimitPerWindow := 120, Count := 2 }) := by
  have hB : BucketSize 9223371977 = -153722867 := by decide
  have hc : F64.fadd (F64.countAt ((NewCounter.store "test1"
      { UpdatedAt := 0, LimitPerWindow := 120, Count := 2 }).lookup "test1") 30000000000)
      (F64.ofInt 1) = 1 := by
    rw [store_lookup_self, f64_countAt_drained, f64_ofInt_one]
    unfold F64.fadd
    rw [zero_add]
    simpa using rnd_intCast 1 (by decide)
  have hn : F64.toInt64 ((⌈max 0 (1 : ℚ)⌉ : Int) : ℚ) = 1 := by
    have : ⌈max 0 (1 : ℚ)⌉ = 1 := by norm_num
    rw [this]
    exact toInt64_intCast 1 (by decide) (by decide)
  have hw : F64.WillReach ((NewCounter.store "test1" { UpdatedAt := 0, LimitPerWindow := 120, Count := 2 }).lookup "test1") (wrap64 (BucketSize 9223371977 - 1)) 30000000000 = some 30000000000 :=
    f64_WillReach_of_neg _ _ _ (by decide)
  have hC : F64.CountAt ((NewCounter.store "test1" { UpdatedAt := 0, LimitPerWindow := 120, Count := 2 }).lookup "test1") 30000000000 = 0 := by
    rw [store_lookup_self]
    unfold F64.CountAt
    rw [f64_countAt_drained]
    have : ⌈(0 : ℚ)⌉ = 0 := by norm_num
    rw [this]
    exact toInt64_intCast 0 (by decide) (by decide)
  have h := f64_Add_eval_reject _ "test1" 9223371977 1 30000000000 30000000000 1 1 (by decide)
    hc hn (by rw [hB]; decide) hw
  rw [h, hB, hC]
  rfl

theorem f64_ofInt_elapsed_tie : F64.ofInt 15728699999999999 = 15728700000000000 := by
  unfold F64.ofInt
  have h := rnd_eq_of_tie_odd (((15728699999999999 : Int) : ℚ)) 53 7864349999999999
    (by norm_num) (by norm_num) (by norm_num) (by norm_num) (by norm_num) (by decide)
  rw [h]
  norm_num

theorem f64_countAt_rounded_empty :
    F64.countAt { UpdatedAt := 0, LimitPerWindow := 1, Count := 262145 } 15728699999999999 =
      0 := by
  have hprod : F64.fmul (F64.ofInt 1) (F64.ofInt 15728699999999999) = 15728700000000000 := by
    rw [f64_ofInt_one, f64_ofInt_elapsed_tie]
    unfold F64.fmul
    rw [one_mul]
    exact rnd_of_repr 7864350000000000 1 (by norm_num) (by norm_num) (by decide)
  have hquot : F64.fdiv 15728700000000000 (F64.ofInt WindowDuration) = 262145 := by
    unfold F64.fdiv
    rw [f64_window]
    have hx : (15728700000000000 : ℚ) / 60000000000 = ((262145 : Int) : ℚ) := by norm_num
    rw [hx, rnd_intCast 262145 (by decide)]
    norm_num
  rw [f64_countAt_eval { UpdatedAt := 0, LimitPerWindow := 1, Count := 262145 } 15728699999999999 15728699999999999 15728700000000000 262145 (by decide) hprod hquot]
  show max 0 (F64.fsub (262145 : ℚ) 262145) = 0
  unfold F64.fsub
  rw [sub_self, rnd_zero]
  norm_num

theorem f64_CountAt_rounded_empty :
    F64.CountAt { UpdatedAt := 0, LimitPerWindow := 1, Count := 262145 } 15728699999999999 =
      0 := by
  unfold F64.CountAt
  rw [f64_countAt_rounded_empty]
  have : ⌈(0 : ℚ)⌉ = 0 := by norm_num
  rw [this]
  exact toInt64_intCast 0 (by decide) (by decide)

theorem f64_countAt_le_count (b : Bucket) (now : Int) (hL : 0 ≤ b.LimitPerWindow)
    (h : b.UpdatedAt ≤ now) : F64.countAt b now ≤ max 0 (F64.rnd b.Count) := by
  have := f64_countAt_antitone b b.UpdatedAt now hL h
  rwa [f64_countAt_self] at this

theorem f64_countAt_formula (b : Bucket) (now : Int) (h : b.UpdatedAt ≤ now) :
    F64.countAt b now =
      max 0 (F64.fsub b.Count
        (F64.fdiv (F64.fmul (F64.ofInt b.LimitPerWindow)
          (F64.ofInt (min maxInt64 (now - b.UpdatedAt)))) (F64.ofInt WindowDuration))) := by
  have ht : timeSub now b.UpdatedAt = min maxInt64 (now - b.UpdatedAt) := by
    unfold timeSub
    apply max_eq_right
    unfold minInt64 maxInt64
    omega
  unfold F64.countAt
  rw [ht]

theorem f64_run_three :
    F64.addAll NewCounter [⟨"k", 120, 1, 0⟩, ⟨"k", 120, 1, 1410000000⟩,
        ⟨"k", 120, 1, 1447000000⟩] =
      some ([{ Bucket := "k", ResetAt := 0, BucketSize := 2, Remaining := 1, Allowed := true },
             { Bucket := "k", ResetAt := 1410000000, BucketSize := 2, Remaining := 1,
               Allowed := true },
             { Bucket := "k", ResetAt := 1910000000, BucketSize := 2, Remaining := 0,
               Allowed := true }],
            NewCounter.store "k"
              { UpdatedAt := 1447000000, LimitPerWindow := 120,
                Count := 1084241610289447 / 562949953421312 }) :=
  f64_addAll_cons _ ⟨"k", 120, 1, 0⟩ _ _ _ _ _ f64_run_first
    (f64_addAll_cons _ ⟨"k", 120, 1, 1410000000⟩ _ _ _ _ _ f64_run_second
      (f64_addAll_cons _ ⟨"k", 120, 1, 1447000000⟩ _ _ _ _ _ f64_run_third rfl))

theorem f64_headroom (p : Counter) (key : String) (limitPerWindow amount now : Int)
    (info : Info) (p' : Counter) (hL : limitPerWindow ≠ 0)
    (hadd : F64.Add p key limitPerWindow amount now = some (info, p'))
    (hal : info.Allowed = true)
    (hr : ⌈max 0 (F64.fadd (F64.countAt (p.lookup key) now) (F64.ofInt amount))⌉ ≤ maxInt64) :
    (∀ a : Int, 0 ≤ a → a ≤ info.Remaining →
      ∃ i q, F64.Add p' key limitPerWindow a now = some (i, q) ∧ i.Allowed = true) ∧
    (∀ a : Int, info.Remaining + 1 < a → a ≤ 4611686018427387904 →
      ∃ i q, F64.Add p' key limitPerWindow a now = some (i, q) ∧ i.Allowed = false) := by
  obtain ⟨hp', hrem, hle, hcnt⟩ :=
    f64_headroom_aux p key limitPerWindow amount now info p' hL hadd hal hr
  have hB := BucketSize_abs_le limitPerWindow
  have hx0 : (0 : ℚ) ≤ max 0 (F64.fadd (F64.countAt (p.lookup key) now) (F64.ofInt amount)) :=
    le_max_left _ _
  have hc0 := Int.ceil_nonneg hx0
  constructor
  · intro a ha har
    have hc : ⌈max 0 (F64.fadd (F64.countAt (p'.lookup key) now) (F64.ofInt a))⌉ ≤
        BucketSize limitPerWindow := by
      rw [hcnt]
      exact f64_second_allowed _ a _ hB.2 ha (by omega) hx0
    exact (f64_Add_allowed_of_range p' key limitPerWindow a now hL
      (by unfold maxInt64; omega)).mpr hc
  · intro a har ha
    obtain ⟨hlt, hrange⟩ := f64_second_rejected _ a (BucketSize limitPerWindow) hB.2
      (by omega) hx0 hle (by omega) ha
    have hstored : ∀ b, p'.buckets key = some b → b.LimitPerWindow ≠ 0 := by
      intro b hb
      rw [hp', store_buckets_self] at hb
      cases hb
      exact hL
    obtain ⟨i, q, hq, hiff⟩ := f64_Add_rejected_of_range p' key limitPerWindow a now hstored hL
      (by rw [hcnt]; exact hrange)
    exact ⟨i, q, hq, hiff.mpr (by rw [hcnt]; exact hlt)⟩


/-- Scenario B: thirty seconds after Scenario A the bucket of limit 120 reads as
empty and a single token is allowed with `Remaining = 1`. -/
theorem f64_scenarioB :
    F64.Add (NewCounter.store "test1" { UpdatedAt := 0, LimitPerWindow := 120, Count := 2 })
        "test1" 120 1 30000000000 =
      some ({ Bucket := "test1", ResetAt := 30000000000, BucketSize := 2, Remaining := 1,
              Allowed := true },
            NewCounter.store "test1"
              { UpdatedAt := 30000000000, LimitPerWindow := 120, Count := 1 }) := by
  have hB : BucketSize 120 = 2 := by decide
  have hc : F64.fadd (F64.countAt ((NewCounter.store "test1"
      { UpdatedAt := 0, LimitPerWindow := 120, Count := 2 }).lookup "test1") 30000000000)
      (F64.ofInt 1) = 1 := by
    rw [store_lookup_self, f64_countAt_drained, f64_ofInt_one]
    unfold F64.fadd
    rw [zero_add]
    simpa using rnd_intCast 1 (by decide)
  have hn : F64.toInt64 ((⌈max 0 (1 : ℚ)⌉ : Int) : ℚ) = 1 := by
    have : ⌈max 0 (1 : ℚ)⌉ = 1 := by norm_num
    rw [this]
    exact toInt64_intCast 1 (by decide) (by decide)
  have h := f64_Add_eval_admitted _ "test1" 120 1 30000000000 30000000000 1 1 (by decide)
    hc hn (by rw [hB]; decide) (f64_WillReach_full 30000000000)
  rw [h, hB, store_store]
  rfl

/-- The exported `CountAt` follows the decay of `countAt` as long as the earlier
count fits an `int64`. -/
theorem f64_CountAt_antitone_of_range (b : Bucket) (t1 t2 : Int) (hL : 0 ≤ b.LimitPerWindow)
    (ht : t1 ≤ t2) (hr : ⌈F64.countAt b t1⌉ ≤ maxInt64) :
    F64.CountAt b t2 ≤ F64.CountAt b t1 := by
  have hc : ⌈F64.countAt b t2⌉ ≤ ⌈F64.countAt b t1⌉ :=
    Int.ceil_le_ceil (f64_countAt_antitone b t1 t2 hL ht)
  rw [(f64_CountAt_of_range b t1 hr).1, (f64_CountAt_of_range b t2 (le_trans hc hr)).1]
  exact hc

/-- `Remaining` is non-negative whenever the projected count fits an `int64`. -/
theorem f64_Add_remaining_nonneg (p : Counter) (key : String) (limitPerWindow add now : Int)
    (info : Info) (p' : Counter)
    (hadd : F64.Add p key limitPerWindow add now = some (info, p'))
    (hr : ⌈max 0 (F64.fadd (F64.countAt (p.lookup key) now) (F64.ofInt add))⌉ ≤ maxInt64) :
    0 ≤ info.Remaining := by
  have hC := f64_Plus_CountAt_of_range (p.lookup key) now limitPerWindow add hr
  have hB := BucketSize_abs_le limitPerWindow
  have h0 : 0 ≤ ⌈max 0 (F64.fadd (F64.countAt (p.lookup key) now) (F64.ofInt add))⌉ :=
    Int.ceil_nonneg (le_max_left _ _)
  rcases f64_Add_some_cases p key limitPerWindow add now info p' hadd with
    ⟨_, hi, _⟩ | ⟨_, hle, r, _, hi, _⟩ | ⟨_, _, r, _, hi, _⟩
  · rw [hi]
  · rw [hC] at hle hi
    rw [hi]
    show 0 ≤ wrap64 _
    rw [wrap64_of_bounds (by omega) (by omega)]
    omega
  · rw [hi]
    exact le_max_left _ _

/-! ## The claims -/

/-- C1 (amended). In `float64` arithmetic, for a non-zero limit, let `x` be the
projected count as `CountAt` reads it on the candidate: the rounded sum of
`existing.countAt now` and `float64 amount`, clamped at 0. When the ceiling of
`x` fits an `int64`, `Add` returns `Allowed = true` exactly when that ceiling
is at most `BucketSize limitPerWindow` (equality is allowed). For a
non-negative amount the exact sum is a sufficient test: when the ceiling of
`existing.countAt now + amount` is within the capacity the call is allowed.
When the stored bucket has a non-zero limit (or the key is absent) the call
returns, and it is rejected exactly when the ceiling of `x` is strictly above
the capacity. -/
theorem Add_allowed_iff_rounded (p : Counter) (key : String) (limitPerWindow add now : Int)
    (hL : limitPerWindow ≠ 0) :
    (⌈max 0 (F64.fadd (F64.countAt (p.lookup key) now) (F64.ofInt add))⌉ ≤ maxInt64 →
      ((∃ info p', F64.Add p key limitPerWindow add now = some (info, p') ∧
          info.Allowed = true) ↔
        ⌈max 0 (F64.fadd (F64.countAt (p.lookup key) now) (F64.ofInt add))⌉ ≤
          BucketSize limitPerWindow)) ∧
    (0 ≤ add →
      ⌈F64.countAt (p.lookup key) now + (add : ℚ)⌉ ≤ BucketSize limitPerWindow →
      ∃ info p', F64.Add p key limitPerWindow add now = some (info, p') ∧
        info.Allowed = true) ∧
    ((∀ b, p.buckets key = some b → b.LimitPerWindow ≠ 0) →
      ⌈max 0 (F64.fadd (F64.countAt (p.lookup key) now) (F64.ofInt add))⌉ ≤ maxInt64 →
      ∃ info p', F64.Add p key limitPerWindow add now = some (info, p') ∧
        (info.Allowed = false ↔
          BucketSize limitPerWindow <
            ⌈max 0 (F64.fadd (F64.countAt (p.lookup key) now) (F64.ofInt add))⌉)) :=
  ⟨fun hr => f64_Add_allowed_of_range p key limitPerWindow add now hL hr,
   fun ha hle => f64_Add_allowed_of_exact p key limitPerWindow add now hL ha hle,
   fun hp hr => f64_Add_rejected_of_range p key limitPerWindow add now hp hL hr⟩

/-- C1, witness: the first call of the repository test, `Add "test1" 120 1` at
`time.Unix(0, 0)` on a new counter; the projected count is 1. -/
theorem Add_allowed_iff_rounded_witness :
    (120 : Int) ≠ 0 ∧
    ⌈max 0 (F64.fadd (F64.countAt (NewCounter.lookup "test1") 0) (F64.ofInt 1))⌉ ≤ maxInt64 ∧
    ((∃ info p', F64.Add NewCounter "test1" 120 1 0 = some (info, p') ∧
        info.Allowed = true) ↔
      ⌈max 0 (F64.fadd (F64.countAt (NewCounter.lookup "test1") 0) (F64.ofInt 1))⌉ ≤
        BucketSize 120) :=
  ⟨by decide, f64_first_range "test1" 0,
   (Add_allowed_iff_rounded NewCounter "test1" 120 1 0 (by decide)).1
     (f64_first_range "test1" 0)⟩

/-- C1, counterexample. Both directions of the claimed equivalence fail. After
the allowed calls `Add "k" 120 1` at 0 s, 1.41 s, 1.447 s and 2.41 s after
`time.Unix(0, 0)` the stored count is `1 + 2 ^ (-52)`; a fifth call at 2.41 s
is allowed, the `float64` sum being 2, although the ceiling of
`countAt + amount` is 3, above `BucketSize 120 = 2`. On a new counter
`Add "k" (-120) (-5)` is rejected, the projected count being clamped at 0,
although the ceiling of `countAt + amount` is -5, below
`BucketSize (-120) = -1`. -/
theorem Add_allowed_iff_rounded_counterexample :
    (F64.addAll NewCounter [⟨"k", 120, 1, 0⟩, ⟨"k", 120, 1, 1410000000⟩,
        ⟨"k", 120, 1, 1447000000⟩, ⟨"k", 120, 1, 2410000000⟩] =
      some ([{ Bucket := "k", ResetAt := 0, BucketSize := 2, Remaining := 1, Allowed := true },
             { Bucket := "k", ResetAt := 1410000000, BucketSize := 2, Remaining := 1,
               Allowed := true },
             { Bucket := "k", ResetAt := 1910000000, BucketSize := 2, Remaining := 0,
               Allowed := true },
             { Bucket := "k", ResetAt := 2410000000, BucketSize := 2, Remaining := 0,
               Allowed := true }],
            NewCounter.store "k"
              { UpdatedAt := 2410000000, LimitPerWindow := 120,
                Count := 4503599627370497 / 4503599627370496 })) ∧
    (F64.Add (NewCounter.store "k"
          { UpdatedAt := 2410000000, LimitPerWindow := 120,
            Count := 4503599627370497 / 4503599627370496 }) "k" 120 1 2410000000 =
        some ({ Bucket := "k", ResetAt := 2910000000, BucketSize := 2, Remaining := 0,
                Allowed := true },
              NewCounter.store "k"
                { UpdatedAt := 2410000000, LimitPerWindow := 120, Count := 2 })) ∧
    ⌈F64.countAt ((NewCounter.store "k"
          { UpdatedAt := 2410000000, LimitPerWindow := 120,
            Count := 4503599627370497 / 4503599627370496 }).lookup "k") 2410000000 +
        ((1 : Int) : ℚ)⌉ = 3 ∧
    BucketSize 120 = 2 ∧
    (F64.Add NewCounter "k" (-120) (-5) 0 =
        some ({ Bucket := "k", ResetAt := 0, BucketSize := -1, Remaining := 0,
                Allowed := false }, NewCounter)) ∧
    ⌈F64.countAt (NewCounter.lookup "k") 0 + ((-5 : Int) : ℚ)⌉ = -5 ∧
    BucketSize (-120) = -1 := by
  refine ⟨f64_run_four, f64_run_fifth, ?_, by decide, f64_Add_negative, ?_, by decide⟩
  · rw [f64_countAt_fourth, Int.ceil_eq_iff]
    norm_num
  · rw [NewCounter_lookup, f64_zeroBucket_countAt, Int.ceil_eq_iff]
    norm_num

/-- C2. A rejected `Add` leaves the counter as it was, for every key, and the
same call issued again at the same instant returns the same `Info`. -/
theorem Add_rejected_idempotent (p : Counter) (key : String) (limitPerWindow add now : Int)
    (info : Info) (p' : Counter)
    (hadd : p.Add key limitPerWindow add now = some (info, p'))
    (hrej : info.Allowed = false) :
    p' = p ∧ (∀ k, p'.buckets k = p.buckets k) ∧
      p'.Add key limitPerWindow add now = some (info, p') := by
  have h := Add_rejected_unchanged p key limitPerWindow add now info p' hadd hrej
  subst h
  exact ⟨rfl, fun _ => rfl, hadd⟩

/-- C2, witness: three tokens at once on a new counter of limit 120. -/
theorem Add_rejected_idempotent_witness :
    NewCounter.Add "k" 120 3 unixEpoch =
        some ({ Bucket := "k", ResetAt := unixEpoch, BucketSize := 2, Remaining := 2,
                Allowed := false }, NewCounter) ∧
      (NewCounter = NewCounter ∧ (∀ k, NewCounter.buckets k = NewCounter.buckets k) ∧
        NewCounter.Add "k" 120 3 unixEpoch =
          some ({ Bucket := "k", ResetAt := unixEpoch, BucketSize := 2, Remaining := 2,
                  Allowed := false }, NewCounter)) :=
  ⟨Add_fresh_over,
    Add_rejected_idempotent NewCounter "k" 120 3 unixEpoch _ NewCounter Add_fresh_over rfl⟩

/-- C3. With a zero limit `Add` returns the bypass `Info` (allowed, reset at
the instant of the call, size and remaining zero) whatever the amount, and the
counter is unchanged. -/
theorem Add_zero_limit_bypass (p : Counter) (key : String) (add now : Int) :
    p.Add key 0 add now =
      some ({ Bucket := key, ResetAt := now, BucketSize := 0, Remaining := 0,
              Allowed := true }, p) := by
  simp [Counter.Add]

/-- C4. In every counter reachable from `NewCounter` by `Add` calls, each stored
bucket has, at its own `UpdatedAt`, a display count of at most the capacity for
its `LimitPerWindow`. -/
theorem reachable_capacity_bound (p : Counter) (hp : Reachable p) (key : String) (b : Bucket)
    (hb : p.buckets key = some b) :
    b.CountAt b.UpdatedAt ≤ BucketSize b.LimitPerWindow :=
  stored_le_BucketSize hp key b hb

/-- C4, witness: the counter after the first call of the repository tests. -/
theorem reachable_capacity_bound_witness :
    Reachable (NewCounter.store "test1"
        { UpdatedAt := unixEpoch, LimitPerWindow := 120, Count := 1 }) ∧
      ({ UpdatedAt := unixEpoch, LimitPerWindow := 120, Count := 1 } : Bucket).CountAt unixEpoch ≤
        BucketSize 120 :=
  have hr : Reachable (NewCounter.store "test1"
      { UpdatedAt := unixEpoch, LimitPerWindow := 120, Count := 1 }) :=
    Reachable.step "test1" 120 1 unixEpoch Reachable.init Add_test1_first
  ⟨hr, reachable_capacity_bound _ hr "test1" _ (store_buckets_self _ _ _)⟩

/-- C5. On a new counter, single-token calls of a positive limit repeated at one
instant all return; the `k`-th call echoes the key and the capacity, is allowed
with `Remaining = BucketSize limitPerWindow - k` while `k` is at most the
capacity, and is rejected once `k` exceeds it, in particular for call number
`BucketSize limitPerWindow + 1`. -/
theorem burst_exhaustion (key : String) (limitPerWindow t0 : Int) (hL : 0 < limitPerWindow)
    (n : Nat) :
    ∃ infos p', NewCounter.addAll (List.replicate n ⟨key, limitPerWindow, 1, t0⟩) =
        some (infos, p') ∧
      infos.length = n ∧
      ∀ k : Nat, 1 ≤ k → k ≤ n → ∃ info, infos[k - 1]? = some info ∧
        info.Bucket = key ∧ info.BucketSize = BucketSize limitPerWindow ∧
        ((k : Int) ≤ BucketSize limitPerWindow →
          info.Allowed = true ∧ info.Remaining = BucketSize limitPerWindow - (k : Int)) ∧
        (BucketSize limitPerWindow < (k : Int) → info.Allowed = false) := by
  obtain ⟨infos, p', hrun, hlen, hall⟩ :=
    burstCounter_run key limitPerWindow t0 (ne_of_gt hL) n 0
  refine ⟨infos, p', hrun, hlen, ?_⟩
  intro k hk1 hkn
  obtain ⟨info, hget, hkey, hsz, hle, hgt⟩ := hall (k - 1) (by omega)
  have hk : 0 + (k - 1) + 1 = k := by omega
  rw [hk] at hle hgt
  exact ⟨info, hget, hkey, hsz, hle, hgt⟩

/-- C5, witness: limit 120 at `time.Unix(0, 0)`, three calls. -/
theorem burst_exhaustion_witness :
    (0 : Int) < 120 ∧
      ∃ infos p', NewCounter.addAll (List.replicate 3 ⟨"test1", 120, 1, unixEpoch⟩) =
          some (infos, p') ∧
        infos.length = 3 ∧
        ∀ k : Nat, 1 ≤ k → k ≤ 3 → ∃ info, infos[k - 1]? = some info ∧
          info.Bucket = "test1" ∧ info.BucketSize = BucketSize 120 ∧
          ((k : Int) ≤ BucketSize 120 →
            info.Allowed = true ∧ info.Remaining = BucketSize 120 - (k : Int)) ∧
          (BucketSize 120 < (k : Int) → info.Allowed = false) :=
  ⟨by decide, burst_exhaustion "test1" 120 unixEpoch (by decide) 3⟩

/-- C6, the code at the failing input. For the limit 9223371977 the sum
`a + b - 1` of `BucketSize` exceeds the `int64` range and wraps: the result is
-153722867, while the ceiling of `limit * BurstTolerance / WindowDuration` is
153722867. -/
theorem BucketSize_overflow :
    BucketSize 9223371977 = -153722867 ∧
      ⌈((9223371977 : Int) : ℚ) * ((BurstTolerance : Int) : ℚ) /
        ((WindowDuration : Int) : ℚ)⌉ = 153722867 := by
  refine ⟨by decide, ?_⟩
  rw [Int.ceil_eq_iff]
  norm_num [BurstTolerance, WindowDuration]

/-- C7, the code at the failing input. The counter holding one token of limit 7
stored at `time.Unix(0, 0)` is reachable with positive limits only; a further
single-token call at that instant (amount 1, within the capacity 1) is rejected
with `ResetAt = 8571428571`, the truncation of 60000000000 / 7, and the same call
at that `ResetAt` is rejected again: 3 / 60000000000 of a token is still in the
bucket. -/
theorem resetAt_rejection_refused_again :
    ReachablePos (NewCounter.store "k"
        { UpdatedAt := unixEpoch, LimitPerWindow := 7, Count := 1 }) ∧
      (1 : Int) ≤ BucketSize 7 ∧
      (NewCounter.store "k" { UpdatedAt := unixEpoch, LimitPerWindow := 7, Count := 1 }).Add
          "k" 7 1 unixEpoch =
        some ({ Bucket := "k", ResetAt := 8571428571, BucketSize := 1, Remaining := 0,
                Allowed := false },
              NewCounter.store "k" { UpdatedAt := unixEpoch, LimitPerWindow := 7, Count := 1 }) ∧
      (NewCounter.store "k" { UpdatedAt := unixEpoch, LimitPerWindow := 7, Count := 1 }).Add
          "k" 7 1 8571428571 =
        some ({ Bucket := "k", ResetAt := 8571428571, BucketSize := 1, Remaining := 0,
                Allowed := false },
              NewCounter.store "k" { UpdatedAt := unixEpoch, LimitPerWindow := 7, Count := 1 }) ∧
      ({ UpdatedAt := unixEpoch, LimitPerWindow := 7, Count := 1 } : Bucket).countAt 8571428571 =
        3 / 60000000000 := by
  refine ⟨ReachablePos.step "k" 7 1 unixEpoch ReachablePos.init (by decide) Add_limit7_first,
    by decide, Add_limit7_reject unixEpoch (by decide) (by decide),
    Add_limit7_reject 8571428571 (by decide) (by decide), ?_⟩
  have hs : timeSub 8571428571 unixEpoch = 8571428571 := by decide
  simp only [Bucket.countAt, hs]
  norm_num [WindowDuration]

/-- C8, the code at the failing input. After the two admitted and one rejected
`Add "test1" 120 1` of Scenario A at `time.Unix(0, 0)` the stored bucket has the
limit 120 and holds 2 tokens; thirty seconds later it has leaked 60 tokens and
reads as empty. `Add "test1" 9223371977 1` at that instant is rejected all the
same, with `BucketSize = -153722867` and `Remaining = 0`: `BucketSize`
overflows for the positive limit 9223371977. -/
theorem drained_bucket_rejected :
    F64.addAll NewCounter
        [⟨"test1", 120, 1, 0⟩, ⟨"test1", 120, 1, 0⟩, ⟨"test1", 120, 1, 0⟩] =
      some ([{ Bucket := "test1", ResetAt := 0, BucketSize := 2, Remaining := 1,
               Allowed := true },
             { Bucket := "test1", ResetAt := 500000000, BucketSize := 2, Remaining := 0,
               Allowed := true },
             { Bucket := "test1", ResetAt := 500000000, BucketSize := 2, Remaining := 0,
               Allowed := false }],
            NewCounter.store "test1" { UpdatedAt := 0, LimitPerWindow := 120, Count := 2 }) ∧
    ((2 : ℚ) ≤ 120 * ((30000000000 - 0 : Int) : ℚ) / (WindowDuration : ℚ)) ∧
    F64.countAt { UpdatedAt := 0, LimitPerWindow := 120, Count := 2 } 30000000000 = 0 ∧
    (0 : Int) < 9223371977 ∧ (9223371977 : Int) ≤ maxInt64 ∧
    F64.Add (NewCounter.store "test1" { UpdatedAt := 0, LimitPerWindow := 120, Count := 2 })
        "test1" 9223371977 1 30000000000 =
      some ({ Bucket := "test1", ResetAt := 30000000000, BucketSize := -153722867,
              Remaining := 0, Allowed := false },
            NewCounter.store "test1" { UpdatedAt := 0, LimitPerWindow := 120, Count := 2 }) := by
  refine ⟨f64_scenarioA_run, ?_, f64_countAt_drained, by decide, by decide,
    f64_Add_drained_overflow⟩
  unfold WindowDuration
  norm_num

/-- C9, the code at the failing input. `Add "k" 120 9223372036854775807` on a new
counter at `time.Unix(0, 0)` stores a bucket of limit 120 holding `2 ^ 63`
tokens. Its `CountAt` at the update time is the smallest `int64`, the ceiling
`2 ^ 63` being out of range for the conversion, and ten minutes later it is
9223372036854774784: the reported count has increased with time. -/
theorem CountAt_not_antitone :
    (∃ info, F64.Add NewCounter "k" 120 9223372036854775807 0 =
      some (info, NewCounter.store "k"
        { UpdatedAt := 0, LimitPerWindow := 120, Count := 9223372036854775808 })) ∧
    (0 : Int) ≤ 120 ∧ (0 : Int) ≤ 600000000000 ∧
    F64.CountAt { UpdatedAt := 0, LimitPerWindow := 120, Count := 9223372036854775808 } 0 =
      -9223372036854775808 ∧
    F64.CountAt { UpdatedAt := 0, LimitPerWindow := 120, Count := 9223372036854775808 }
      600000000000 = 9223372036854774784 ∧
    ¬ (F64.CountAt { UpdatedAt := 0, LimitPerWindow := 120, Count := 9223372036854775808 }
        600000000000 ≤
      F64.CountAt { UpdatedAt := 0, LimitPerWindow := 120, Count := 9223372036854775808 }
        0) := by
  refine ⟨⟨_, f64_Add_maxInt64⟩, by decide, by decide, f64_CountAt_two_pow_63,
    f64_CountAt_two_pow_63_later, ?_⟩
  rw [f64_CountAt_two_pow_63, f64_CountAt_two_pow_63_later]
  decide

/-- C10 (amended). For a bucket read at an instant `now ≥ UpdatedAt`, `countAt`
is the `float64` evaluation of `max 0 (Count - LimitPerWindow * elapsed /
WindowDuration)`, every operation and the conversion of the operands rounded
to the nearest `float64`, where `elapsed` is `now - UpdatedAt` capped at the
largest `time.Duration`. It is non-negative, and when the limit is
non-negative it is at most the stored count (clamped at 0). When the ceiling
of `countAt` fits an `int64`, `CountAt` is that ceiling and is
non-negative. -/
theorem countAt_formula_rounded (b : Bucket) (now : Int) (h : b.UpdatedAt ≤ now) :
    F64.countAt b now =
      max 0 (F64.fsub b.Count
        (F64.fdiv (F64.fmul (F64.ofInt b.LimitPerWindow)
          (F64.ofInt (min maxInt64 (now - b.UpdatedAt)))) (F64.ofInt WindowDuration))) ∧
    0 ≤ F64.countAt b now ∧
    (0 ≤ b.LimitPerWindow → F64.countAt b now ≤ max 0 (F64.rnd b.Count)) ∧
    (⌈F64.countAt b now⌉ ≤ maxInt64 →
      F64.CountAt b now = ⌈F64.countAt b now⌉ ∧ 0 ≤ F64.CountAt b now) :=
  ⟨f64_countAt_formula b now h, f64_countAt_nonneg b now,
   fun hL => f64_countAt_le_count b now hL h,
   fun hr => f64_CountAt_of_range b now hr⟩

/-- C10, witness: a bucket of limit 120 holding 2 tokens, read half a minute
after its update; the decayed count is 0 and so is `CountAt`. -/
theorem countAt_formula_rounded_witness :
    (0 : Int) ≤ 30000000000 ∧
    F64.countAt { UpdatedAt := 0, LimitPerWindow := 120, Count := 2 } 30000000000 = 0 ∧
    F64.CountAt { UpdatedAt := 0, LimitPerWindow := 120, Count := 2 } 30000000000 =
      ⌈F64.countAt { UpdatedAt := 0, LimitPerWindow := 120, Count := 2 } 30000000000⌉ ∧
    0 ≤ F64.CountAt { UpdatedAt := 0, LimitPerWindow := 120, Count := 2 } 30000000000 :=
  ⟨by decide, f64_countAt_drained,
   (countAt_formula_rounded { UpdatedAt := 0, LimitPerWindow := 120, Count := 2 } 30000000000
     (by decide)).2.2.2 (by rw [f64_countAt_drained]; simp [maxInt64])⟩

/-- C10, counterexample. A bucket of limit 1 holding 262145 tokens, read
15728699999999999 ns after its update: the formula of the claim gives
`1 / 60000000000`, with ceiling 1, while `countAt` and `CountAt` are 0, the
conversion of the elapsed time to `float64` rounding up to 15728700000000000.
A bucket holding `10 ^ 19` tokens read at its update time has the `CountAt`
-9223372036854775808, which is negative. -/
theorem countAt_formula_rounded_counterexample :
    (0 : Int) ≤ 15728699999999999 ∧
    max (0 : ℚ) (262145 - 1 * ((15728699999999999 - 0 : Int) : ℚ) / (WindowDuration : ℚ)) =
      1 / 60000000000 ∧
    ⌈max (0 : ℚ) (262145 - 1 * ((15728699999999999 - 0 : Int) : ℚ) / (WindowDuration : ℚ))⌉ =
      1 ∧
    F64.countAt { UpdatedAt := 0, LimitPerWindow := 1, Count := 262145 } 15728699999999999 =
      0 ∧
    F64.CountAt { UpdatedAt := 0, LimitPerWindow := 1, Count := 262145 } 15728699999999999 =
      0 ∧
    F64.CountAt { UpdatedAt := 0, LimitPerWindow := 1, Count := 10000000000000000000 } 0 =
      -9223372036854775808 ∧
    ¬ (0 ≤ F64.CountAt
      { UpdatedAt := 0, LimitPerWindow := 1, Count := 10000000000000000000 } 0) := by
  have hf : max (0 : ℚ)
      (262145 - 1 * ((15728699999999999 - 0 : Int) : ℚ) / (WindowDuration : ℚ)) =
      1 / 60000000000 := by
    unfold WindowDuration
    norm_num
  refine ⟨by decide, hf, ?_, f64_countAt_rounded_empty, f64_CountAt_rounded_empty,
    f64_CountAt_ten_pow_19, ?_⟩
  · rw [hf, Int.ceil_eq_iff]
    norm_num
  · rw [f64_CountAt_ten_pow_19]
    decide

/-- C11. When the target is negative or the stored `Count` is at most the
target, `WillReach` returns the query instant itself. -/
theorem WillReach_no_wait (b : Bucket) (count now : Int)
    (h : count < 0 ∨ b.Count ≤ (count : ℚ)) : b.WillReach count now = some now := by
  rcases h with h | h
  · exact WillReach_of_neg b count now h
  · exact WillReach_of_count_le b count now h

/-- C11, witness: Scenario C, a bucket holding 2 tokens asked for the target 2. -/
theorem WillReach_no_wait_witness :
    ({ UpdatedAt := 0, LimitPerWindow := 120, Count := 2 } : Bucket).WillReach 2 7 = some 7 :=
  WillReach_no_wait { UpdatedAt := 0, LimitPerWindow := 120, Count := 2 } 2 7
    (Or.inr (by norm_num))

/-- C12. For a bucket with a non-zero limit `WillReach` returns, and its result
is never earlier than `now`; the `ResetAt` of every `Info` returned by `Add` is
never earlier than the instant of the call. -/
theorem WillReach_clamped (b : Bucket) (count now : Int) (hL : b.LimitPerWindow ≠ 0) :
    (∃ r, b.WillReach count now = some r ∧ now ≤ r) ∧
      ∀ (p : Counter) (key : String) (limitPerWindow add : Int) (info : Info) (p' : Counter),
        p.Add key limitPerWindow add now = some (info, p') → now ≤ info.ResetAt := by
  constructor
  · obtain ⟨r, hr⟩ := WillReach_of_limit_ne_zero b count now hL
    exact ⟨r, hr, WillReach_ge b count now r hr⟩
  · intro p key limitPerWindow add info p' hadd
    exact Add_resetAt_ge p key limitPerWindow add now info p' hadd

/-- C12, witness: a bucket of limit 120 holding 2 tokens asked, one second after
its update, when it reaches 1 token. -/
theorem WillReach_clamped_witness :
    (120 : Int) ≠ 0 ∧
      ∃ r, ({ UpdatedAt := 0, LimitPerWindow := 120, Count := 2 } : Bucket).WillReach 1
          1000000000 = some r ∧ 1000000000 ≤ r :=
  ⟨by decide,
    (WillReach_clamped { UpdatedAt := 0, LimitPerWindow := 120, Count := 2 } 1 1000000000
      (by decide)).1⟩

/-- C13. In a counter reachable from `NewCounter` every further `Add` returns:
the `WillReach` call on the existing bucket (the zero-value bucket when the key
is absent) and, for a non-zero limit, the one on the new bucket never reach the
division with a zero `LimitPerWindow`. -/
theorem Add_no_zero_division (p : Counter) (hp : Reachable p) (key : String)
    (limitPerWindow add now : Int) :
    (∃ info p', p.Add key limitPerWindow add now = some (info, p')) ∧
      (∃ r, (p.lookup key).WillReach (wrap64 (BucketSize limitPerWindow - add)) now = some r) ∧
      (limitPerWindow ≠ 0 →
        ∃ r, ((p.lookup key).Plus now limitPerWindow add).WillReach
          (wrap64 (BucketSize limitPerWindow - 1)) now = some r) := by
  have hstored : ∀ b, p.buckets key = some b → b.LimitPerWindow ≠ 0 :=
    fun b hb => stored_limit_ne_zero hp key b hb
  refine ⟨?_, lookup_WillReach_total p key _ now hstored, ?_⟩
  · obtain ⟨info, p', hadd, _⟩ := Add_total p key limitPerWindow add now hstored
    exact ⟨info, p', hadd⟩
  · intro hL
    exact WillReach_of_limit_ne_zero _ _ now hL

/-- C13, witness: a key absent from the new counter, with an amount above the
capacity, so that the reject path runs on the zero-value bucket. -/
theorem Add_no_zero_division_witness :
    Reachable NewCounter ∧ NewCounter.buckets "k" = none ∧
      ∃ info p', NewCounter.Add "k" 120 3 unixEpoch = some (info, p') :=
  ⟨Reachable.init, rfl, (Add_no_zero_division NewCounter Reachable.init "k" 120 3 unixEpoch).1⟩

/-- C14 (amended). In every counter reachable from `NewCounter` by `Add` calls
whose amounts are non-negative, every stored bucket has `Count ≥ 0`. -/
theorem reachable_count_nonneg (p : Counter) (hp : ReachableNonneg p) (key : String)
    (b : Bucket) (hb : p.buckets key = some b) : 0 ≤ b.Count :=
  stored_count_nonneg hp key b hb

/-- C14, witness: the counter after the first call of the repository tests. -/
theorem reachable_count_nonneg_witness :
    ReachableNonneg (NewCounter.store "test1"
        { UpdatedAt := unixEpoch, LimitPerWindow := 120, Count := 1 }) ∧
      (0 : ℚ) ≤ ({ UpdatedAt := unixEpoch, LimitPerWindow := 120, Count := 1 } : Bucket).Count :=
  have hr : ReachableNonneg (NewCounter.store "test1"
      { UpdatedAt := unixEpoch, LimitPerWindow := 120, Count := 1 }) :=
    ReachableNonneg.step "test1" 120 1 unixEpoch ReachableNonneg.init (by decide)
      Add_test1_first
  ⟨hr, reachable_count_nonneg _ hr "test1" _ (store_buckets_self _ _ _)⟩

/-- C14, counterexample. `Add "k" 120 (-5)` on a new counter is allowed (the
display count is clamped to 0) and stores a bucket whose `Count` is -5. -/
theorem reachable_count_nonneg_counterexample :
    Reachable (NewCounter.store "k"
        { UpdatedAt := unixEpoch, LimitPerWindow := 120, Count := -5 }) ∧
      (NewCounter.store "k"
        { UpdatedAt := unixEpoch, LimitPerWindow := 120, Count := -5 }).buckets "k" =
        some { UpdatedAt := unixEpoch, LimitPerWindow := 120, Count := -5 } ∧
      ({ UpdatedAt := unixEpoch, LimitPerWindow := 120, Count := -5 } : Bucket).Count < 0 :=
  ⟨Reachable.step "k" 120 (-5) unixEpoch Reachable.init Add_negative_amount,
    store_buckets_self _ _ _, by norm_num⟩

/-- C15, the code at the failing input. `Add "k" 120 9223372036854775807` on a
new counter at `time.Unix(0, 0)`: the projected count `2 ^ 63` is out of range
for the conversion to `int64`, `CountAt` returns the smallest `int64`, the call
is allowed and `Remaining` is `2 - (-2 ^ 63)` wrapped, a negative number. -/
theorem Add_remaining_negative :
    F64.Add NewCounter "k" 120 9223372036854775807 0 =
      some ({ Bucket := "k", ResetAt := 0, BucketSize := 2,
              Remaining := -9223372036854775806, Allowed := true },
            NewCounter.store "k"
              { UpdatedAt := 0, LimitPerWindow := 120, Count := 9223372036854775808 }) ∧
    (9223372036854775807 : Int) ≤ maxInt64 ∧
    ¬ ((0 : Int) ≤ -9223372036854775806) :=
  ⟨f64_Add_maxInt64, by decide, by decide⟩

/-- C16, the code at the failing input. The bucket of limit 7 holding 1 token,
asked at its update time when it reaches 0, answers 8571428571 ns later (the
truncation of 60000000000 / 7); at that instant its display count is still 1. -/
theorem WillReach_target_not_reached :
    (0 : Int) < 7 ∧ (0 : Int) ≤ 0 ∧
      ({ UpdatedAt := unixEpoch, LimitPerWindow := 7, Count := 1 } : Bucket).WillReach 0
          unixEpoch = some 8571428571 ∧
      ({ UpdatedAt := unixEpoch, LimitPerWindow := 7, Count := 1 } : Bucket).CountAt
          8571428571 = 1 ∧
      ¬ (({ UpdatedAt := unixEpoch, LimitPerWindow := 7, Count := 1 } : Bucket).CountAt
          8571428571 ≤ 0) := by
  refine ⟨by decide, by decide, WillReach_limit7 unixEpoch (by decide), CountAt_limit7, ?_⟩
  rw [CountAt_limit7]
  decide

/-- C17, the code at the failing input. On a new counter a single token of
limit 7 at `time.Unix(0, 0)` is allowed with `ResetAt = 8571428571`; the
following single-token call at that `ResetAt` is rejected. -/
theorem resetAt_admission_refused :
    ReachablePos NewCounter ∧
      NewCounter.addAll [⟨"k", 7, 1, unixEpoch⟩, ⟨"k", 7, 1, 8571428571⟩] =
        some ([{ Bucket := "k", ResetAt := 8571428571, BucketSize := 1, Remaining := 0,
                 Allowed := true },
               { Bucket := "k", ResetAt := 8571428571, BucketSize := 1, Remaining := 0,
                 Allowed := false }],
              NewCounter.store "k"
                { UpdatedAt := unixEpoch, LimitPerWindow := 7, Count := 1 }) := by
  refine ⟨ReachablePos.init, ?_⟩
  simp only [Counter.addAll, Add_limit7_first,
    Add_limit7_reject 8571428571 (by decide) (by decide)]

/-- C18. `Add` on a key leaves the entry of every other key as it was, and an
allowed call with a non-zero limit stores for its key exactly
`existing.Plus now limitPerWindow add`, the bucket updated at `now` under the
call's limit with count `existing.countAt now + add`. -/
theorem Add_per_key_isolation (p : Counter) (key : String) (limitPerWindow add now : Int)
    (info : Info) (p' : Counter)
    (hadd : p.Add key limitPerWindow add now = some (info, p')) :
    (∀ k, k ≠ key → p'.buckets k = p.buckets k) ∧
      (info.Allowed = true → limitPerWindow ≠ 0 →
        p'.buckets key = some ((p.lookup key).Plus now limitPerWindow add) ∧
        (p.lookup key).Plus now limitPerWindow add =
          { UpdatedAt := now, LimitPerWindow := limitPerWindow,
            Count := (p.lookup key).countAt now + (add : ℚ) }) := by
  rcases Add_cases p key limitPerWindow add now info p' hadd with
    ⟨hsame, hzero⟩ | ⟨_, _, _, hst⟩
  · refine ⟨fun k _ => by rw [hsame], ?_⟩
    intro hal hL
    exact absurd (hzero hal) hL
  · refine ⟨fun k hk => by rw [hst, store_buckets_other _ _ _ _ hk], ?_⟩
    intro _ _
    exact ⟨by rw [hst, store_buckets_self], rfl⟩

/-- C18, witness: the first call of the repository tests. -/
theorem Add_per_key_isolation_witness :
    (∀ k, k ≠ "test1" →
        (NewCounter.store "test1"
          { UpdatedAt := unixEpoch, LimitPerWindow := 120, Count := 1 }).buckets k =
          NewCounter.buckets k) ∧
      (true = true → (120 : Int) ≠ 0 →
        (NewCounter.store "test1"
          { UpdatedAt := unixEpoch, LimitPerWindow := 120, Count := 1 }).buckets "test1" =
            some ((NewCounter.lookup "test1").Plus unixEpoch 120 1) ∧
        (NewCounter.lookup "test1").Plus unixEpoch 120 1 =
          { UpdatedAt := unixEpoch, LimitPerWindow := 120,
            Count := (NewCounter.lookup "test1").countAt unixEpoch + ((1 : Int) : ℚ) }) :=
  Add_per_key_isolation NewCounter "test1" 120 1 unixEpoch _ _ Add_test1_first

/-- C19, the code at the failing input. With the limit 9223371977 a single call
of one token on a new counter is rejected, the capacity computed by
`BucketSize` being -153722867; the sum admitted, 0, exceeds the bound
`BucketSize L + L * (t_n - t_1) / WindowDuration = -153722867`. -/
theorem rate_limit_bound_overflow :
    NewCounter.addAll [⟨"k", 9223371977, 1, unixEpoch⟩] =
        some ([{ Bucket := "k", ResetAt := unixEpoch, BucketSize := -153722867,
                 Remaining := 0, Allowed := false }], NewCounter) ∧
      allowedSum [⟨"k", 9223371977, 1, unixEpoch⟩]
        [{ Bucket := "k", ResetAt := unixEpoch, BucketSize := -153722867,
           Remaining := 0, Allowed := false }] = 0 ∧
      ¬ (((0 : Int) : ℚ) ≤ ((BucketSize 9223371977 : Int) : ℚ) +
          ((9223371977 : Int) : ℚ) * ((unixEpoch - unixEpoch : Int) : ℚ) /
            ((WindowDuration : Int) : ℚ)) := by
  have hB : BucketSize 9223371977 = -153722867 := by decide
  refine ⟨by simp only [Counter.addAll, Add_overflow_limit], by simp [allowedSum], ?_⟩
  rw [hB]
  norm_num [unixEpoch]

/-- C20 (amended). In `float64` arithmetic, after an allowed `Add` with a
positive limit whose projected count fits an `int64`, reporting
`Remaining = r`, a following `Add` on the same key with the same limit at the
same instant is allowed for every amount `0 ≤ a ≤ r` and returns rejected for
every amount `r + 1 < a ≤ 2 ^ 62`. -/
theorem remaining_headroom_rounded (p : Counter) (key : String)
    (limitPerWindow amount now : Int) (info : Info) (p' : Counter)
    (hL : 0 < limitPerWindow)
    (hadd : F64.Add p key limitPerWindow amount now = some (info, p'))
    (hal : info.Allowed = true)
    (hr : ⌈max 0 (F64.fadd (F64.countAt (p.lookup key) now) (F64.ofInt amount))⌉ ≤ maxInt64) :
    (∀ a : Int, 0 ≤ a → a ≤ info.Remaining →
      ∃ i q, F64.Add p' key limitPerWindow a now = some (i, q) ∧ i.Allowed = true) ∧
    (∀ a : Int, info.Remaining + 1 < a → a ≤ 4611686018427387904 →
      ∃ i q, F64.Add p' key limitPerWindow a now = some (i, q) ∧ i.Allowed = false) :=
  f64_headroom p key limitPerWindow amount now info p' (ne_of_gt hL) hadd hal hr

/-- C20, witness: after the first call of the repository tests, which reports
`Remaining = 1`, one more token is allowed and three more are rejected. -/
theorem remaining_headroom_rounded_witness :
    (0 : Int) < 120 ∧
    (∃ i q, F64.Add (NewCounter.store "test1"
        { UpdatedAt := 0, LimitPerWindow := 120, Count := 1 }) "test1" 120 1 0 = some (i, q) ∧
      i.Allowed = true) ∧
    (∃ i q, F64.Add (NewCounter.store "test1"
        { UpdatedAt := 0, LimitPerWindow := 120, Count := 1 }) "test1" 120 3 0 = some (i, q) ∧
      i.Allowed = false) :=
  ⟨by decide,
   (remaining_headroom_rounded NewCounter "test1" 120 1 0 _ _ (by decide) f64_scenarioA_first
     rfl (f64_first_range "test1" 0)).1 1 (by decide) (by decide),
   (remaining_headroom_rounded NewCounter "test1" 120 1 0 _ _ (by decide) f64_scenarioA_first
     rfl (f64_first_range "test1" 0)).2 3 (by decide) (by decide)⟩

/-- C20, counterexample. After the allowed calls `Add "k" 120 1` at 0 s, 1.41 s
and 1.447 s after `time.Unix(0, 0)`, the call at 2.41 s is allowed, stores the
count `1 + 2 ^ (-52)` and reports `Remaining = 0`; a further call at the same
instant with the amount 1, which is above that `Remaining`, is allowed as
well, the `float64` sum of the stored count and 1 being 2. -/
theorem remaining_headroom_rounded_counterexample :
    (F64.addAll NewCounter [⟨"k", 120, 1, 0⟩, ⟨"k", 120, 1, 1410000000⟩,
        ⟨"k", 120, 1, 1447000000⟩] =
      some ([{ Bucket := "k", ResetAt := 0, BucketSize := 2, Remaining := 1, Allowed := true },
             { Bucket := "k", ResetAt := 1410000000, BucketSize := 2, Remaining := 1,
               Allowed := true },
             { Bucket := "k", ResetAt := 1910000000, BucketSize := 2, Remaining := 0,
               Allowed := true }],
            NewCounter.store "k"
              { UpdatedAt := 1447000000, LimitPerWindow := 120,
                Count := 1084241610289447 / 562949953421312 })) ∧
    (0 : Int) < 120 ∧ (0 : Int) ≤ 1 ∧
    (F64.Add (NewCounter.store "k"
          { UpdatedAt := 1447000000, LimitPerWindow := 120,
            Count := 1084241610289447 / 562949953421312 }) "k" 120 1 2410000000 =
        some ({ Bucket := "k", ResetAt := 2410000000, BucketSize := 2, Remaining := 0,
                Allowed := true },
              NewCounter.store "k"
                { UpdatedAt := 2410000000, LimitPerWindow := 120,
                  Count := 4503599627370497 / 4503599627370496 })) ∧
    (0 : Int) < 1 ∧
    (F64.Add (NewCounter.store "k"
          { UpdatedAt := 2410000000, LimitPerWindow := 120,
            Count := 4503599627370497 / 4503599627370496 }) "k" 120 1 2410000000 =
        some ({ Bucket := "k", ResetAt := 2910000000, BucketSize := 2, Remaining := 0,
                Allowed := true },
              NewCounter.store "k"
                { UpdatedAt := 2410000000, LimitPerWindow := 120, Count := 2 })) :=
  ⟨f64_run_three, by decide, by decide, f64_run_fourth, by decide, f64_run_fifth⟩

end LeakyBucket
